import Mathlib

/-!
# Accelerando: the runner, the registry and the sampling loop

A shallow embedding of `sources/main.cpp`, `sources/registry.cpp`,
`sources/benchmark.cpp` and `sources/test.cpp`.

Conventions of the embedding.

* Calls whose effect is user code or console output are recorded as a trace,
  a list of `Event`s in the order the calls are made.
* A function pointer and a heap object are modelled by their address, a `Nat`.
* Strings are Lean strings; offsets count characters.
* `double` arithmetic is modelled in exact rational arithmetic.
* The C++ library (`std::strtod`, `std::regex`) is a parameter, `StdLib`.
* The clock is an input: the readings the two stopwatches of `Benchmark::run`
  make are listed per benchmark object (`Round`).
* An unbounded loop takes a fuel argument; `none` stands for "no result".
* A statistics function that divides is given with the divisors of the
  divisions it executes (`Divided`); what it returns is the value of that.
-/

namespace accel

/-! ## registry.hpp, registry.cpp -/

/-- A pointer to a nullary function that returns nothing (its address). -/
abbrev Function := Nat

/-- A pair of static lifecycle functions provided by a benchmark or test class. -/
structure Lifecycle where
  set_up : Function
  tear_down : Function
deriving DecidableEq, Repr

/-- The `operator<` of `Lifecycle` (registry.cpp). -/
def Lifecycle.lt (left right : Lifecycle) : Bool :=
  if left.set_up = right.set_up then
    decide (left.tear_down < right.tear_down)
  else
    decide (left.set_up < right.set_up)

/-- A benchmark or test instance; `inst` is the object the `unique_ptr` owns. -/
structure Instance (T : Type) where
  lifecycle : Lifecycle
  name : String
  inst : T

/-! ## test.hpp, test.cpp -/

/-- A source location. -/
structure Location where
  file : String
  line : Nat
deriving DecidableEq, Repr

/-- A failed assertion. -/
structure Failure where
  location : Location
  assertion : String
  stack : List Location := []
  information : List (String × String) := []
deriving DecidableEq, Repr

/-- The failures of one test. -/
structure TestReport where
  failures : List Failure
deriving DecidableEq, Repr

/-- What user code may throw: a `std::runtime_error` with its `what()`, another
`std::exception` with its `what()`, or anything else. -/
inductive Fault where
  | runtime_error (what : String)
  | exception (what : String)
  | unknown
deriving DecidableEq, Repr

/-- A test object. `execute` is the user-written body: from the failure vector
it is handed it yields the vector as the body leaves it, and the fault the body
ends with, if it throws. -/
structure Test where
  address : Nat
  location : Location
  execute : List Failure → List Failure × Option Fault

/-! ## benchmark.hpp, benchmark.cpp -/

/-- A benchmark object; its virtual member functions are user code. -/
structure Benchmark where
  address : Nat
deriving DecidableEq, Repr

/-- One retained observation: the iteration count and the measured duration (ns). -/
structure Sample where
  iterations : Nat
  duration : Nat
deriving DecidableEq, Repr

/-- A `double` in exact arithmetic: a rational number, or `nan` for a result
that is not a finite number (a division by zero, and all arithmetic on such a
result). -/
inductive Double where
  | finite (value : ℚ)
  | nan
deriving DecidableEq

/-- Addition of `double`s. -/
def Double.add : Double → Double → Double
  | Double.finite x, Double.finite y => Double.finite (x + y)
  | _, _ => Double.nan

/-- Subtraction of `double`s. -/
def Double.sub : Double → Double → Double
  | Double.finite x, Double.finite y => Double.finite (x - y)
  | _, _ => Double.nan

/-- Multiplication of `double`s. -/
def Double.mul : Double → Double → Double
  | Double.finite x, Double.finite y => Double.finite (x * y)
  | _, _ => Double.nan

/-- Division of `double`s; a division by zero does not trap, its result is
not a finite number. -/
def Double.div : Double → Double → Double
  | Double.finite x, Double.finite y => if y = 0 then Double.nan else Double.finite (x / y)
  | _, _ => Double.nan

/-- The call `std::pow(x, 2.0)`. -/
def Double.pow2 (x : Double) : Double :=
  Double.mul x x

/-- The conversion of a `uint64_t` or `size_t` to `double`, in exact
arithmetic: the number itself. (The conversion of the code is exact up to 2^53
and rounds to 53 significant bits above.) -/
def Double.of_uint64 (value : Nat) : Double :=
  Double.finite (value : ℚ)

/-- The `average` field the constructor of `Sample` computes:
`duration.count() / static_cast<double>(iterations)`. -/
def Sample.average (sample : Sample) : Double :=
  Double.div (Double.of_uint64 sample.duration) (Double.of_uint64 sample.iterations)

/-- The report of a benchmark; mean, deviation and regression are computed
from `samples` by the constructor. -/
structure BenchmarkReport where
  samples : List Sample
deriving DecidableEq, Repr

/-- The calls and outputs of a run, in the order they are made. -/
inductive Event where
  | print_help (name : String) (benchmarks : Bool)
  | error (message : String) (value : String)
  | handle_start (count : Nat)
  | static_set_up (lifecycle : Lifecycle)
  | static_tear_down (lifecycle : Lifecycle)
  | set_up (object : Nat)
  | execute (object : Nat)
  | tear_down (object : Nat)
  | unit_started (name : String)
  | unit_report (report : BenchmarkReport)
  | unit_finished (name : String)
  | handle_end
deriving DecidableEq, Repr

/-- The `static_cast<uint64_t>` of a `double`: truncation. -/
def to_uint64 (value : ℚ) : Nat :=
  (Rat.floor value).toNat

/-- A geometric series which produces non-repeating integers. -/
structure GeometricSeries where
  value : ℚ
  ratio : ℚ

/-- The `while (true)` loop of `GeometricSeries::next`. -/
def GeometricSeries.next.loop (previous : Nat) (ratio : ℚ) : Nat → ℚ → Option (Nat × ℚ)
  | 0, _ => none
  | fuel + 1, value =>
    let value := value * ratio
    let current := to_uint64 value
    if current ≠ previous then
      some (current, value)
    else
      GeometricSeries.next.loop previous ratio fuel value

/-- The function `GeometricSeries::next`: the integer returned and the series after the call. -/
def GeometricSeries.next (fuel : Nat) (self : GeometricSeries) : Option (Nat × GeometricSeries) :=
  let previous := to_uint64 self.value
  match GeometricSeries.next.loop previous self.ratio fuel self.value with
  | none => none
  | some (current, value) => some (current, { self with value := value })

/-- The two clock readings of one trip round the sampling loop: `elapsed` is
what `stopwatch.get()` returns in the loop test, `duration` what `sample.get()`
returns after the block of executions. -/
structure Round where
  elapsed : Nat
  duration : Nat
deriving DecidableEq, Repr

/-- The sampling loop of `Benchmark::run`. The list holds the clock readings
still to come; once it is used up the budget test fails. -/
def Benchmark.run.loop (fuel : Nat) (self : Benchmark) (limit : Nat) :
    List Round → GeometricSeries → List Sample → Option (List Event × List Sample)
  | [], _, samples => some ([], samples)
  | round :: rounds, series, samples =>
    if round.elapsed < limit then
      match series.next fuel with
      | none => none
      | some (iterations, series) =>
        let block := List.replicate iterations (Event.execute self.address)
        let samples :=
          if round.duration > 1000000 then samples ++ [Sample.mk iterations round.duration]
          else samples
        match Benchmark.run.loop fuel self limit rounds series samples with
        | none => none
        | some (events, samples) => some (block ++ events, samples)
    else
      some ([], samples)

/-- The function `Benchmark::run`. -/
def Benchmark.run (fuel : Nat) (self : Benchmark) (limit : Nat) (rounds : List Round) :
    Option (List Event × BenchmarkReport) :=
  match Benchmark.run.loop fuel self limit rounds (GeometricSeries.mk 1 (21 / 20)) [] with
  | none => none
  | some (events, samples) =>
    some ([Event.set_up self.address] ++ events ++ [Event.tear_down self.address],
      BenchmarkReport.mk samples)

/-- The function `Test::run` (with exceptions enabled). -/
def Test.run (self : Test) : List Event × TestReport :=
  let (failures, fault) := self.execute []
  let failures :=
    match fault with
    | none => failures
    | some (Fault.runtime_error what) =>
      failures ++ [{ location := self.location, assertion := "Unexpected exception.",
                     information := [("message", what)] }]
    | some (Fault.exception what) =>
      failures ++ [{ location := self.location, assertion := "Unexpected exception.",
                     information := [("message", what)] }]
    | some Fault.unknown =>
      failures ++ [{ location := self.location,
                     assertion := "Unexpected exception of unknown type." }]
  ([Event.set_up self.address, Event.execute self.address, Event.tear_down self.address],
    TestReport.mk failures)

/-- A collection of registered benchmarks or tests. -/
structure Registry where
  benchmarks : List (Instance Benchmark) := []
  tests : List (Instance Test) := []

/-- Registers a benchmark under the supplied name (`register_benchmark`). -/
def Registry.register_benchmark (self : Registry) (lifecycle : Lifecycle) (name : String)
    (object : Benchmark) : Registry :=
  { self with benchmarks := self.benchmarks ++ [Instance.mk lifecycle name object] }

/-- Registers a test under the supplied name (`register_test`). -/
def Registry.register_test (self : Registry) (lifecycle : Lifecycle) (name : String)
    (object : Test) (location : Location) : Registry :=
  { self with tests := self.tests ++ [Instance.mk lifecycle name { object with location := location }] }

/-! ## main.cpp -/

/-- The parts of the C++ library the runner calls. `strtod` yields the number
read and the count of characters consumed; a `std::regex` is represented by
the pattern it was built from, `regex_valid` tells whether its constructor
returns (rather than throwing `std::regex_error`) and `regex_match name
pattern` is `std::regex_match`. -/
structure StdLib where
  strtod : String → ℚ × Nat
  regex_valid : String → Bool
  regex_match : String → String → Bool

/-- Stores and parses command-line arguments. -/
structure Options where
  limit : Nat := 5000000000
  regex : String := ".*"
deriving DecidableEq, Repr

/-- The function `Options::parse_limit`. The product `1'000'000'000 * number`
is taken in exact arithmetic and truncated; the code takes it in `double`, so
the limit it stores may differ by the rounding of that product. -/
def Options.parse_limit (L : StdLib) (self : Options) (value : String) :
    List Event × Options × Bool :=
  let (number, stop) := L.strtod value
  if stop = value.length then
    ([], { self with limit := to_uint64 (1000000000 * number) % 2 ^ 64 }, true)
  else
    ([Event.error "invalid number" value], self, false)

/-- The function `Options::parse_regex` (with exceptions enabled). -/
def Options.parse_regex (L : StdLib) (self : Options) (value : String) :
    List Event × Options × Bool :=
  if L.regex_valid value then
    ([], { self with regex := value }, true)
  else
    ([Event.error "invalid regex" value], self, false)

/-- The test `argument.compare(0, 8, text) == 0`. -/
def starts_with (argument : String) (text : String) : Bool :=
  argument.data.take 8 = text.data

/-- The call `argument.substr(8)`. -/
def substr8 (argument : String) : String :=
  String.mk (argument.data.drop 8)

/-- The loop of `Options::parse` over `argv[1..]`; `name` is `argv[0]`. -/
def Options.parse.loop (L : StdLib) (name : String) (benchmarks : Bool) :
    List String → Options → List Event × Options × Option Int
  | [], self => ([], self, none)
  | argument :: rest, self =>
    if argument = "--help" then
      ([Event.print_help name benchmarks], self, some 0)
    else if benchmarks && starts_with argument "--limit=" then
      match Options.parse_limit L self (substr8 argument) with
      | (out, self, false) => (out, self, some 1)
      | (out, self, true) =>
        match Options.parse.loop L name benchmarks rest self with
        | (more, self, code) => (out ++ more, self, code)
    else if starts_with argument "--regex=" then
      match Options.parse_regex L self (substr8 argument) with
      | (out, self, false) => (out, self, some 1)
      | (out, self, true) =>
        match Options.parse.loop L name benchmarks rest self with
        | (more, self, code) => (out ++ more, self, code)
    else
      ([Event.error "invalid argument" argument], self, some 1)

/-- The function `Options::parse`: the output, the options as the call leaves
them and the exit code, if the process is to exit. -/
def Options.parse (L : StdLib) (self : Options) (argv : List String) (benchmarks : Bool) :
    List Event × Options × Option Int :=
  Options.parse.loop L (argv.headD "") benchmarks (argv.drop 1) self

/-- The `std::map<Lifecycle, std::pair<size_t, size_t>>` of `run`: its
entries. Only `find`, `emplace` and writes through an iterator are used, so
the order of the entries is not observable. -/
abbrev Lifecycles := List (Lifecycle × (Nat × Nat))

/-- Key equivalence of `std::map`: neither key is less than the other. -/
def Lifecycle.equivalent (left right : Lifecycle) : Bool :=
  !(left.lt right) && !(right.lt left)

/-- The call `lifecycles.find(key)`; `none` is `lifecycles.end()`. -/
def Lifecycles.find (lifecycles : Lifecycles) (key : Lifecycle) :
    Option (Lifecycle × (Nat × Nat)) :=
  List.find? (fun entry => entry.1.equivalent key) lifecycles

/-- The call `lifecycles.emplace(key, value)`. -/
def Lifecycles.emplace (lifecycles : Lifecycles) (key : Lifecycle) (value : Nat × Nat) :
    Lifecycles :=
  match Lifecycles.find lifecycles key with
  | some _ => lifecycles
  | none => lifecycles ++ [(key, value)]

/-- A write to `iterator->second` where `iterator` is `lifecycles.find(key)`. -/
def Lifecycles.assign (lifecycles : Lifecycles) (key : Lifecycle) (value : Nat × Nat) :
    Lifecycles :=
  List.map (fun entry => if entry.1.equivalent key then (entry.1, value) else entry) lifecycles

/-- The function `Runner<Benchmark>::handle_start`. -/
def Runner.handle_start (filtered : List (Instance Benchmark)) : List Event :=
  [Event.handle_start filtered.length]

/-- The function `Runner<Benchmark>::handle_end`. -/
def Runner.handle_end : List Event × Int :=
  ([Event.handle_end], 0)

/-- The function `Runner<Benchmark>::handle_instance`. -/
def Runner.handle_instance (fuel : Nat) (clock : Benchmark → List Round)
    (benchmark : Instance Benchmark) (options : Options) : Option (List Event) :=
  match Benchmark.run fuel benchmark.inst options.limit (clock benchmark.inst) with
  | none => none
  | some (events, report) =>
    some ([Event.unit_started benchmark.name] ++ events ++
      [Event.unit_report report, Event.unit_finished benchmark.name])

/-- The first loop of `run`: collect the filtered instances and count the
members of each lifecycle. -/
def run.collect (L : StdLib) (options : Options) :
    List (Instance Benchmark) → List (Instance Benchmark) × Lifecycles →
    List (Instance Benchmark) × Lifecycles
  | [], state => state
  | inst :: instances, (filtered, lifecycles) =>
    if L.regex_match inst.name options.regex then
      match Lifecycles.find lifecycles inst.lifecycle with
      | some (_, (first, second)) =>
        run.collect L options instances
          (filtered ++ [inst], Lifecycles.assign lifecycles inst.lifecycle (first, second + 1))
      | none =>
        run.collect L options instances
          (filtered ++ [inst], Lifecycles.emplace lifecycles inst.lifecycle (0, 1))
    else
      run.collect L options instances (filtered, lifecycles)

/-- The second loop of `run`: run the filtered instances. Dereferencing
`lifecycles.end()` has no result. -/
def run.execute (fuel : Nat) (clock : Benchmark → List Round) (options : Options) :
    List (Instance Benchmark) → Lifecycles → Option (List Event)
  | [], _ => some []
  | inst :: filtered, lifecycles =>
    match Lifecycles.find lifecycles inst.lifecycle with
    | none => none
    | some (key, (first, second)) =>
      let first := first + 1
      let lifecycles := Lifecycles.assign lifecycles inst.lifecycle (first, second)
      let before := if first = 1 then [Event.static_set_up key] else []
      match Runner.handle_instance fuel clock inst options with
      | none => none
      | some events =>
        let after := if first = second then [Event.static_tear_down key] else []
        match run.execute fuel clock options filtered lifecycles with
        | none => none
        | some rest =>
          some (before ++ [Event.set_up inst.inst.address] ++ events ++
            [Event.tear_down inst.inst.address] ++ after ++ rest)

/-- The function template `run`, at `T = Benchmark` (the one `Runner` there is). -/
def run (fuel : Nat) (L : StdLib) (clock : Benchmark → List Round) (argv : List String)
    (instances : List (Instance Benchmark)) : Option (List Event × Int) :=
  match Options.parse L {} argv true with
  | (out, _, some code) => some (out, code)
  | (out, options, none) =>
    match run.collect L options instances ([], []) with
    | (filtered, lifecycles) =>
      match run.execute fuel clock options filtered lifecycles with
      | none => none
      | some events =>
        some (out ++ Runner.handle_start filtered ++ events ++ Runner.handle_end.1,
          Runner.handle_end.2)

/-- The function `main_benchmarks`. -/
def main_benchmarks (fuel : Nat) (L : StdLib) (clock : Benchmark → List Round)
    (registry : Registry) (argv : List String) : Option (List Event × Int) :=
  run fuel L clock argv registry.benchmarks

/-- The function `main_tests`: its body is `return 0;`. -/
def main_tests (_registry : Registry) (_argv : List String) : List Event × Int :=
  ([], 0)

/-! ## A small instance of the library, for concrete runs -/

/-- Zero or more characters matching `c`, then the rest of the pattern (`k`). -/
def example_star (c : Char) (k : List Char → Bool) : List Char → Bool
  | [] => k []
  | t :: text => k (t :: text) || ((c = '.' || c = t) && example_star c k text)

/-- Whole-text match of a pattern made of characters, `.` and a trailing `*`
after a character or `.`. -/
def example_match : List Char → List Char → Bool
  | [], text => text.isEmpty
  | c :: '*' :: rest, text => example_star c (example_match rest) text
  | _ :: _, [] => false
  | c :: rest, t :: text => (c = '.' || c = t) && example_match rest text

/-- A library that reads unsigned decimal integers and matches the patterns
of `example_match`; a pattern is valid unless it holds a `[`. -/
def example_std : StdLib where
  strtod value :=
    let digits := value.data.takeWhile Char.isDigit
    (digits.foldl (fun n c => 10 * n + ((c.toNat - 48 : Nat) : ℚ)) 0, digits.length)
  regex_valid pattern := !pattern.data.contains '['
  regex_match name pattern := example_match pattern.data name.data

/-! ## assert.hpp, assert.cpp -/

/-- The member function `Failure::add_information` (test.cpp). -/
def Failure.add_information (self : Failure) (key : String) (value : String) : Failure :=
  { self with information := self.information ++ [(key, value)] }

/-- A collection of information about the assertion calling an assertion
function. The macros give `arguments` one entry for each argument of the
check, so the entries the checks read are there. -/
structure Assertion where
  location : Location
  assertion : String
  arguments : List String
deriving DecidableEq, Repr

/-- The value `PASS`, which successful assertion functions return. -/
def PASS : Option Failure :=
  none

/-- The value `FAIL`: a failure built by `Failure{location, assertion}`, with an
empty call stack and no information. -/
def FAIL (assertion : Assertion) : Failure :=
  { location := assertion.location, assertion := assertion.assertion }

/-- The overload `detail::stringify(bool)`. -/
def detail.stringify_bool (value : Bool) : Option String :=
  if value then some "true" else some "false"

/-- The function `std::to_string` on a `uint64_t`. -/
def to_string (value : Nat) : String :=
  toString value

/-- The function template `add_information`; `stringify` is the overload of
`detail::stringify` for the type of `value`. -/
def add_information {T : Type} (stringify : T → Option String) (failure : Failure)
    (key : String) (value : T) (argument : String) : Failure :=
  match stringify value with
  | some string => if string ≠ argument then failure.add_information key string else failure
  | none => failure

/-- The assertion function `detail::boolean`; `equals value expected` is
`value == expected`. -/
def detail.boolean {T : Type} (stringify : T → Option String) (equals : T → Bool → Bool)
    (assertion : Assertion) (value : T) (expected : Bool) : Option Failure :=
  if equals value expected then
    PASS
  else
    let failure := FAIL assertion
    let failure := add_information stringify failure "value" value (assertion.arguments.getD 0 "")
    some failure

/-- The assertion function `detail::cmp`. -/
def detail.cmp {T U : Type} (stringify_left : T → Option String)
    (stringify_right : U → Option String) (assertion : Assertion) (left : T) (right : U)
    (cmp : T → U → Bool) : Option Failure :=
  if cmp left right then
    PASS
  else
    let failure := FAIL assertion
    let failure :=
      add_information stringify_left failure "left" left (assertion.arguments.getD 0 "")
    let failure :=
      add_information stringify_right failure "right" right (assertion.arguments.getD 1 "")
    some failure

/-- The union `Representation<T, I>`: a floating-point value of a type that is
`width` bits wide, read as the unsigned integer `bits`. -/
structure Representation (width : Nat) where
  bits : Nat
  in_range : bits < 2 ^ width

/-- The function template `detail::get_ulp_difference<T, I>`; the difference of
type `I` is converted to the `uint64_t` returned. -/
def detail.get_ulp_difference {width : Nat} (left right : Representation width) : Nat :=
  (max left.bits right.bits - min left.bits right.bits) % 2 ^ width % 2 ^ 64

/-- The overload `detail::get_ulp_difference(float, float)`. -/
def detail.get_ulp_difference_float (left right : Representation 32) : Nat :=
  detail.get_ulp_difference left right

/-- The overload `detail::get_ulp_difference(double, double)`. -/
def detail.get_ulp_difference_double (left right : Representation 64) : Nat :=
  detail.get_ulp_difference left right

/-- The comparator `std::less_equal` on `uint64_t`. -/
def less_equal (left right : Nat) : Bool :=
  decide (left ≤ right)

/-- The comparator `std::greater` on `uint64_t`. -/
def greater (left right : Nat) : Bool :=
  decide (left > right)

/-- The assertion function `detail::fpcmp`, for `float` (`width = 32`) and
`double` (`width = 64`). -/
def detail.fpcmp {width : Nat} (stringify : Representation width → Option String)
    (assertion : Assertion) (left right : Representation width) (ulp : Nat)
    (f : Nat → Nat → Bool) : Option Failure :=
  let difference := detail.get_ulp_difference left right
  if f difference ulp then
    PASS
  else
    let failure := FAIL assertion
    let failure := add_information stringify failure "left" left (assertion.arguments.getD 0 "")
    let failure := add_information stringify failure "right" right (assertion.arguments.getD 1 "")
    let failure := failure.add_information "difference" (to_string difference)
    some failure

/-- The macro `ACCEL_ASSERT_HELPER`, given what `FUNCTION(assertion, ...)`
returns: the failure vector after the check, and whether the body returns. -/
def ACCEL_ASSERT_HELPER (RETURN : Bool) (outcome : Option Failure) (failures : List Failure) :
    List Failure × Bool :=
  match outcome with
  | some failure => (failures ++ [failure], RETURN)
  | none => (failures, false)

/-- The macro `ACCEL_ASSERT_BOOLEAN` on a value of type `bool`: `VALUE` is the
source text of the argument, `value` what it evaluates to. -/
def ACCEL_ASSERT_BOOLEAN (RETURN : Bool) (NAME : String) (location : Location)
    (VALUE : String) (value : Bool) (EXPECTED : Bool) (failures : List Failure) :
    List Failure × Bool :=
  ACCEL_ASSERT_HELPER RETURN
    (detail.boolean detail.stringify_bool (fun left right => left == right)
      (Assertion.mk location (NAME ++ "(" ++ VALUE ++ ")")
        [VALUE, if EXPECTED then "true" else "false"])
      value EXPECTED)
    failures

/-- The macro `ASSERT_TRUE`. -/
def ASSERT_TRUE (location : Location) (VALUE : String) (value : Bool)
    (failures : List Failure) : List Failure × Bool :=
  ACCEL_ASSERT_BOOLEAN true "ASSERT_TRUE" location VALUE value true failures

/-- The macro `EXPECT_TRUE`. -/
def EXPECT_TRUE (location : Location) (VALUE : String) (value : Bool)
    (failures : List Failure) : List Failure × Bool :=
  ACCEL_ASSERT_BOOLEAN false "EXPECT_TRUE" location VALUE value true failures

/-- The macro `ASSERT_FALSE`. -/
def ASSERT_FALSE (location : Location) (VALUE : String) (value : Bool)
    (failures : List Failure) : List Failure × Bool :=
  ACCEL_ASSERT_BOOLEAN true "ASSERT_FALSE" location VALUE value false failures

/-- The macro `EXPECT_FALSE`. -/
def EXPECT_FALSE (location : Location) (VALUE : String) (value : Bool)
    (failures : List Failure) : List Failure × Bool :=
  ACCEL_ASSERT_BOOLEAN false "EXPECT_FALSE" location VALUE value false failures

/-- One check of a test body: the `RETURN` argument of its macro (true for
`ASSERT`, false for `EXPECT`) and what its assertion function returns. -/
structure Check where
  RETURN : Bool
  outcome : Option Failure
deriving DecidableEq, Repr

/-- A test body that is a sequence of checks: the failure vector as the body
leaves it, and the checks whose assertion function was called. -/
def run_checks : List Check → List Failure → List Failure × List Check
  | [], failures => (failures, [])
  | check :: rest, failures =>
    match ACCEL_ASSERT_HELPER check.RETURN check.outcome failures with
    | (failures, true) => (failures, [check])
    | (failures, false) =>
      match run_checks rest failures with
      | (failures, evaluated) => (failures, check :: evaluated)

/-- A test whose body is a sequence of checks. -/
def test_of_checks (address : Nat) (location : Location) (body : List Check) : Test where
  address := address
  location := location
  execute failures := ((run_checks body failures).1, none)

/-- The checks of a body up to and including its first failing terminating check. -/
def through_first_fatal : List Check → List Check
  | [] => []
  | check :: rest =>
    if check.RETURN && check.outcome.isSome then [check]
    else check :: through_first_fatal rest

/-- The absolute difference of two bit patterns. -/
def bit_distance (left right : Nat) : Nat :=
  Int.natAbs ((left : Int) - (right : Int))

/-! ## assert.hpp: groups and exceptions -/

/-- The macro `ACCEL_ASSERT_GROUP`: `FUNCTION` is the group function, which is
handed a new failure vector, and `location` the place of the macro
(`__FILE__`, `__LINE__`). Yields the failure vector of the test after the
check, and whether the body returns. -/
def ACCEL_ASSERT_GROUP (RETURN : Bool) (location : Location)
    (FUNCTION : List Failure → List Failure) (test_failures : List Failure) :
    List Failure × Bool :=
  let failures := FUNCTION []
  let failed := !failures.isEmpty
  let test_failures :=
    failures.foldl
      (fun test_failures failure =>
        test_failures ++ [{ failure with stack := location :: failure.stack }])
      test_failures
  (test_failures, failed && RETURN)

/-- The macro `ASSERT_GROUP`. -/
def ASSERT_GROUP (location : Location) (FUNCTION : List Failure → List Failure)
    (test_failures : List Failure) : List Failure × Bool :=
  ACCEL_ASSERT_GROUP true location FUNCTION test_failures

/-- The macro `EXPECT_GROUP`. -/
def EXPECT_GROUP (location : Location) (FUNCTION : List Failure → List Failure)
    (test_failures : List Failure) : List Failure × Bool :=
  ACCEL_ASSERT_GROUP false location FUNCTION test_failures

/-- The function `std::iscntrl` (in the C locale). -/
def iscntrl (c : Char) : Bool :=
  c.toNat < 32 || c.toNat = 127

/-- One upper-case hexadecimal digit. -/
def detail.hex_digit (digit : Nat) : Char :=
  if digit < 10 then Char.ofNat (48 + digit) else Char.ofNat (55 + digit)

/-- What the loop of `detail::stringify(const char*, size_t)` appends for one
character (of a code below 128). -/
def detail.escape (c : Char) : List Char :=
  if iscntrl c then
    Char.ofNat 92 ::
      (if c = Char.ofNat 34 then [Char.ofNat 34]
      else if c = Char.ofNat 92 then [Char.ofNat 92]
      else if c = Char.ofNat 8 then ['b']
      else if c = Char.ofNat 12 then ['f']
      else if c = Char.ofNat 10 then ['n']
      else if c = Char.ofNat 13 then ['r']
      else if c = Char.ofNat 9 then ['t']
      else ['x', detail.hex_digit (c.toNat / 16), detail.hex_digit (c.toNat % 16)])
  else
    [c]

/-- The overload `detail::stringify(const char*)`. -/
def detail.stringify_cstring (value : String) : Option String :=
  some (String.mk (Char.ofNat 34 :: (value.data.flatMap detail.escape ++ [Char.ofNat 34])))

/-- The assertion function `detail::exception`. `thrown` is the outcome of
`expression()`: the fault it throws, if any. `shift` is the `operator<<` of
`Failure`, which `test.hpp` defines. -/
def detail.exception (shift : Failure → String → Failure) (assertion : Assertion)
    (thrown : Option Fault) (expected : Bool) : Option Failure :=
  match thrown with
  | none =>
    if !expected then PASS
    else some (shift (FAIL assertion) "Expected exception")
  | some (Fault.runtime_error what) =>
    if expected then PASS
    else
      let failure := shift (FAIL assertion) "Unexpected std::runtime_error"
      some (failure.add_information "what()" ((detail.stringify_cstring what).getD ""))
  | some _ =>
    if expected then PASS
    else some (shift (FAIL assertion) "Unexpected exception of unknown type")

/-- The macro `ACCEL_ASSERT_THROW`: `EXPRESSION` is the source text of the
expression, `thrown` the fault its evaluation throws, if any. -/
def ACCEL_ASSERT_THROW (shift : Failure → String → Failure) (RETURN : Bool) (NAME : String)
    (location : Location) (EXPRESSION : String) (thrown : Option Fault) (EXPECTED : Bool)
    (failures : List Failure) : List Failure × Bool :=
  ACCEL_ASSERT_HELPER RETURN
    (detail.exception shift
      (Assertion.mk location (NAME ++ "(" ++ EXPRESSION ++ ")")
        ["[&] \x7b " ++ EXPRESSION ++ "; \x7d", if EXPECTED then "true" else "false"])
      thrown EXPECTED)
    failures

/-- The macro `EXPECT_THROW`. -/
def EXPECT_THROW (shift : Failure → String → Failure) (location : Location)
    (EXPRESSION : String) (thrown : Option Fault) (failures : List Failure) :
    List Failure × Bool :=
  ACCEL_ASSERT_THROW shift false "EXPECT_THROW" location EXPRESSION thrown true failures

/-- The macro `EXPECT_NOTHROW`. -/
def EXPECT_NOTHROW (shift : Failure → String → Failure) (location : Location)
    (EXPRESSION : String) (thrown : Option Fault) (failures : List Failure) :
    List Failure × Bool :=
  ACCEL_ASSERT_THROW shift false "EXPECT_NOTHROW" location EXPRESSION thrown false failures

/-- The macro `ASSERT_THROW`. -/
def ASSERT_THROW (shift : Failure → String → Failure) (location : Location)
    (EXPRESSION : String) (thrown : Option Fault) (failures : List Failure) :
    List Failure × Bool :=
  ACCEL_ASSERT_THROW shift true "ASSERT_THROW" location EXPRESSION thrown true failures

/-- The macro `ASSERT_NOTHROW`. -/
def ASSERT_NOTHROW (shift : Failure → String → Failure) (location : Location)
    (EXPRESSION : String) (thrown : Option Fault) (failures : List Failure) :
    List Failure × Bool :=
  ACCEL_ASSERT_THROW shift true "ASSERT_NOTHROW" location EXPRESSION thrown false failures

/-! ## benchmark.cpp: the statistics -/

/-- The result of a computation together with the divisors of the
floating-point divisions executed in computing it, in the order of execution. -/
structure Divided (α : Type) where
  value : α
  divisors : List Double

/-- The division `x / y` of doubles as the code executes it: the quotient, and
the divisor it was executed with. -/
def Double.divide (x y : Double) : Divided Double :=
  Divided.mk (Double.div x y) [y]

/-- The constructor `Sample::Sample`: it divides the duration by the iteration count
for the field `average` (which is read through `Sample.average`). -/
def Sample.construct (iterations duration : Nat) : Divided Sample :=
  let average := Double.divide (Double.of_uint64 duration) (Double.of_uint64 iterations)
  Divided.mk (Sample.mk iterations duration) average.divisors

/-- An implementation of the Kahan summation algorithm for improved floating
point sum accuracy. -/
structure KahanSummation where
  sum : Double := Double.finite 0
  correction : Double := Double.finite 0
deriving DecidableEq

/-- The `operator+(double)` of `KahanSummation`. -/
def KahanSummation.add (self : KahanSummation) (value : Double) : KahanSummation :=
  let y := Double.sub value self.correction
  let t := Double.add self.sum y
  KahanSummation.mk t (Double.sub (Double.sub t self.sum) y)

/-- The `operator+(Sample)` of `KahanSummation`. -/
def KahanSummation.add_sample (self : KahanSummation) (sample : Sample) : KahanSummation :=
  self.add sample.average

/-- The function `calculate_mean(const std::vector<double>&)`, with the
division it executes. -/
def calculate_mean_doubles.traced (doubles : List Double) : Divided Double :=
  Double.divide (doubles.foldl KahanSummation.add {}).sum (Double.of_uint64 doubles.length)

/-- The function `calculate_mean(const std::vector<double>&)`: what it returns. -/
def calculate_mean_doubles (doubles : List Double) : Double :=
  (calculate_mean_doubles.traced doubles).value

/-- The function `calculate_mean(const std::vector<Sample>&)`, with the
division it executes. -/
def calculate_mean.traced (samples : List Sample) : Divided Double :=
  Double.divide (samples.foldl KahanSummation.add_sample {}).sum
    (Double.of_uint64 samples.length)

/-- The function `calculate_mean(const std::vector<Sample>&)`: what it returns. -/
def calculate_mean (samples : List Sample) : Double :=
  (calculate_mean.traced samples).value

/-- The value `std::sqrt(radicand)`, kept by its radicand: the root of a
rational number is not a rational number in general. -/
structure SquareRoot where
  radicand : Double
deriving DecidableEq

/-- The function `calculate_stddev`, with the division it executes (in
`calculate_mean`). -/
def calculate_stddev.traced (samples : List Sample) (mean : Double) : Divided SquareRoot :=
  let deviations := samples.map (fun s => Double.pow2 (Double.sub s.average mean))
  let quotient := calculate_mean_doubles.traced deviations
  Divided.mk (SquareRoot.mk quotient.value) quotient.divisors

/-- The function `calculate_stddev`: what it returns. -/
def calculate_stddev (samples : List Sample) (mean : Double) : SquareRoot :=
  (calculate_stddev.traced samples mean).value

/-- The `operator+` of `Sample`, on `uint64_t` fields, with the division the
constructor of the sum executes. -/
def Sample.add.traced (left right : Sample) : Divided Sample :=
  Sample.construct ((left.iterations + right.iterations) % 2 ^ 64)
    ((left.duration + right.duration) % 2 ^ 64)

/-- The `operator+` of `Sample`: what it returns. -/
def Sample.add (left right : Sample) : Sample :=
  (Sample.add.traced left right).value

/-- The result of an ordinary least squares fit. -/
structure LinearRegression where
  b0 : Double
  b1 : Double
  r2 : Double
deriving DecidableEq

/-- The call `std::accumulate(RANGE(samples), Sample{0, Nanoseconds<uint64_t>{0}})`
of the constructor of `LinearRegression`: the initial sample and every sum are
constructed, each with the division of its constructor. -/
def LinearRegression.accumulate (samples : List Sample) : Divided Sample :=
  samples.foldl
    (fun sums sample =>
      let next := Sample.add.traced sums.value sample
      Divided.mk next.value (sums.divisors ++ next.divisors))
    (Sample.construct 0 0)

/-- The first loop of the constructor of `LinearRegression`: the numerator and
the denominator of the slope. -/
def LinearRegression.slope_sums (samples : List Sample) (xbar ybar : Double) :
    KahanSummation × KahanSummation :=
  samples.foldl
    (fun sums sample =>
      let x := Double.sub (Double.of_uint64 sample.iterations) xbar
      (sums.1.add (Double.mul x (Double.sub (Double.of_uint64 sample.duration) ybar)),
        sums.2.add (Double.pow2 x)))
    ({}, {})

/-- The second loop of the constructor of `LinearRegression`: the sums `ssr`
and `sst`. -/
def LinearRegression.fit_sums (samples : List Sample) (b0 b1 ybar : Double) :
    KahanSummation × KahanSummation :=
  samples.foldl
    (fun sums sample =>
      let f := Double.add b0 (Double.mul b1 (Double.of_uint64 sample.iterations))
      (sums.1.add (Double.pow2 (Double.sub (Double.of_uint64 sample.duration) f)),
        sums.2.add (Double.pow2 (Double.sub (Double.of_uint64 sample.duration) ybar))))
    ({}, {})

/-- The constructor `LinearRegression::LinearRegression`, with the divisions it
executes: those of `std::accumulate`, then `xbar`, `ybar`, the slope and the
quotient of `ssr` and `sst`. -/
def LinearRegression.LinearRegression.traced (samples : List Sample) :
    Divided LinearRegression :=
  let sums := LinearRegression.accumulate samples
  let xbar := Double.divide (Double.of_uint64 sums.value.iterations)
    (Double.of_uint64 samples.length)
  let ybar := Double.divide (Double.of_uint64 sums.value.duration)
    (Double.of_uint64 samples.length)
  let (numerator, denominator) := LinearRegression.slope_sums samples xbar.value ybar.value
  let b1 := Double.divide numerator.sum denominator.sum
  let b0 := Double.sub ybar.value (Double.mul b1.value xbar.value)
  let (ssr, sst) := LinearRegression.fit_sums samples b0 b1.value ybar.value
  let quotient := Double.divide ssr.sum sst.sum
  let r2 := Double.sub (Double.finite 1) quotient.value
  Divided.mk (LinearRegression.mk b0 b1.value r2)
    (sums.divisors ++ xbar.divisors ++ ybar.divisors ++ b1.divisors ++ quotient.divisors)

/-- The constructor `LinearRegression::LinearRegression`: the fit it leaves. -/
def LinearRegression.LinearRegression (samples : List Sample) : LinearRegression :=
  (LinearRegression.LinearRegression.traced samples).value

/-- The field `mean` the constructor of `BenchmarkReport` computes. -/
def BenchmarkReport.mean (report : BenchmarkReport) : Double :=
  calculate_mean report.samples

/-- The field `stddev` the constructor of `BenchmarkReport` computes. -/
def BenchmarkReport.stddev (report : BenchmarkReport) : SquareRoot :=
  calculate_stddev report.samples report.mean

/-- The field `ols` the constructor of `BenchmarkReport` computes. -/
def BenchmarkReport.ols (report : BenchmarkReport) : LinearRegression :=
  LinearRegression.LinearRegression report.samples

/-- The divisors of the divisions the constructor of `BenchmarkReport` executes
on its samples, in the order of its member initialisers: `calculate_mean`,
`calculate_stddev`, the constructor of `LinearRegression`. -/
def BenchmarkReport.divisors (report : BenchmarkReport) : List Double :=
  (calculate_mean.traced report.samples).divisors
    ++ (calculate_stddev.traced report.samples report.mean).divisors
    ++ (LinearRegression.LinearRegression.traced report.samples).divisors

/-! ## The sampling loop in the words of the specification -/

/-- The observations of the sampling loop: for each round, the iteration count
drawn from the series and the duration measured. -/
def observations (fuel : Nat) : List Round → GeometricSeries → List Sample
  | [], _ => []
  | round :: rounds, series =>
    match series.next fuel with
    | none => []
    | some (iterations, series) =>
      Sample.mk iterations round.duration :: observations fuel rounds series

/-- The rounds the loop makes on a clock: those before the first reading of
the stopwatch that is not below the limit. -/
def rounds_made (limit : Nat) (rounds : List Round) : List Round :=
  rounds.takeWhile (fun round => decide (round.elapsed < limit))

/-! ## The statistics in the words of the specification -/

/-- The per-iteration average of a sample, as a rational number. -/
def average_of (sample : Sample) : ℚ :=
  (sample.duration : ℚ) / (sample.iterations : ℚ)

/-- The arithmetic mean of the iteration counts. -/
def x_mean (samples : List Sample) : ℚ :=
  (samples.map (fun s => (s.iterations : ℚ))).sum / (samples.length : ℚ)

/-- The arithmetic mean of the durations. -/
def y_mean (samples : List Sample) : ℚ :=
  (samples.map (fun s => (s.duration : ℚ))).sum / (samples.length : ℚ)

/-- The sum of `(x - xbar) * (y - ybar)` over the samples. -/
def s_xy (samples : List Sample) : ℚ :=
  (samples.map (fun s =>
    ((s.iterations : ℚ) - x_mean samples) * ((s.duration : ℚ) - y_mean samples))).sum

/-- The sum of `(x - xbar)^2` over the samples. -/
def s_xx (samples : List Sample) : ℚ :=
  (samples.map (fun s => ((s.iterations : ℚ) - x_mean samples) ^ 2)).sum

/-- The sum of the squared deviations of the durations from their mean (SST). -/
def s_yy (samples : List Sample) : ℚ :=
  (samples.map (fun s => ((s.duration : ℚ) - y_mean samples) ^ 2)).sum

/-- The sum of the squared residuals of the line `b0 + b1 * x` (SSR). -/
def residuals (samples : List Sample) (b0 b1 : ℚ) : ℚ :=
  (samples.map (fun s => ((s.duration : ℚ) - (b0 + b1 * (s.iterations : ℚ))) ^ 2)).sum

/-- The least-squares slope. -/
def slope_of (samples : List Sample) : ℚ :=
  s_xy samples / s_xx samples

/-- The least-squares intercept. -/
def intercept_of (samples : List Sample) : ℚ :=
  y_mean samples - slope_of samples * x_mean samples

/-- Samples whose sums of iteration counts and of durations fit in a
`uint64_t`. -/
def sums_fit (samples : List Sample) : Prop :=
  (samples.map (fun s => s.iterations)).sum < 2 ^ 64
    ∧ (samples.map (fun s => s.duration)).sum < 2 ^ 64

/-- Samples with at least two distinct iteration counts. -/
def two_counts (samples : List Sample) : Prop :=
  ∃ s ∈ samples, ∃ t ∈ samples, s.iterations ≠ t.iterations

/-- Three samples on the line `duration = 3 + 2 * iterations`. -/
def example_samples : List Sample :=
  [Sample.mk 2 7, Sample.mk 4 11, Sample.mk 6 15]

/-! ## benchmark.cpp: the slope division -/

/-- The divisor of the slope division in the constructor of `LinearRegression`:
the value of `denominator.sum` after the first loop. -/
def LinearRegression.slope_denominator (samples : List Sample) : Double :=
  let sums := samples.foldl Sample.add (Sample.mk 0 0)
  let xbar := Double.div (Double.of_uint64 sums.iterations) (Double.of_uint64 samples.length)
  let ybar := Double.div (Double.of_uint64 sums.duration) (Double.of_uint64 samples.length)
  (LinearRegression.slope_sums samples xbar ybar).2.sum

/-- The value `xbar` of the constructor of `LinearRegression`, for a list that
is not empty: the sum of the iteration counts as the `uint64_t` addition of
`Sample` leaves it, divided by the number of samples. -/
def x_bar (samples : List Sample) : ℚ :=
  (((samples.foldl Sample.add (Sample.mk 0 0)).iterations : Nat) : ℚ) / (samples.length : ℚ)

/-- The value `ybar` of the constructor of `LinearRegression`, for a list that
is not empty. -/
def y_bar (samples : List Sample) : ℚ :=
  (((samples.foldl Sample.add (Sample.mk 0 0)).duration : Nat) : ℚ) / (samples.length : ℚ)

/-- Two samples of two to the 63 iterations each. -/
def wrapping_samples : List Sample :=
  [Sample.mk (2 ^ 63) 2000000, Sample.mk (2 ^ 63) 2000000]

/-- Clock readings of three rounds, each long enough to be retained. -/
def busy_clock : Benchmark → List Round :=
  fun _ => [Round.mk 0 2000000, Round.mk 2000100 3000000, Round.mk 5000200 4000000]

/-! ## The bit patterns of the two zeros -/

/-- The bit pattern of the `float` `+0.0f`: every bit clear. -/
def positive_zero_float : Representation 32 :=
  Representation.mk 0 (by decide)

/-- The bit pattern of the `float` `-0.0f`: the sign bit alone. -/
def negative_zero_float : Representation 32 :=
  Representation.mk (2 ^ 31) (by decide)

/-- The bit pattern of the `double` `+0.0`: every bit clear. -/
def positive_zero_double : Representation 64 :=
  Representation.mk 0 (by decide)

/-- The bit pattern of the `double` `-0.0`: the sign bit alone. -/
def negative_zero_double : Representation 64 :=
  Representation.mk (2 ^ 63) (by decide)

/-- Whether the value is a zero, of either sign: every bit below the sign bit
is clear. The two zeros compare equal with `==`. -/
def Representation.is_zero {width : Nat} (self : Representation width) : Bool :=
  self.bits % 2 ^ (width - 1) == 0

/-! ## The arguments in the words of the specification -/

/-- An argument that `Options::parse` accepts and passes over: it is not
`--help`, and it is a `--limit=` option (when parsing for benchmarks) whose
value `strtod` reads to its end, or a `--regex=` option whose value is a valid
pattern. -/
def accepted (L : StdLib) (benchmarks : Bool) (argument : String) : Bool :=
  argument != "--help"
    && (if benchmarks && starts_with argument "--limit=" then
          decide ((L.strtod (substr8 argument)).2 = (substr8 argument).length)
        else
          starts_with argument "--regex=" && L.regex_valid (substr8 argument))

/-- An argument of none of the three forms: it is not `--help`, does not begin
with `--limit=` (a form there is only when parsing for benchmarks) and does not
begin with `--regex=`. -/
def unknown_argument (benchmarks : Bool) (argument : String) : Bool :=
  argument != "--help" && !(benchmarks && starts_with argument "--limit=")
    && !starts_with argument "--regex="

/-! ## The schedule in the words of the specification -/

/-- The lifecycles of a list of instances, in order. -/
def lifecycles_of (members : List (Instance Benchmark)) : List Lifecycle :=
  members.map (fun member => member.lifecycle)

/-- The instances whose whole name matches the pattern, in registration order. -/
def filtered_by (L : StdLib) (pattern : String) (instances : List (Instance Benchmark)) :
    List (Instance Benchmark) :=
  instances.filter (fun member => L.regex_match member.name pattern)

/-- The events `handle_instance` emits for a member (none if it has no result). -/
def member_events (fuel : Nat) (clock : Benchmark → List Round) (options : Options)
    (member : Instance Benchmark) : List Event :=
  (Runner.handle_instance fuel clock member options).getD []

/-- The events of one filtered member: the shared set-up if no filtered member
before it has its lifecycle, its own set-up, its run, its own tear-down, and
the shared tear-down if no filtered member after it has its lifecycle. -/
def member_block (inner : Instance Benchmark → List Event)
    (before : List (Instance Benchmark)) (member : Instance Benchmark)
    (after : List (Instance Benchmark)) : List Event :=
  (if member.lifecycle ∈ lifecycles_of before then [] else [Event.static_set_up member.lifecycle])
    ++ [Event.set_up member.inst.address] ++ inner member ++ [Event.tear_down member.inst.address]
    ++ (if member.lifecycle ∈ lifecycles_of after then [] else [Event.static_tear_down member.lifecycle])

/-- The blocks of the members `rest`, which are preceded by the members `done`
and followed by the members `tail`. -/
def schedule (inner : Instance Benchmark → List Event) :
    List (Instance Benchmark) → List (Instance Benchmark) → List (Instance Benchmark) → List Event
  | _, [], _ => []
  | done, member :: rest, tail =>
    member_block inner done member (rest ++ tail) ++ schedule inner (done ++ [member]) rest tail

/-- The state of the map of `run`: `done` are the members run so far, `all`
the filtered members; each lifecycle of `all` has one entry, which counts its
members in `done` and in `all`. -/
def Counted (lifecycles : Lifecycles) (done all : List (Instance Benchmark)) : Prop :=
  ∀ key : Lifecycle, Lifecycles.find lifecycles key =
    if (lifecycles_of all).count key = 0 then none
    else some (key, ((lifecycles_of done).count key, (lifecycles_of all).count key))

/-- The names the trace reports as started, in order. -/
def started_names (trace : List Event) : List String :=
  trace.filterMap (fun event => match event with
    | Event.unit_started name => some name
    | _ => none)

/-- The names the trace reports as finished, in order. -/
def finished_names (trace : List Event) : List String :=
  trace.filterMap (fun event => match event with
    | Event.unit_finished name => some name
    | _ => none)

/-- The objects whose per-unit set-up the trace calls, in order. -/
def set_up_objects (trace : List Event) : List Nat :=
  trace.filterMap (fun event => match event with
    | Event.set_up object => some object
    | _ => none)

/-- The objects whose per-unit tear-down the trace calls, in order. -/
def tear_down_objects (trace : List Event) : List Nat :=
  trace.filterMap (fun event => match event with
    | Event.tear_down object => some object
    | _ => none)

/-- Whether the event is a call of a shared set-up. -/
def Event.is_static_set_up : Event → Bool
  | Event.static_set_up _ => true
  | _ => false

/-- Whether the event is a call of a shared tear-down. -/
def Event.is_static_tear_down : Event → Bool
  | Event.static_tear_down _ => true
  | _ => false

/-- Whether the event is a call of user code: a shared or per-unit lifecycle
function or a unit body. -/
def Event.is_call : Event → Bool
  | Event.static_set_up _ => true
  | Event.static_tear_down _ => true
  | Event.set_up _ => true
  | Event.execute _ => true
  | Event.tear_down _ => true
  | _ => false

/-- Whether the event is the start event or the end event of a run. -/
def Event.is_boundary : Event → Bool
  | Event.handle_start _ => true
  | Event.handle_end => true
  | _ => false

/-- The shape of what `handle_instance` emits for each member: the start line,
the calls `Benchmark::run` makes (set-up, executions, tear-down), the report and
the end line. -/
def Shaped (inner : Instance Benchmark → List Event) : Prop :=
  ∀ member : Instance Benchmark, ∃ count report, inner member =
    [Event.unit_started member.name, Event.set_up member.inst.address]
      ++ List.replicate count (Event.execute member.inst.address)
      ++ [Event.tear_down member.inst.address, Event.unit_report report,
          Event.unit_finished member.name]

/-- An argument of the benchmark runner that carries an invalid option value:
a `--limit=` value that `strtod` does not read to its end, or a `--regex=`
value that is not a valid pattern. -/
def invalid_option (L : StdLib) (argument : String) : Bool :=
  (starts_with argument "--limit="
      && decide ((L.strtod (substr8 argument)).2 ≠ (substr8 argument).length))
    || (starts_with argument "--regex=" && !L.regex_valid (substr8 argument))

/-! ## Concrete inputs -/

/-- Three registered benchmarks: `A` and `Ab` of one fixture, `Bc` of another. -/
def example_benchmarks : List (Instance Benchmark) :=
  [Instance.mk (Lifecycle.mk 1 2) "A" (Benchmark.mk 100),
   Instance.mk (Lifecycle.mk 3 4) "Bc" (Benchmark.mk 102),
   Instance.mk (Lifecycle.mk 1 2) "Ab" (Benchmark.mk 101)]

/-- A command line that filters by the pattern `A.*`. -/
def example_argv : List String :=
  ["bench", "--regex=A.*"]

/-- The options `example_argv` is parsed to. -/
def example_options : Options :=
  { regex := "A.*" }

/-- Clock readings: the benchmark at address 100 gets two rounds, of which the
first is long enough to be retained; the others get none. -/
def example_clock : Benchmark → List Round :=
  fun benchmark =>
    if benchmark.address = 100 then [Round.mk 0 2000000, Round.mk 2000100 5] else []

/-- A clock on which every time budget is used up before the first round. -/
def idle_clock : Benchmark → List Round :=
  fun _ => []

/-- A test whose body records nothing. -/
def example_test (address : Nat) : Test where
  address := address
  location := Location.mk "tests.cpp" address
  execute failures := (failures, none)

/-- Three registered tests named `A`, `Ab` and `Bc`. -/
def example_tests : Registry where
  tests :=
    [Instance.mk (Lifecycle.mk 1 2) "A" (example_test 1),
     Instance.mk (Lifecycle.mk 1 2) "Ab" (example_test 2),
     Instance.mk (Lifecycle.mk 1 2) "Bc" (example_test 3)]

/-! ## The iteration-count generator returns -/

theorem to_uint64_cast_le (value : ℚ) (h : 0 ≤ value) : ((to_uint64 value : Nat) : ℚ) ≤ value := by
  unfold to_uint64
  have h0 : (0 : ℤ) ≤ Rat.floor value := Rat.le_floor.mpr (by simpa using h)
  have h1 : ((Rat.floor value).toNat : ℤ) = Rat.floor value := Int.toNat_of_nonneg h0
  have h2 : ((Rat.floor value : ℤ) : ℚ) ≤ value := Rat.le_floor.mp le_rfl
  have h3 : (((Rat.floor value).toNat : ℤ) : ℚ) = ((Rat.floor value : ℤ) : ℚ) := by rw [h1]
  calc (((Rat.floor value).toNat : Nat) : ℚ) = (((Rat.floor value).toNat : ℤ) : ℚ) := by push_cast; rfl
    _ = ((Rat.floor value : ℤ) : ℚ) := h3
    _ ≤ value := h2

theorem lt_to_uint64_cast_succ (value : ℚ) (h : 0 ≤ value) : value < ((to_uint64 value : Nat) : ℚ) + 1 := by
  unfold to_uint64
  have h0 : (0 : ℤ) ≤ Rat.floor value := Rat.le_floor.mpr (by simpa using h)
  have h1 : ((Rat.floor value).toNat : ℤ) = Rat.floor value := Int.toNat_of_nonneg h0
  have h3 : (((Rat.floor value).toNat : ℤ) : ℚ) = ((Rat.floor value : ℤ) : ℚ) := by rw [h1]
  have h4 : ¬ (Rat.floor value + 1 ≤ Rat.floor value) := by omega
  have h5 : ¬ (((Rat.floor value + 1 : ℤ) : ℚ) ≤ value) := fun hc => h4 (Rat.le_floor.mpr hc)
  have h6 : (((Rat.floor value).toNat : Nat) : ℚ) = ((Rat.floor value : ℤ) : ℚ) := by
    rw [← h3]; push_cast; rfl
  rw [h6]
  push_cast at h5
  exact not_le.mp h5

theorem next_loop_some (previous : Nat) (ratio : ℚ) (hr : 1 ≤ ratio) :
    ∀ (fuel : Nat) (value : ℚ), 0 ≤ value → value < (previous : ℚ) + 1 →
      (previous : ℚ) + 1 ≤ value * ratio ^ fuel →
      ∃ current result, GeometricSeries.next.loop previous ratio fuel value = some (current, result)
        ∧ value ≤ result := by
  intro fuel
  induction fuel with
  | zero =>
    intro value _ hlt hle
    simp at hle
    exact absurd hlt (not_lt.mpr hle)
  | succ fuel ih =>
    intro value h0 _ hle
    have hv : value ≤ value * ratio := le_mul_of_one_le_right h0 hr
    have h0n : 0 ≤ value * ratio := le_trans h0 hv
    by_cases hc : to_uint64 (value * ratio) = previous
    · have hlt2 : value * ratio < (previous : ℚ) + 1 := by
        have := lt_to_uint64_cast_succ (value * ratio) h0n
        rwa [hc] at this
      have hle2 : (previous : ℚ) + 1 ≤ value * ratio * ratio ^ fuel := by
        rw [pow_succ] at hle
        calc (previous : ℚ) + 1 ≤ value * (ratio ^ fuel * ratio) := hle
          _ = value * ratio * ratio ^ fuel := by ring
      obtain ⟨current, result, hres, hge⟩ := ih (value * ratio) h0n hlt2 hle2
      refine ⟨current, result, ?_, le_trans hv hge⟩
      simp [GeometricSeries.next.loop, hc, hres]
    · exact ⟨to_uint64 (value * ratio), value * ratio, by simp [GeometricSeries.next.loop, hc], hv⟩

theorem next_some (fuel : Nat) (self : GeometricSeries) (hfuel : 15 ≤ fuel)
    (hv : 1 ≤ self.value) (hr : self.ratio = 21 / 20) :
    ∃ current series, self.next fuel = some (current, series)
      ∧ 1 ≤ series.value ∧ series.ratio = 21 / 20 := by
  have h0 : (0 : ℚ) ≤ self.value := le_trans zero_le_one hv
  have hr1 : (1 : ℚ) ≤ self.ratio := by rw [hr]; norm_num
  have hpow : (2 : ℚ) ≤ self.ratio ^ fuel := by
    have h15 : (2 : ℚ) ≤ self.ratio ^ 15 := by rw [hr]; norm_num
    exact le_trans h15 (pow_le_pow_right₀ hr1 hfuel)
  have hle : ((to_uint64 self.value : Nat) : ℚ) + 1 ≤ self.value * self.ratio ^ fuel := by
    have h1 := to_uint64_cast_le self.value h0
    have h2 : self.value * 2 ≤ self.value * self.ratio ^ fuel :=
      mul_le_mul_of_nonneg_left hpow h0
    linarith
  obtain ⟨current, result, hres, hge⟩ :=
    next_loop_some (to_uint64 self.value) self.ratio hr1 fuel self.value h0
      (lt_to_uint64_cast_succ self.value h0) hle
  refine ⟨current, { self with value := result }, ?_, le_trans hv hge, hr⟩
  simp [GeometricSeries.next, hres]

theorem run_loop_some (fuel : Nat) (self : Benchmark) (limit : Nat) (hfuel : 15 ≤ fuel) :
    ∀ (rounds : List Round) (series : GeometricSeries) (samples : List Sample),
      1 ≤ series.value → series.ratio = 21 / 20 →
      ∃ count result, Benchmark.run.loop fuel self limit rounds series samples
        = some (List.replicate count (Event.execute self.address), result) := by
  intro rounds
  induction rounds with
  | nil => intro series samples _ _; exact ⟨0, samples, by simp [Benchmark.run.loop]⟩
  | cons round rounds ih =>
    intro series samples hv hr
    by_cases hlim : round.elapsed < limit
    · obtain ⟨current, series2, hnext, hv2, hr2⟩ := next_some fuel series hfuel hv hr
      obtain ⟨count, result, hrec⟩ := ih series2
        (if round.duration > 1000000 then samples ++ [Sample.mk current round.duration]
          else samples) hv2 hr2
      refine ⟨current + count, result, ?_⟩
      simp only [Benchmark.run.loop, hlim, if_true, hnext, hrec, List.replicate_add]
    · exact ⟨0, samples, by simp [Benchmark.run.loop, hlim]⟩

theorem handle_instance_some (fuel : Nat) (clock : Benchmark → List Round)
    (benchmark : Instance Benchmark) (options : Options) (hfuel : 15 ≤ fuel) :
    ∃ count report, Runner.handle_instance fuel clock benchmark options
      = some ([Event.unit_started benchmark.name, Event.set_up benchmark.inst.address]
          ++ List.replicate count (Event.execute benchmark.inst.address)
          ++ [Event.tear_down benchmark.inst.address, Event.unit_report report,
              Event.unit_finished benchmark.name]) := by
  obtain ⟨count, result, hloop⟩ := run_loop_some fuel benchmark.inst options.limit hfuel
    (clock benchmark.inst) (GeometricSeries.mk 1 (21 / 20)) [] le_rfl rfl
  exact ⟨count, BenchmarkReport.mk result, by simp [Runner.handle_instance, Benchmark.run, hloop]⟩

/-! ## The map of lifecycles -/

theorem equivalent_iff (left right : Lifecycle) :
    Lifecycle.equivalent left right = true ↔ left = right := by
  cases left with
  | mk a b =>
  cases right with
  | mk c d =>
  simp only [Lifecycle.equivalent, Lifecycle.lt, Lifecycle.mk.injEq]
  by_cases h : a = c
  · subst h
    simp
    exact ⟨fun hle => Nat.le_antisymm hle.2 hle.1, fun e => ⟨Nat.le_of_eq e.symm, Nat.le_of_eq e⟩⟩
  · have h2 : ¬ c = a := fun e => h e.symm
    simp [h, h2]
    exact fun hle => Nat.lt_of_le_of_ne hle h2

theorem find_assign (lifecycles : Lifecycles) (key other : Lifecycle) (value : Nat × Nat) :
    Lifecycles.find (Lifecycles.assign lifecycles key value) other =
      if other = key then (Lifecycles.find lifecycles key).map (fun entry => (entry.1, value))
      else Lifecycles.find lifecycles other := by
  induction lifecycles with
  | nil => simp [Lifecycles.find, Lifecycles.assign]
  | cons entry rest ih =>
    simp only [Lifecycles.find, Lifecycles.assign] at ih ⊢
    by_cases h1 : entry.1 = key
    · by_cases h2 : other = key
      · subst h2
        simp [List.find?, (equivalent_iff entry.1 other).mpr h1]
      · have h3 : ¬ entry.1 = other := fun e => h2 (e.symm.trans h1)
        have h4 : Lifecycle.equivalent entry.1 other = false := by
          rw [Bool.eq_false_iff]; exact fun e => h3 ((equivalent_iff _ _).mp e)
        simp only [List.map, (equivalent_iff entry.1 key).mpr h1, if_true, List.find?, h4, ih, h2,
          if_false]
    · have h4 : Lifecycle.equivalent entry.1 key = false := by
        rw [Bool.eq_false_iff]; exact fun e => h1 ((equivalent_iff _ _).mp e)
      by_cases h2 : other = key
      · subst h2
        simp only [List.map, h4, List.find?, ih, if_true]
        simp [h4]
      · simp only [List.map, h4, List.find?, ih, h2, if_false]
        simp

theorem find_emplace (lifecycles : Lifecycles) (key other : Lifecycle) (value : Nat × Nat)
    (hnew : Lifecycles.find lifecycles key = none) :
    Lifecycles.find (Lifecycles.emplace lifecycles key value) other =
      if other = key then some (key, value) else Lifecycles.find lifecycles other := by
  simp only [Lifecycles.emplace, hnew]
  simp only [Lifecycles.find] at hnew ⊢
  rw [List.find?_append]
  by_cases h : other = key
  · subst h
    simp [hnew, List.find?, (equivalent_iff other other).mpr rfl]
  · have h4 : Lifecycle.equivalent key other = false := by
      rw [Bool.eq_false_iff]; exact fun e => h ((equivalent_iff _ _).mp e).symm
    simp [h, List.find?, h4]

/-! ## The two loops of `run` -/

theorem count_lifecycles_append (xs ys : List (Instance Benchmark)) (key : Lifecycle) :
    (lifecycles_of (xs ++ ys)).count key
      = (lifecycles_of xs).count key + (lifecycles_of ys).count key := by
  simp [lifecycles_of, List.count_append]

theorem count_lifecycles_cons (x : Instance Benchmark) (xs : List (Instance Benchmark))
    (key : Lifecycle) :
    (lifecycles_of (x :: xs)).count key
      = (if x.lifecycle = key then 1 else 0) + (lifecycles_of xs).count key := by
  by_cases h : x.lifecycle = key
  · simp [lifecycles_of, List.count_cons, h]; omega
  · simp [lifecycles_of, List.count_cons, h]

theorem count_lifecycles_nil (key : Lifecycle) : (lifecycles_of []).count key = 0 := by
  simp [lifecycles_of]

theorem collect_spec (L : StdLib) (options : Options) :
    ∀ (instances filtered : List (Instance Benchmark)) (lifecycles : Lifecycles),
      Counted lifecycles [] filtered →
      (run.collect L options instances (filtered, lifecycles)).1
          = filtered ++ filtered_by L options.regex instances
        ∧ Counted (run.collect L options instances (filtered, lifecycles)).2 []
            (filtered ++ filtered_by L options.regex instances) := by
  intro instances
  induction instances with
  | nil => intro filtered lifecycles h; simpa [run.collect, filtered_by] using h
  | cons inst instances ih =>
    intro filtered lifecycles h
    by_cases hm : L.regex_match inst.name options.regex = true
    · have hfilter : filtered_by L options.regex (inst :: instances)
          = inst :: filtered_by L options.regex instances := by
        simp [filtered_by, List.filter, hm]
      have hfind := h inst.lifecycle
      rw [hfilter]
      have happ : filtered ++ inst :: filtered_by L options.regex instances
          = (filtered ++ [inst]) ++ filtered_by L options.regex instances := by simp
      rw [happ]
      by_cases hc : (lifecycles_of filtered).count inst.lifecycle = 0
      · rw [if_pos hc] at hfind
        have hnext : Counted (Lifecycles.emplace lifecycles inst.lifecycle (0, 1)) []
            (filtered ++ [inst]) := by
          intro key
          rw [find_emplace lifecycles inst.lifecycle key (0, 1) hfind, h key,
            count_lifecycles_append, count_lifecycles_cons]
          by_cases hk : key = inst.lifecycle
          · subst hk; simp [hc, count_lifecycles_nil]
          · have hk2 : ¬ inst.lifecycle = key := fun e => hk e.symm
            simp [hk, hk2, count_lifecycles_nil]
        have := ih (filtered ++ [inst]) _ hnext
        simpa [run.collect, hm, hfind] using this
      · rw [if_neg hc] at hfind
        have hnext : Counted (Lifecycles.assign lifecycles inst.lifecycle
            (0, (lifecycles_of filtered).count inst.lifecycle + 1)) [] (filtered ++ [inst]) := by
          intro key
          rw [find_assign, h key, count_lifecycles_append, count_lifecycles_cons]
          by_cases hk : key = inst.lifecycle
          · subst hk; simp [hfind, count_lifecycles_nil]
          · have hk2 : ¬ inst.lifecycle = key := fun e => hk e.symm
            simp [hk, hk2, count_lifecycles_nil]
        have := ih (filtered ++ [inst]) _ hnext
        simpa [run.collect, hm, hfind, count_lifecycles_nil] using this
    · have hfilter : filtered_by L options.regex (inst :: instances)
          = filtered_by L options.regex instances := by
        simp [filtered_by, List.filter, hm]
      rw [hfilter]
      have := ih filtered lifecycles h
      simpa [run.collect, hm] using this

theorem execute_spec (fuel : Nat) (clock : Benchmark → List Round) (options : Options)
    (hfuel : 15 ≤ fuel) :
    ∀ (rest done : List (Instance Benchmark)) (lifecycles : Lifecycles),
      Counted lifecycles done (done ++ rest) →
      run.execute fuel clock options rest lifecycles
        = some (schedule (member_events fuel clock options) done rest []) := by
  intro rest
  induction rest with
  | nil => intro done lifecycles _; simp [run.execute, schedule]
  | cons inst rest ih =>
    intro done lifecycles h
    have hfind := h inst.lifecycle
    have htotal : (lifecycles_of (done ++ inst :: rest)).count inst.lifecycle
        = (lifecycles_of done).count inst.lifecycle + 1
          + (lifecycles_of rest).count inst.lifecycle := by
      rw [count_lifecycles_append, count_lifecycles_cons]; simp; omega
    rw [htotal, if_neg (by omega)] at hfind
    obtain ⟨count, report, hinst⟩ := handle_instance_some fuel clock inst options hfuel
    have hev : member_events fuel clock options inst
        = [Event.unit_started inst.name, Event.set_up inst.inst.address]
          ++ List.replicate count (Event.execute inst.inst.address)
          ++ [Event.tear_down inst.inst.address, Event.unit_report report,
              Event.unit_finished inst.name] := by
      simp [member_events, hinst]
    have hnext : Counted (Lifecycles.assign lifecycles inst.lifecycle
        ((lifecycles_of done).count inst.lifecycle + 1,
          (lifecycles_of done).count inst.lifecycle + 1
            + (lifecycles_of rest).count inst.lifecycle))
        (done ++ [inst]) ((done ++ [inst]) ++ rest) := by
      intro key
      have hk := h key
      have happ : (done ++ [inst]) ++ rest = done ++ inst :: rest := by simp
      rw [find_assign, happ, hk]
      by_cases hkey : key = inst.lifecycle
      · subst hkey
        rw [htotal, if_pos rfl, hfind, if_neg (by omega), count_lifecycles_append,
          count_lifecycles_cons, count_lifecycles_nil]
        simp
      · have hk2 : ¬ inst.lifecycle = key := fun e => hkey e.symm
        rw [if_neg hkey, count_lifecycles_append done [inst], count_lifecycles_cons,
          count_lifecycles_nil]
        simp [hk2]
    have hrec := ih (done ++ [inst]) _ hnext
    simp only [run.execute, hfind, hinst, hrec, schedule, member_block, hev, List.append_nil]
    by_cases h1 : inst.lifecycle ∈ lifecycles_of done
    · by_cases h2 : inst.lifecycle ∈ lifecycles_of rest
      · simp [h1, h2, List.count_eq_zero]
      · simp [h1, h2, List.count_eq_zero]
    · by_cases h2 : inst.lifecycle ∈ lifecycles_of rest
      · simp [h1, h2, List.count_eq_zero]
      · simp [h1, h2, List.count_eq_zero]

/-! ## Facts about the schedule -/

theorem member_events_shaped (fuel : Nat) (clock : Benchmark → List Round) (options : Options)
    (hfuel : 15 ≤ fuel) : Shaped (member_events fuel clock options) := by
  intro member
  obtain ⟨count, report, h⟩ := handle_instance_some fuel clock member options hfuel
  exact ⟨count, report, by simp [member_events, h]⟩

theorem handle_instance_eq (fuel : Nat) (clock : Benchmark → List Round) (options : Options)
    (hfuel : 15 ≤ fuel) (member : Instance Benchmark) :
    Runner.handle_instance fuel clock member options
      = some (member_events fuel clock options member) := by
  obtain ⟨count, report, h⟩ := handle_instance_some fuel clock member options hfuel
  simp [member_events, h]

theorem started_names_append (xs ys : List Event) :
    started_names (xs ++ ys) = started_names xs ++ started_names ys := by
  simp [started_names, List.filterMap_append]

theorem finished_names_append (xs ys : List Event) :
    finished_names (xs ++ ys) = finished_names xs ++ finished_names ys := by
  simp [finished_names, List.filterMap_append]

theorem started_names_replicate (count object : Nat) :
    started_names (List.replicate count (Event.execute object)) = [] := by
  induction count with
  | zero => rfl
  | succ n ih => simp [List.replicate_succ, started_names]

theorem finished_names_replicate (count object : Nat) :
    finished_names (List.replicate count (Event.execute object)) = [] := by
  induction count with
  | zero => rfl
  | succ n ih => simp [List.replicate_succ, finished_names]

theorem block_started_names (inner : Instance Benchmark → List Event) (h : Shaped inner)
    (before : List (Instance Benchmark)) (member : Instance Benchmark)
    (after : List (Instance Benchmark)) :
    started_names (member_block inner before member after) = [member.name] := by
  obtain ⟨count, report, hin⟩ := h member
  unfold member_block
  rw [hin]
  simp only [started_names_append, started_names_replicate]
  split_ifs <;> simp [started_names]

theorem block_finished_names (inner : Instance Benchmark → List Event) (h : Shaped inner)
    (before : List (Instance Benchmark)) (member : Instance Benchmark)
    (after : List (Instance Benchmark)) :
    finished_names (member_block inner before member after) = [member.name] := by
  obtain ⟨count, report, hin⟩ := h member
  unfold member_block
  rw [hin]
  simp only [finished_names_append, finished_names_replicate]
  split_ifs <;> simp [finished_names]

theorem block_count_static_set_up (inner : Instance Benchmark → List Event) (h : Shaped inner)
    (before : List (Instance Benchmark)) (member : Instance Benchmark)
    (after : List (Instance Benchmark)) (key : Lifecycle) :
    (member_block inner before member after).count (Event.static_set_up key)
      = if member.lifecycle = key ∧ key ∉ lifecycles_of before then 1 else 0 := by
  obtain ⟨count, report, hin⟩ := h member
  unfold member_block
  rw [hin]
  by_cases hk : member.lifecycle = key
  · subst hk
    by_cases hb : member.lifecycle ∈ lifecycles_of before
    · by_cases ha : member.lifecycle ∈ lifecycles_of after <;>
        simp [hb, ha, List.count_cons, List.count_replicate]
    · by_cases ha : member.lifecycle ∈ lifecycles_of after <;>
        simp [hb, ha, List.count_cons, List.count_replicate]
  · by_cases hb : member.lifecycle ∈ lifecycles_of before
    · by_cases ha : member.lifecycle ∈ lifecycles_of after <;>
        simp [hb, ha, hk, List.count_cons, List.count_replicate]
    · by_cases ha : member.lifecycle ∈ lifecycles_of after <;>
        simp [hb, ha, hk, List.count_cons, List.count_replicate]

theorem block_count_static_tear_down (inner : Instance Benchmark → List Event) (h : Shaped inner)
    (before : List (Instance Benchmark)) (member : Instance Benchmark)
    (after : List (Instance Benchmark)) (key : Lifecycle) :
    (member_block inner before member after).count (Event.static_tear_down key)
      = if member.lifecycle = key ∧ key ∉ lifecycles_of after then 1 else 0 := by
  obtain ⟨count, report, hin⟩ := h member
  unfold member_block
  rw [hin]
  by_cases hk : member.lifecycle = key
  · subst hk
    by_cases hb : member.lifecycle ∈ lifecycles_of before
    · by_cases ha : member.lifecycle ∈ lifecycles_of after <;>
        simp [hb, ha, List.count_cons, List.count_replicate]
    · by_cases ha : member.lifecycle ∈ lifecycles_of after <;>
        simp [hb, ha, List.count_cons, List.count_replicate]
  · by_cases hb : member.lifecycle ∈ lifecycles_of before
    · by_cases ha : member.lifecycle ∈ lifecycles_of after <;>
        simp [hb, ha, hk, List.count_cons, List.count_replicate]
    · by_cases ha : member.lifecycle ∈ lifecycles_of after <;>
        simp [hb, ha, hk, List.count_cons, List.count_replicate]

theorem block_countP_static_set_up (inner : Instance Benchmark → List Event) (h : Shaped inner)
    (before : List (Instance Benchmark)) (member : Instance Benchmark)
    (after : List (Instance Benchmark)) :
    (member_block inner before member after).countP Event.is_static_set_up
      = if member.lifecycle ∈ lifecycles_of before then 0 else 1 := by
  obtain ⟨count, report, hin⟩ := h member
  unfold member_block
  rw [hin]
  have hrep : List.countP Event.is_static_set_up
      (List.replicate count (Event.execute member.inst.address)) = 0 := by
    rw [List.countP_eq_zero]
    intro e he
    rw [List.eq_of_mem_replicate he]
    simp [Event.is_static_set_up]
  by_cases hb : member.lifecycle ∈ lifecycles_of before
  · by_cases ha : member.lifecycle ∈ lifecycles_of after <;>
      simp [hb, ha, List.countP_cons, List.countP_append, hrep, Event.is_static_set_up]
  · by_cases ha : member.lifecycle ∈ lifecycles_of after <;>
      simp [hb, ha, List.countP_cons, List.countP_append, hrep, Event.is_static_set_up]

theorem block_countP_static_tear_down (inner : Instance Benchmark → List Event) (h : Shaped inner)
    (before : List (Instance Benchmark)) (member : Instance Benchmark)
    (after : List (Instance Benchmark)) :
    (member_block inner before member after).countP Event.is_static_tear_down
      = if member.lifecycle ∈ lifecycles_of after then 0 else 1 := by
  obtain ⟨count, report, hin⟩ := h member
  unfold member_block
  rw [hin]
  have hrep : List.countP Event.is_static_tear_down
      (List.replicate count (Event.execute member.inst.address)) = 0 := by
    rw [List.countP_eq_zero]
    intro e he
    rw [List.eq_of_mem_replicate he]
    simp [Event.is_static_tear_down]
  by_cases hb : member.lifecycle ∈ lifecycles_of before
  · by_cases ha : member.lifecycle ∈ lifecycles_of after <;>
      simp [hb, ha, List.countP_cons, List.countP_append, hrep, Event.is_static_tear_down]
  · by_cases ha : member.lifecycle ∈ lifecycles_of after <;>
      simp [hb, ha, List.countP_cons, List.countP_append, hrep, Event.is_static_tear_down]

theorem schedule_append (inner : Instance Benchmark → List Event) :
    ∀ (first done second tail : List (Instance Benchmark)),
      schedule inner done (first ++ second) tail
        = schedule inner done first (second ++ tail)
          ++ schedule inner (done ++ first) second tail := by
  intro first
  induction first with
  | nil => intro done second tail; simp [schedule]
  | cons member first ih =>
    intro done second tail
    simp [schedule, ih, List.append_assoc]

theorem schedule_started_names (inner : Instance Benchmark → List Event) (h : Shaped inner) :
    ∀ (rest done tail : List (Instance Benchmark)),
      started_names (schedule inner done rest tail) = rest.map (fun member => member.name) := by
  intro rest
  induction rest with
  | nil => intro done tail; simp [schedule, started_names]
  | cons member rest ih =>
    intro done tail
    simp [schedule, started_names_append, block_started_names inner h, ih]

theorem schedule_finished_names (inner : Instance Benchmark → List Event) (h : Shaped inner) :
    ∀ (rest done tail : List (Instance Benchmark)),
      finished_names (schedule inner done rest tail) = rest.map (fun member => member.name) := by
  intro rest
  induction rest with
  | nil => intro done tail; simp [schedule, finished_names]
  | cons member rest ih =>
    intro done tail
    simp [schedule, finished_names_append, block_finished_names inner h, ih]

theorem mem_lifecycles_append (xs ys : List (Instance Benchmark)) (key : Lifecycle) :
    key ∈ lifecycles_of (xs ++ ys) ↔ key ∈ lifecycles_of xs ∨ key ∈ lifecycles_of ys := by
  simp [lifecycles_of, List.map_append]

theorem mem_lifecycles_cons (x : Instance Benchmark) (xs : List (Instance Benchmark))
    (key : Lifecycle) :
    key ∈ lifecycles_of (x :: xs) ↔ key = x.lifecycle ∨ key ∈ lifecycles_of xs := by
  simp [lifecycles_of]

theorem schedule_count_static_set_up (inner : Instance Benchmark → List Event) (h : Shaped inner)
    (key : Lifecycle) :
    ∀ (rest done tail : List (Instance Benchmark)),
      (schedule inner done rest tail).count (Event.static_set_up key)
        = if key ∈ lifecycles_of rest ∧ key ∉ lifecycles_of done then 1 else 0 := by
  intro rest
  induction rest with
  | nil => intro done tail; simp [schedule, lifecycles_of]
  | cons member rest ih =>
    intro done tail
    simp only [schedule, List.count_append, block_count_static_set_up inner h, ih,
      mem_lifecycles_append, mem_lifecycles_cons]
    by_cases h1 : member.lifecycle = key
    · subst h1
      by_cases h2 : member.lifecycle ∈ lifecycles_of done
      · simp [h2]
      · simp [h2, lifecycles_of]
    · have h1b : ¬ key = member.lifecycle := fun e => h1 e.symm
      by_cases h2 : key ∈ lifecycles_of done
      · simp [h1, h1b, h2]
      · simp [h1, h1b, h2, lifecycles_of]

theorem schedule_count_static_tear_down (inner : Instance Benchmark → List Event)
    (h : Shaped inner) (key : Lifecycle) :
    ∀ (rest done tail : List (Instance Benchmark)),
      (schedule inner done rest tail).count (Event.static_tear_down key)
        = if key ∈ lifecycles_of rest ∧ key ∉ lifecycles_of tail then 1 else 0 := by
  intro rest
  induction rest with
  | nil => intro done tail; simp [schedule, lifecycles_of]
  | cons member rest ih =>
    intro done tail
    simp only [schedule, List.count_append, block_count_static_tear_down inner h, ih,
      mem_lifecycles_append, mem_lifecycles_cons]
    by_cases h1 : member.lifecycle = key
    · subst h1
      by_cases h2 : member.lifecycle ∈ lifecycles_of tail
      · simp [h2]
      · by_cases h3 : member.lifecycle ∈ lifecycles_of rest
        · simp [h2, h3]
        · simp [h2, h3]
    · have h1b : ¬ key = member.lifecycle := fun e => h1 e.symm
      simp [h1, h1b]

theorem schedule_countP_static_set_up (inner : Instance Benchmark → List Event)
    (h : Shaped inner) :
    ∀ (rest done tail : List (Instance Benchmark)),
      (schedule inner done rest tail).countP Event.is_static_set_up
        = ((lifecycles_of rest).toFinset \ (lifecycles_of done).toFinset).card := by
  intro rest
  induction rest with
  | nil => intro done tail; simp [schedule, lifecycles_of]
  | cons member rest ih =>
    intro done tail
    simp only [schedule, List.countP_append, block_countP_static_set_up inner h, ih]
    have hcons : (lifecycles_of (member :: rest)).toFinset
        = insert member.lifecycle (lifecycles_of rest).toFinset := by
      simp [lifecycles_of]
    have hdone : (lifecycles_of (done ++ [member])).toFinset
        = insert member.lifecycle (lifecycles_of done).toFinset := by
      rw [show lifecycles_of (done ++ [member]) = lifecycles_of done ++ [member.lifecycle] by
        simp [lifecycles_of]]
      ext key
      simp [or_comm]
    rw [hcons, hdone]
    by_cases h1 : member.lifecycle ∈ lifecycles_of done
    · have h1f : member.lifecycle ∈ (lifecycles_of done).toFinset := List.mem_toFinset.mpr h1
      rw [if_pos h1, Finset.insert_eq_of_mem h1f, Finset.insert_sdiff_of_mem _ h1f]
      simp
    · have h1f : member.lifecycle ∉ (lifecycles_of done).toFinset :=
        fun e => h1 (List.mem_toFinset.mp e)
      rw [if_neg h1, Finset.insert_sdiff_of_not_mem _ h1f]
      have hsd : (lifecycles_of rest).toFinset \ insert member.lifecycle (lifecycles_of done).toFinset
          = ((lifecycles_of rest).toFinset \ (lifecycles_of done).toFinset).erase member.lifecycle := by
        ext key
        simp only [Finset.mem_sdiff, Finset.mem_insert, Finset.mem_erase]
        tauto
      rw [hsd, Finset.card_insert_eq_ite]
      by_cases h2 : member.lifecycle ∈ (lifecycles_of rest).toFinset \ (lifecycles_of done).toFinset
      · rw [if_pos h2, Finset.card_erase_of_mem h2]
        have hpos : 0 < ((lifecycles_of rest).toFinset \ (lifecycles_of done).toFinset).card :=
          Finset.card_pos.mpr ⟨_, h2⟩
        omega
      · rw [if_neg h2, Finset.erase_eq_of_not_mem h2]
        omega

theorem schedule_countP_static_tear_down (inner : Instance Benchmark → List Event)
    (h : Shaped inner) :
    ∀ (rest done tail : List (Instance Benchmark)),
      (schedule inner done rest tail).countP Event.is_static_tear_down
        = ((lifecycles_of rest).toFinset \ (lifecycles_of tail).toFinset).card := by
  intro rest
  induction rest with
  | nil => intro done tail; simp [schedule, lifecycles_of]
  | cons member rest ih =>
    intro done tail
    simp only [schedule, List.countP_append, block_countP_static_tear_down inner h, ih]
    have hcons : (lifecycles_of (member :: rest)).toFinset
        = insert member.lifecycle (lifecycles_of rest).toFinset := by
      simp [lifecycles_of]
    rw [hcons]
    by_cases h1 : member.lifecycle ∈ lifecycles_of (rest ++ tail)
    · rw [if_pos h1]
      rcases (mem_lifecycles_append rest tail _).mp h1 with h2 | h2
      · rw [Finset.insert_eq_of_mem (List.mem_toFinset.mpr h2)]
        omega
      · rw [Finset.insert_sdiff_of_mem _ (List.mem_toFinset.mpr h2)]
        omega
    · rw [if_neg h1]
      have h2 : member.lifecycle ∉ (lifecycles_of rest).toFinset :=
        fun e => h1 ((mem_lifecycles_append rest tail _).mpr (Or.inl (List.mem_toFinset.mp e)))
      have h3 : member.lifecycle ∉ (lifecycles_of tail).toFinset :=
        fun e => h1 ((mem_lifecycles_append rest tail _).mpr (Or.inr (List.mem_toFinset.mp e)))
      rw [Finset.insert_sdiff_of_not_mem _ h3, Finset.card_insert_of_not_mem]
      · omega
      · exact fun e => h2 (Finset.mem_sdiff.mp e).1

theorem block_countP_boundary (inner : Instance Benchmark → List Event) (h : Shaped inner)
    (before : List (Instance Benchmark)) (member : Instance Benchmark)
    (after : List (Instance Benchmark)) :
    (member_block inner before member after).countP Event.is_boundary = 0 := by
  obtain ⟨count, report, hin⟩ := h member
  unfold member_block
  rw [hin]
  have hrep : List.countP Event.is_boundary
      (List.replicate count (Event.execute member.inst.address)) = 0 := by
    rw [List.countP_eq_zero]
    intro e he
    rw [List.eq_of_mem_replicate he]
    simp [Event.is_boundary]
  by_cases hb : member.lifecycle ∈ lifecycles_of before
  · by_cases ha : member.lifecycle ∈ lifecycles_of after <;>
      simp [hb, ha, List.countP_cons, List.countP_append, hrep, Event.is_boundary]
  · by_cases ha : member.lifecycle ∈ lifecycles_of after <;>
      simp [hb, ha, List.countP_cons, List.countP_append, hrep, Event.is_boundary]

theorem schedule_no_boundary (inner : Instance Benchmark → List Event) (h : Shaped inner) :
    ∀ (rest done tail : List (Instance Benchmark)) (event : Event),
      event ∈ schedule inner done rest tail → event.is_boundary = false := by
  intro rest
  induction rest with
  | nil => intro done tail event he; simp [schedule] at he
  | cons member rest ih =>
    intro done tail event he
    simp only [schedule, List.mem_append] at he
    rcases he with he | he
    · have h0 := block_countP_boundary inner h done member (rest ++ tail)
      rw [List.countP_eq_zero] at h0
      simpa using h0 event he
    · exact ih _ _ event he

/-! ## The parser -/

theorem parse_limit_cases (L : StdLib) (self : Options) (value : String) :
    (∃ options, Options.parse_limit L self value = ([], options, true))
      ∨ ((L.strtod value).2 ≠ value.length ∧ Options.parse_limit L self value
          = ([Event.error "invalid number" value], self, false)) := by
  unfold Options.parse_limit
  by_cases h : (L.strtod value).2 = value.length
  · exact Or.inl ⟨{ self with limit := to_uint64 (1000000000 * (L.strtod value).1) % 2 ^ 64 },
      by simp [h]⟩
  · exact Or.inr ⟨h, by simp [h]⟩

theorem parse_regex_cases (L : StdLib) (self : Options) (value : String) :
    (L.regex_valid value = true
        ∧ Options.parse_regex L self value = ([], { self with regex := value }, true))
      ∨ (L.regex_valid value = false ∧ Options.parse_regex L self value
          = ([Event.error "invalid regex" value], self, false)) := by
  unfold Options.parse_regex
  by_cases h : L.regex_valid value = true
  · exact Or.inl ⟨h, by simp [h]⟩
  · exact Or.inr ⟨by simpa using h, by simp [h]⟩

theorem parse_loop_none (L : StdLib) (name : String) (benchmarks : Bool) :
    ∀ (arguments : List String) (self : Options) (out : List Event) (options : Options),
      Options.parse.loop L name benchmarks arguments self = (out, options, none) → out = [] := by
  intro arguments
  induction arguments with
  | nil => intro self out options h; simp [Options.parse.loop] at h; exact h.1
  | cons argument rest ih =>
    intro self out options h
    unfold Options.parse.loop at h
    by_cases h1 : argument = "--help"
    · simp [h1] at h
    · rw [if_neg h1] at h
      by_cases h2 : (benchmarks && starts_with argument "--limit=") = true
      · rw [if_pos h2] at h
        rcases parse_limit_cases L self (substr8 argument) with ⟨options2, hp⟩ | ⟨_, hp⟩
        · rw [hp] at h
          simp only at h
          generalize hrec : Options.parse.loop L name benchmarks rest options2 = result at h
          obtain ⟨more, final, code⟩ := result
          simp only [Prod.mk.injEq, List.nil_append] at h
          obtain ⟨h3, h4, h5⟩ := h
          subst h3 h4 h5
          exact ih _ _ _ hrec
        · rw [hp] at h
          simp at h
      · rw [if_neg h2] at h
        by_cases h3 : starts_with argument "--regex=" = true
        · rw [if_pos h3] at h
          rcases parse_regex_cases L self (substr8 argument) with ⟨_, hp⟩ | ⟨_, hp⟩
          · rw [hp] at h
            simp only at h
            generalize hrec : Options.parse.loop L name benchmarks rest
              { self with regex := substr8 argument } = result at h
            obtain ⟨more, final, code⟩ := result
            simp only [Prod.mk.injEq, List.nil_append] at h
            obtain ⟨h3, h4, h5⟩ := h
            subst h3 h4 h5
            exact ih _ _ _ hrec
          · rw [hp] at h
            simp at h
        · rw [if_neg h3] at h
          simp at h

theorem run_spec (fuel : Nat) (L : StdLib) (clock : Benchmark → List Round)
    (argv : List String) (instances : List (Instance Benchmark)) (out : List Event)
    (options : Options) (hfuel : 15 ≤ fuel)
    (hparse : Options.parse L {} argv true = (out, options, none)) :
    run fuel L clock argv instances
      = some ([Event.handle_start (filtered_by L options.regex instances).length]
          ++ schedule (member_events fuel clock options) []
              (filtered_by L options.regex instances) []
          ++ [Event.handle_end], 0) := by
  have hout : out = [] := parse_loop_none L _ true _ _ _ _ hparse
  subst hout
  have hinit : Counted [] [] [] := by
    intro key
    simp [Lifecycles.find, lifecycles_of]
  obtain ⟨h1, h2⟩ := collect_spec L options instances [] [] hinit
  simp only [List.nil_append] at h1 h2
  generalize hc : run.collect L options instances ([], []) = collected at h1 h2
  obtain ⟨filtered, lifecycles⟩ := collected
  simp only at h1 h2
  subst h1
  have hexec := execute_spec fuel clock options hfuel
    (filtered_by L options.regex instances) [] lifecycles (by simpa using h2)
  simp [run, hparse, hc, hexec, Runner.handle_start, Runner.handle_end]

/-! ## The claims about `run` -/

/-- C1: when parsing succeeds, `run` calls the shared set-up once and the
shared tear-down once for each lifecycle that has a filtered member, and calls
neither for any other lifecycle; in total each is called as many times as there
are distinct lifecycles among the filtered members. -/
theorem shared_calls_once_per_group (fuel : Nat) (L : StdLib) (clock : Benchmark → List Round)
    (argv : List String) (instances : List (Instance Benchmark)) (out : List Event)
    (options : Options) (hfuel : 15 ≤ fuel)
    (hparse : Options.parse L {} argv true = (out, options, none)) :
    ∃ trace code, run fuel L clock argv instances = some (trace, code)
      ∧ (∀ key, trace.count (Event.static_set_up key)
          = if key ∈ lifecycles_of (filtered_by L options.regex instances) then 1 else 0)
      ∧ (∀ key, trace.count (Event.static_tear_down key)
          = if key ∈ lifecycles_of (filtered_by L options.regex instances) then 1 else 0)
      ∧ trace.countP Event.is_static_set_up
          = (lifecycles_of (filtered_by L options.regex instances)).dedup.length
      ∧ trace.countP Event.is_static_tear_down
          = (lifecycles_of (filtered_by L options.regex instances)).dedup.length := by
  have hs := member_events_shaped fuel clock options hfuel
  refine ⟨_, _, run_spec fuel L clock argv instances out options hfuel hparse, ?_, ?_, ?_, ?_⟩
  · intro key
    simp [List.count_append, List.count_cons, schedule_count_static_set_up _ hs, lifecycles_of]
  · intro key
    simp [List.count_append, List.count_cons, schedule_count_static_tear_down _ hs, lifecycles_of]
  · simp [List.countP_append, List.countP_cons, schedule_countP_static_set_up _ hs,
      Event.is_static_set_up, List.card_toFinset, lifecycles_of]
  · simp [List.countP_append, List.countP_cons, schedule_countP_static_tear_down _ hs,
      Event.is_static_tear_down, List.card_toFinset, lifecycles_of]

theorem shared_calls_once_per_group_witness :
    15 ≤ 15
      ∧ Options.parse example_std {} example_argv true = ([], example_options, none)
      ∧ ∃ trace code,
        run 15 example_std example_clock example_argv example_benchmarks = some (trace, code)
        ∧ (∀ key, trace.count (Event.static_set_up key)
            = if key ∈ lifecycles_of (filtered_by example_std example_options.regex
                example_benchmarks) then 1 else 0)
        ∧ (∀ key, trace.count (Event.static_tear_down key)
            = if key ∈ lifecycles_of (filtered_by example_std example_options.regex
                example_benchmarks) then 1 else 0)
        ∧ trace.countP Event.is_static_set_up
            = (lifecycles_of (filtered_by example_std example_options.regex
                example_benchmarks)).dedup.length
        ∧ trace.countP Event.is_static_tear_down
            = (lifecycles_of (filtered_by example_std example_options.regex
                example_benchmarks)).dedup.length :=
  ⟨by decide, by decide,
    shared_calls_once_per_group 15 example_std example_clock example_argv
      example_benchmarks [] example_options (by decide) (by decide)⟩

theorem shaped_facts (inner : Instance Benchmark → List Event) (h : Shaped inner)
    (member : Instance Benchmark) :
    started_names (inner member) = [member.name]
      ∧ finished_names (inner member) = [member.name]
      ∧ (inner member).countP Event.is_static_set_up = 0
      ∧ (inner member).countP Event.is_static_tear_down = 0 := by
  obtain ⟨count, report, hin⟩ := h member
  rw [hin]
  have hrep1 : List.countP Event.is_static_set_up
      (List.replicate count (Event.execute member.inst.address)) = 0 := by
    rw [List.countP_eq_zero]
    intro e he
    rw [List.eq_of_mem_replicate he]
    simp [Event.is_static_set_up]
  have hrep2 : List.countP Event.is_static_tear_down
      (List.replicate count (Event.execute member.inst.address)) = 0 := by
    rw [List.countP_eq_zero]
    intro e he
    rw [List.eq_of_mem_replicate he]
    simp [Event.is_static_tear_down]
  refine ⟨?_, ?_, ?_, ?_⟩
  · simp only [started_names_append, started_names_replicate]; simp [started_names]
  · simp only [finished_names_append, finished_names_replicate]; simp [finished_names]
  · simp [List.countP_append, List.countP_cons, hrep1, Event.is_static_set_up]
  · simp [List.countP_append, List.countP_cons, hrep2, Event.is_static_tear_down]

theorem not_mem_lifecycles_nil (key : Lifecycle) : key ∉ lifecycles_of [] := by
  simp [lifecycles_of]

theorem set_up_objects_append (xs ys : List Event) :
    set_up_objects (xs ++ ys) = set_up_objects xs ++ set_up_objects ys := by
  simp [set_up_objects, List.filterMap_append]

theorem set_up_objects_replicate (count object : Nat) :
    set_up_objects (List.replicate count (Event.execute object)) = [] := by
  induction count with
  | zero => rfl
  | succ n ih => simp [List.replicate_succ, set_up_objects]

theorem block_set_up_objects (inner : Instance Benchmark → List Event) (h : Shaped inner)
    (before : List (Instance Benchmark)) (member : Instance Benchmark)
    (after : List (Instance Benchmark)) :
    set_up_objects (member_block inner before member after)
      = [member.inst.address, member.inst.address] := by
  obtain ⟨count, report, hin⟩ := h member
  unfold member_block
  rw [hin]
  simp only [set_up_objects_append, set_up_objects_replicate]
  split_ifs <;> simp [set_up_objects]

theorem schedule_set_up_objects (inner : Instance Benchmark → List Event) (h : Shaped inner) :
    ∀ (rest done tail : List (Instance Benchmark)),
      set_up_objects (schedule inner done rest tail)
        = rest.flatMap (fun member => [member.inst.address, member.inst.address]) := by
  intro rest
  induction rest with
  | nil => intro done tail; simp [schedule, set_up_objects]
  | cons member rest ih =>
    intro done tail
    simp [schedule, set_up_objects_append, block_set_up_objects inner h, ih]

theorem mem_of_count_eq_one {event : Event} {trace : List Event}
    (h : trace.count event = 1) : event ∈ trace := by
  by_contra hn
  rw [List.count_eq_zero.mpr hn] at h
  omega

theorem run_split (fuel : Nat) (L : StdLib) (clock : Benchmark → List Round)
    (argv : List String) (instances : List (Instance Benchmark)) (out : List Event)
    (options : Options) (before : List (Instance Benchmark)) (member : Instance Benchmark)
    (after : List (Instance Benchmark)) (hfuel : 15 ≤ fuel)
    (hparse : Options.parse L {} argv true = (out, options, none))
    (hsplit : filtered_by L options.regex instances = before ++ member :: after) :
    run fuel L clock argv instances
      = some (([Event.handle_start (filtered_by L options.regex instances).length]
            ++ schedule (member_events fuel clock options) [] before (member :: after))
          ++ member_block (member_events fuel clock options) before member after
          ++ (schedule (member_events fuel clock options) (before ++ [member]) after []
            ++ [Event.handle_end]), 0) := by
  rw [run_spec fuel L clock argv instances out options hfuel hparse]
  have hsched : schedule (member_events fuel clock options) []
        (filtered_by L options.regex instances) []
      = schedule (member_events fuel clock options) [] before (member :: after)
        ++ (member_block (member_events fuel clock options) before member after
        ++ schedule (member_events fuel clock options) (before ++ [member]) after []) := by
    rw [hsplit, schedule_append]
    simp [schedule]
  rw [hsched]
  simp [List.append_assoc]

/-- C2: when parsing succeeds, the events of each filtered member form one
block of the trace, after the blocks of the filtered members before it and
before those of the filtered members after it. The block opens with the shared
set-up exactly when no earlier filtered member has the member's lifecycle, and
this call comes immediately before the member's own set-up; it closes with the
shared tear-down exactly when no later filtered member has that lifecycle, and
this call comes immediately after the member's own tear-down. For a member that
is not the first of its group the shared set-up has been called earlier, for
one that is not the last the shared tear-down is called later, and the shared
tear-down is never called before a member nor the shared set-up after it. -/
theorem shared_calls_bracket_group (fuel : Nat) (L : StdLib) (clock : Benchmark → List Round)
    (argv : List String) (instances : List (Instance Benchmark)) (out : List Event)
    (options : Options) (before : List (Instance Benchmark)) (member : Instance Benchmark)
    (after : List (Instance Benchmark)) (hfuel : 15 ≤ fuel)
    (hparse : Options.parse L {} argv true = (out, options, none))
    (hsplit : filtered_by L options.regex instances = before ++ member :: after) :
    ∃ trace code pre inner post, run fuel L clock argv instances = some (trace, code)
      ∧ trace = pre
          ++ ((if member.lifecycle ∈ lifecycles_of before then []
                else [Event.static_set_up member.lifecycle])
            ++ [Event.set_up member.inst.address] ++ inner
            ++ [Event.tear_down member.inst.address]
            ++ (if member.lifecycle ∈ lifecycles_of after then []
                else [Event.static_tear_down member.lifecycle]))
          ++ post
      ∧ started_names pre = before.map (fun m => m.name)
      ∧ started_names inner = [member.name]
      ∧ started_names post = after.map (fun m => m.name)
      ∧ inner.countP Event.is_static_set_up = 0
      ∧ inner.countP Event.is_static_tear_down = 0
      ∧ (member.lifecycle ∈ lifecycles_of before → Event.static_set_up member.lifecycle ∈ pre)
      ∧ Event.static_tear_down member.lifecycle ∉ pre
      ∧ Event.static_set_up member.lifecycle ∉ post
      ∧ (member.lifecycle ∈ lifecycles_of after
          → Event.static_tear_down member.lifecycle ∈ post) := by
  have hs := member_events_shaped fuel clock options hfuel
  obtain ⟨hi1, _, hi3, hi4⟩ := shaped_facts _ hs member
  refine ⟨_, _, _, member_events fuel clock options member, _,
    run_split fuel L clock argv instances out options before member after hfuel hparse hsplit,
    rfl, ?_, hi1, ?_, hi3, hi4, ?_, ?_, ?_, ?_⟩
  · rw [started_names_append, schedule_started_names _ hs]
    simp [started_names]
  · rw [started_names_append, schedule_started_names _ hs]
    simp [started_names]
  · intro hmem
    apply mem_of_count_eq_one
    rw [List.count_append, schedule_count_static_set_up _ hs]
    simp [hmem, not_mem_lifecycles_nil]
  · rw [← List.count_eq_zero, List.count_append, schedule_count_static_tear_down _ hs]
    simp [mem_lifecycles_cons]
  · rw [← List.count_eq_zero, List.count_append, schedule_count_static_set_up _ hs]
    simp [mem_lifecycles_append, mem_lifecycles_cons]
  · intro hmem
    apply mem_of_count_eq_one
    rw [List.count_append, schedule_count_static_tear_down _ hs]
    simp [hmem, not_mem_lifecycles_nil]

/-- C3: when parsing succeeds, the units `run` executes, in the order it starts
them and in the order it finishes them, are exactly the registered units whose
whole name matches the pattern, in registration order. -/
theorem executed_units_are_filtered (fuel : Nat) (L : StdLib) (clock : Benchmark → List Round)
    (argv : List String) (instances : List (Instance Benchmark)) (out : List Event)
    (options : Options) (hfuel : 15 ≤ fuel)
    (hparse : Options.parse L {} argv true = (out, options, none)) :
    ∃ trace code, run fuel L clock argv instances = some (trace, code)
      ∧ started_names trace
          = (instances.filter (fun m => L.regex_match m.name options.regex)).map (fun m => m.name)
      ∧ finished_names trace
          = (instances.filter (fun m => L.regex_match m.name options.regex)).map (fun m => m.name)
      ∧ set_up_objects trace
          = (instances.filter (fun m => L.regex_match m.name options.regex)).flatMap
              (fun m => [m.inst.address, m.inst.address]) := by
  have hs := member_events_shaped fuel clock options hfuel
  refine ⟨_, _, run_spec fuel L clock argv instances out options hfuel hparse, ?_, ?_, ?_⟩
  · rw [started_names_append, started_names_append, schedule_started_names _ hs]
    simp [started_names, filtered_by]
  · rw [finished_names_append, finished_names_append, schedule_finished_names _ hs]
    simp [finished_names, filtered_by]
  · rw [set_up_objects_append, set_up_objects_append, schedule_set_up_objects _ hs]
    simp [set_up_objects, filtered_by]

theorem shared_calls_bracket_group_witness :
    15 ≤ 15
      ∧ Options.parse example_std {} example_argv true = ([], example_options, none)
      ∧ filtered_by example_std example_options.regex example_benchmarks
          = [Instance.mk (Lifecycle.mk 1 2) "A" (Benchmark.mk 100)]
            ++ Instance.mk (Lifecycle.mk 1 2) "Ab" (Benchmark.mk 101) :: []
      ∧ ∃ trace code pre inner post,
        run 15 example_std example_clock example_argv example_benchmarks = some (trace, code)
        ∧ trace = pre
            ++ ((if (Lifecycle.mk 1 2) ∈ lifecycles_of
                    [Instance.mk (Lifecycle.mk 1 2) "A" (Benchmark.mk 100)] then []
                  else [Event.static_set_up (Lifecycle.mk 1 2)])
              ++ [Event.set_up 101] ++ inner ++ [Event.tear_down 101]
              ++ (if (Lifecycle.mk 1 2) ∈ lifecycles_of [] then []
                  else [Event.static_tear_down (Lifecycle.mk 1 2)]))
            ++ post
        ∧ started_names pre
            = [Instance.mk (Lifecycle.mk 1 2) "A" (Benchmark.mk 100)].map (fun m => m.name)
        ∧ started_names inner = ["Ab"]
        ∧ started_names post = ([] : List (Instance Benchmark)).map (fun m => m.name)
        ∧ inner.countP Event.is_static_set_up = 0
        ∧ inner.countP Event.is_static_tear_down = 0
        ∧ ((Lifecycle.mk 1 2) ∈ lifecycles_of
              [Instance.mk (Lifecycle.mk 1 2) "A" (Benchmark.mk 100)]
            → Event.static_set_up (Lifecycle.mk 1 2) ∈ pre)
        ∧ Event.static_tear_down (Lifecycle.mk 1 2) ∉ pre
        ∧ Event.static_set_up (Lifecycle.mk 1 2) ∉ post
        ∧ ((Lifecycle.mk 1 2) ∈ lifecycles_of []
            → Event.static_tear_down (Lifecycle.mk 1 2) ∈ post) :=
  ⟨by decide, by decide, by rfl,
    shared_calls_bracket_group 15 example_std example_clock example_argv example_benchmarks []
      example_options [Instance.mk (Lifecycle.mk 1 2) "A" (Benchmark.mk 100)]
      (Instance.mk (Lifecycle.mk 1 2) "Ab" (Benchmark.mk 101)) [] (by decide) (by decide)
      (by rfl)⟩

theorem executed_units_are_filtered_witness :
    15 ≤ 15
      ∧ Options.parse example_std {} example_argv true = ([], example_options, none)
      ∧ ∃ trace code,
        run 15 example_std example_clock example_argv example_benchmarks = some (trace, code)
        ∧ started_names trace
            = (example_benchmarks.filter
                (fun m => example_std.regex_match m.name example_options.regex)).map
                  (fun m => m.name)
        ∧ finished_names trace
            = (example_benchmarks.filter
                (fun m => example_std.regex_match m.name example_options.regex)).map
                  (fun m => m.name)
        ∧ set_up_objects trace
            = (example_benchmarks.filter
                (fun m => example_std.regex_match m.name example_options.regex)).flatMap
                  (fun m => [m.inst.address, m.inst.address]) :=
  ⟨by decide, by decide,
    executed_units_are_filtered 15 example_std example_clock example_argv example_benchmarks []
      example_options (by decide) (by decide)⟩

/-- C4: the total `run` keeps for a lifecycle is the number of its members that
pass the filter, whatever the number of its members that do not; and when
parsing succeeds the shared tear-down of a lifecycle with `k` filtered members
is called immediately after the own tear-down of the `k`-th of them, and
nowhere else. -/
theorem tear_down_total_is_filtered_count (fuel : Nat) (L : StdLib)
    (clock : Benchmark → List Round) (argv : List String)
    (instances : List (Instance Benchmark)) (out : List Event) (options : Options)
    (key : Lifecycle) (before : List (Instance Benchmark)) (member : Instance Benchmark)
    (after : List (Instance Benchmark)) (hfuel : 15 ≤ fuel)
    (hparse : Options.parse L {} argv true = (out, options, none))
    (hsplit : filtered_by L options.regex instances = before ++ member :: after)
    (hkey : member.lifecycle = key)
    (hlast : (lifecycles_of before).count key + 1
      = (lifecycles_of (filtered_by L options.regex instances)).count key) :
    Lifecycles.find (run.collect L options instances ([], [])).2 key
        = some (key, (0, (lifecycles_of (instances.filter
            (fun m => L.regex_match m.name options.regex))).count key))
      ∧ ∃ trace code pre post, run fuel L clock argv instances = some (trace, code)
        ∧ trace = pre ++ [Event.tear_down member.inst.address, Event.static_tear_down key]
            ++ post
        ∧ started_names pre = (before ++ [member]).map (fun m => m.name)
        ∧ started_names post = after.map (fun m => m.name)
        ∧ Event.static_tear_down key ∉ pre
        ∧ Event.static_tear_down key ∉ post := by
  have hs := member_events_shaped fuel clock options hfuel
  obtain ⟨hi1, _, _, hi4⟩ := shaped_facts _ hs member
  have hafter : key ∉ lifecycles_of after := by
    rw [hsplit, count_lifecycles_append, count_lifecycles_cons, if_pos hkey] at hlast
    rw [← List.count_eq_zero]
    omega
  have hinit : Counted [] [] [] := by
    intro k
    simp [Lifecycles.find, lifecycles_of]
  obtain ⟨_, h2⟩ := collect_spec L options instances [] [] hinit
  refine ⟨?_, ?_⟩
  · have h3 := h2 key
    simp only [List.nil_append] at h3
    rw [h3, if_neg (by omega)]
    simp [count_lifecycles_nil, filtered_by]
  · subst hkey
    refine ⟨_, _,
      ([Event.handle_start (filtered_by L options.regex instances).length]
          ++ schedule (member_events fuel clock options) [] before (member :: after))
        ++ ((if member.lifecycle ∈ lifecycles_of before then []
              else [Event.static_set_up member.lifecycle])
          ++ [Event.set_up member.inst.address] ++ member_events fuel clock options member),
      schedule (member_events fuel clock options) (before ++ [member]) after []
        ++ [Event.handle_end],
      run_split fuel L clock argv instances out options before member after hfuel hparse hsplit,
      ?_, ?_, ?_, ?_, ?_⟩
    · simp [member_block, hafter, List.append_assoc]
    · rw [started_names_append, started_names_append, started_names_append,
        started_names_append, schedule_started_names _ hs, hi1]
      by_cases hb : member.lifecycle ∈ lifecycles_of before <;> simp [started_names, hb]
    · rw [started_names_append, schedule_started_names _ hs]
      simp [started_names]
    · have hin : Event.static_tear_down member.lifecycle
          ∉ member_events fuel clock options member := by
        intro hmem
        rw [List.countP_eq_zero] at hi4
        have := hi4 _ hmem
        simp [Event.is_static_tear_down] at this
      rw [← List.count_eq_zero, List.count_append, List.count_append, List.count_append,
        List.count_append, schedule_count_static_tear_down _ hs, List.count_eq_zero.mpr hin]
      by_cases hb : member.lifecycle ∈ lifecycles_of before <;>
        simp [hb, mem_lifecycles_cons]
    · rw [← List.count_eq_zero, List.count_append, schedule_count_static_tear_down _ hs]
      simp [not_mem_lifecycles_nil, hafter]

/-- C6: when parsing succeeds, the trace of `run` is one start event, which
carries the number of registered units whose name matches the pattern, then
the calls and the per-unit events of the filtered units in execution order,
none of which is a start or end event, then one end event. -/
theorem start_and_end_events (fuel : Nat) (L : StdLib) (clock : Benchmark → List Round)
    (argv : List String) (instances : List (Instance Benchmark)) (out : List Event)
    (options : Options) (hfuel : 15 ≤ fuel)
    (hparse : Options.parse L {} argv true = (out, options, none)) :
    ∃ middle code, run fuel L clock argv instances
        = some ([Event.handle_start
              (instances.countP (fun m => L.regex_match m.name options.regex))]
            ++ middle ++ [Event.handle_end], code)
      ∧ (∀ event ∈ middle, event.is_boundary = false)
      ∧ started_names middle
          = (instances.filter (fun m => L.regex_match m.name options.regex)).map (fun m => m.name)
      ∧ finished_names middle
          = (instances.filter (fun m => L.regex_match m.name options.regex)).map
              (fun m => m.name) := by
  have hs := member_events_shaped fuel clock options hfuel
  refine ⟨schedule (member_events fuel clock options) []
      (filtered_by L options.regex instances) [], 0, ?_, ?_, ?_, ?_⟩
  · rw [run_spec fuel L clock argv instances out options hfuel hparse]
    simp [filtered_by, List.countP_eq_length_filter]
  · exact schedule_no_boundary _ hs _ _ _
  · rw [schedule_started_names _ hs]; rfl
  · rw [schedule_finished_names _ hs]; rfl

/-- C10: whenever parsing succeeds, `run` for benchmarks returns and its exit
code is 0, for every list of registered benchmarks, every filter and all clock
readings. -/
theorem benchmarks_exit_code_zero (fuel : Nat) (L : StdLib) (clock : Benchmark → List Round)
    (argv : List String) (instances : List (Instance Benchmark)) (out : List Event)
    (options : Options) (hfuel : 15 ≤ fuel)
    (hparse : Options.parse L {} argv true = (out, options, none)) :
    ∃ trace, run fuel L clock argv instances = some (trace, 0)
      ∧ main_benchmarks fuel L clock (Registry.mk instances []) argv = some (trace, 0) :=
  ⟨_, run_spec fuel L clock argv instances out options hfuel hparse,
    run_spec fuel L clock argv instances out options hfuel hparse⟩

theorem tear_down_total_is_filtered_count_witness :
    15 ≤ 15
      ∧ Options.parse example_std {} example_argv true = ([], example_options, none)
      ∧ filtered_by example_std example_options.regex example_benchmarks
          = [Instance.mk (Lifecycle.mk 1 2) "A" (Benchmark.mk 100)]
            ++ Instance.mk (Lifecycle.mk 1 2) "Ab" (Benchmark.mk 101) :: []
      ∧ (Instance.mk (Lifecycle.mk 1 2) "Ab" (Benchmark.mk 101)).lifecycle = Lifecycle.mk 1 2
      ∧ (lifecycles_of [Instance.mk (Lifecycle.mk 1 2) "A" (Benchmark.mk 100)]).count
            (Lifecycle.mk 1 2) + 1
          = (lifecycles_of (filtered_by example_std example_options.regex
              example_benchmarks)).count (Lifecycle.mk 1 2)
      ∧ Lifecycles.find (run.collect example_std example_options example_benchmarks ([], [])).2
            (Lifecycle.mk 1 2)
          = some (Lifecycle.mk 1 2, (0, (lifecycles_of (example_benchmarks.filter
              (fun m => example_std.regex_match m.name example_options.regex))).count
                (Lifecycle.mk 1 2)))
      ∧ ∃ trace code pre post,
        run 15 example_std example_clock example_argv example_benchmarks = some (trace, code)
        ∧ trace = pre ++ [Event.tear_down 101, Event.static_tear_down (Lifecycle.mk 1 2)] ++ post
        ∧ started_names pre
            = ([Instance.mk (Lifecycle.mk 1 2) "A" (Benchmark.mk 100)]
                ++ [Instance.mk (Lifecycle.mk 1 2) "Ab" (Benchmark.mk 101)]).map (fun m => m.name)
        ∧ started_names post = ([] : List (Instance Benchmark)).map (fun m => m.name)
        ∧ Event.static_tear_down (Lifecycle.mk 1 2) ∉ pre
        ∧ Event.static_tear_down (Lifecycle.mk 1 2) ∉ post :=
  ⟨by decide, by decide, by rfl, rfl, by decide,
    tear_down_total_is_filtered_count 15 example_std example_clock example_argv
      example_benchmarks [] example_options (Lifecycle.mk 1 2)
      [Instance.mk (Lifecycle.mk 1 2) "A" (Benchmark.mk 100)]
      (Instance.mk (Lifecycle.mk 1 2) "Ab" (Benchmark.mk 101)) [] (by decide) (by decide)
      (by rfl) rfl (by decide)⟩

theorem start_and_end_events_witness :
    15 ≤ 15
      ∧ Options.parse example_std {} example_argv true = ([], example_options, none)
      ∧ ∃ middle code,
        run 15 example_std example_clock example_argv example_benchmarks
          = some ([Event.handle_start (example_benchmarks.countP
                (fun m => example_std.regex_match m.name example_options.regex))]
              ++ middle ++ [Event.handle_end], code)
        ∧ (∀ event ∈ middle, event.is_boundary = false)
        ∧ started_names middle
            = (example_benchmarks.filter
                (fun m => example_std.regex_match m.name example_options.regex)).map
                  (fun m => m.name)
        ∧ finished_names middle
            = (example_benchmarks.filter
                (fun m => example_std.regex_match m.name example_options.regex)).map
                  (fun m => m.name) :=
  ⟨by decide, by decide,
    start_and_end_events 15 example_std example_clock example_argv example_benchmarks []
      example_options (by decide) (by decide)⟩

theorem benchmarks_exit_code_zero_witness :
    15 ≤ 15
      ∧ Options.parse example_std {} example_argv true = ([], example_options, none)
      ∧ ∃ trace,
        run 15 example_std example_clock example_argv example_benchmarks = some (trace, 0)
        ∧ main_benchmarks 15 example_std example_clock (Registry.mk example_benchmarks [])
            example_argv = some (trace, 0) :=
  ⟨by decide, by decide,
    benchmarks_exit_code_zero 15 example_std example_clock example_argv example_benchmarks []
      example_options (by decide) (by decide)⟩

/-! ## Invalid options -/

theorem starts_with_limit_ne_help (argument : String)
    (h : starts_with argument "--limit=" = true) : argument ≠ "--help" := by
  intro e
  subst e
  revert h
  decide

theorem starts_with_regex_ne_help (argument : String)
    (h : starts_with argument "--regex=" = true) : argument ≠ "--help" := by
  intro e
  subst e
  revert h
  decide

theorem starts_with_regex_not_limit (argument : String)
    (h : starts_with argument "--regex=" = true) : starts_with argument "--limit=" = false := by
  unfold starts_with at h ⊢
  have h1 : List.take 8 argument.data = "--regex=".data := by simpa using h
  rw [h1]
  decide

theorem parse_loop_invalid (L : StdLib) (name : String) (argument : String)
    (after : List String) (hinvalid : invalid_option L argument = true) :
    ∀ (before : List String) (self : Options), "--help" ∉ before →
      ∃ message value options,
        Options.parse.loop L name true (before ++ argument :: after) self
          = ([Event.error message value], options, some 1) := by
  intro before
  induction before with
  | nil =>
    intro self _
    simp only [List.nil_append]
    unfold Options.parse.loop
    simp only [invalid_option, Bool.or_eq_true, Bool.and_eq_true, decide_eq_true_eq,
      Bool.not_eq_true'] at hinvalid
    rcases hinvalid with ⟨h1, h2⟩ | ⟨h1, h2⟩
    · rw [if_neg (starts_with_limit_ne_help argument h1)]
      rw [if_pos (by simp [h1])]
      rcases parse_limit_cases L self (substr8 argument) with ⟨options2, hp⟩ | ⟨_, hp⟩
      · unfold Options.parse_limit at hp
        simp [h2] at hp
      · rw [hp]
        exact ⟨_, _, _, rfl⟩
    · rw [if_neg (starts_with_regex_ne_help argument h1)]
      rw [if_neg (by simp [starts_with_regex_not_limit argument h1]), if_pos h1]
      rcases parse_regex_cases L self (substr8 argument) with ⟨hv, _⟩ | ⟨_, hp⟩
      · rw [h2] at hv
        exact absurd hv (by simp)
      · rw [hp]
        exact ⟨_, _, _, rfl⟩
  | cons first before ih =>
    intro self hhelp
    have hfirst : first ≠ "--help" := fun e => hhelp (by simp [e])
    have hrest : "--help" ∉ before := fun e => hhelp (by simp [e])
    simp only [List.cons_append]
    unfold Options.parse.loop
    rw [if_neg hfirst]
    by_cases h2 : (true && starts_with first "--limit=") = true
    · rw [if_pos h2]
      rcases parse_limit_cases L self (substr8 first) with ⟨options2, hp⟩ | ⟨_, hp⟩
      · rw [hp]
        obtain ⟨message, value, options, hrec⟩ := ih options2 hrest
        exact ⟨message, value, options, by simp [hrec]⟩
      · rw [hp]
        exact ⟨_, _, _, rfl⟩
    · rw [if_neg h2]
      by_cases h3 : starts_with first "--regex=" = true
      · rw [if_pos h3]
        rcases parse_regex_cases L self (substr8 first) with ⟨_, hp⟩ | ⟨_, hp⟩
        · rw [hp]
          obtain ⟨message, value, options, hrec⟩ := ih { self with regex := substr8 first } hrest
          exact ⟨message, value, options, by simp [hrec]⟩
        · rw [hp]
          exact ⟨_, _, _, rfl⟩
      · rw [if_neg h3]
        exact ⟨_, _, _, rfl⟩

/-- C9, as the code has it: when the command line of the benchmark runner holds
an invalid option value (a `--limit=` value that `strtod` does not read to its
end, or a `--regex=` value that is not a valid pattern) and no `--help` comes
before it, `run` returns exit code 1 and its whole trace is one error report:
no start event, no shared or per-unit set-up or tear-down, no unit body. -/
theorem invalid_option_stops_run (fuel : Nat) (L : StdLib) (clock : Benchmark → List Round)
    (argv : List String) (instances : List (Instance Benchmark)) (before : List String)
    (argument : String) (after : List String)
    (hsplit : argv.drop 1 = before ++ argument :: after)
    (hinvalid : invalid_option L argument = true) (hhelp : "--help" ∉ before) :
    ∃ message value,
      run fuel L clock argv instances = some ([Event.error message value], 1) := by
  obtain ⟨message, value, options, hloop⟩ :=
    parse_loop_invalid L (argv.headD "") argument after hinvalid before {} hhelp
  refine ⟨message, value, ?_⟩
  unfold run Options.parse
  rw [hsplit, hloop]

theorem invalid_option_stops_run_witness :
    List.drop 1 ["bench", "--regex=A.*", "--limit=1x", "--help"]
        = ["--regex=A.*"] ++ "--limit=1x" :: ["--help"]
      ∧ invalid_option example_std "--limit=1x" = true
      ∧ "--help" ∉ ["--regex=A.*"]
      ∧ ∃ message value,
        run 15 example_std example_clock ["bench", "--regex=A.*", "--limit=1x", "--help"]
          example_benchmarks = some ([Event.error message value], 1) :=
  ⟨by decide, by decide, by decide,
    invalid_option_stops_run 15 example_std example_clock
      ["bench", "--regex=A.*", "--limit=1x", "--help"] example_benchmarks ["--regex=A.*"]
      "--limit=1x" ["--help"] (by decide) (by decide) (by decide)⟩

/-- C9, as stated, fails: the command line `bench --help --regex=[` holds an
invalid option value, yet `run` prints the help text and returns exit code 0. -/
theorem invalid_option_after_help_exits_zero :
    invalid_option example_std "--regex=[" = true
      ∧ "--regex=[" ∈ ["bench", "--help", "--regex=["]
      ∧ run 15 example_std example_clock ["bench", "--help", "--regex=["] example_benchmarks
          = some ([Event.print_help "bench" true], 0) := by
  decide

/-! ## The per-unit lifecycle functions, and the test discipline -/

/-- C5 fails on the code: for one registered benchmark and no options, `run`
calls the per-unit set-up of the benchmark twice (once itself and once in
`Benchmark::run`) and its per-unit tear-down twice. -/
theorem per_unit_set_up_runs_twice :
    run 15 example_std idle_clock ["bench"]
        [Instance.mk (Lifecycle.mk 1 2) "Benchmark" (Benchmark.mk 7)]
      = some ([Event.handle_start 1, Event.static_set_up (Lifecycle.mk 1 2),
          Event.set_up 7, Event.unit_started "Benchmark", Event.set_up 7, Event.tear_down 7,
          Event.unit_report (BenchmarkReport.mk []), Event.unit_finished "Benchmark",
          Event.tear_down 7, Event.static_tear_down (Lifecycle.mk 1 2), Event.handle_end], 0)
      ∧ (run 15 example_std idle_clock ["bench"]
          [Instance.mk (Lifecycle.mk 1 2) "Benchmark" (Benchmark.mk 7)]).map
            (fun result => (result.1.count (Event.set_up 7), result.1.count (Event.tear_down 7)))
          = some (2, 2) := by
  decide

/-- C7 fails on the code: with the tests `A`, `Ab` and `Bc` registered and the
pattern `A.*`, `main_tests` makes no call and emits no event, so no test is
run and no start event is reported; the benchmark path, on benchmarks of these
names, reports a count of 2 and runs `A` and `Ab` in that order. -/
theorem main_tests_runs_nothing :
    main_tests example_tests ["tests", "--regex=A.*"] = ([], 0)
      ∧ started_names (main_tests example_tests ["tests", "--regex=A.*"]).1 ≠ ["A", "Ab"]
      ∧ Event.handle_start 2 ∉ (main_tests example_tests ["tests", "--regex=A.*"]).1
      ∧ (main_benchmarks 15 example_std idle_clock (Registry.mk example_benchmarks [])
          example_argv).map (fun result => (result.1.head?, started_names result.1, result.2))
          = some (some (Event.handle_start 2), ["A", "Ab"], 0) := by
  refine ⟨rfl, by decide, by decide, by decide⟩

theorem starts_with_limit_not_regex (argument : String)
    (h : starts_with argument "--limit=" = true) : starts_with argument "--regex=" = false := by
  unfold starts_with at h ⊢
  have h1 : List.take 8 argument.data = "--limit=".data := by simpa using h
  rw [h1]
  decide

theorem parse_loop_continue (L : StdLib) (name : String) (benchmarks : Bool)
    (rest : List String) (self : Options) :
    (match Options.parse.loop L name benchmarks rest self with
      | (more, self, code) => (([] : List Event) ++ more, self, code))
      = Options.parse.loop L name benchmarks rest self := by
  generalize Options.parse.loop L name benchmarks rest self = result
  obtain ⟨more, options, code⟩ := result
  simp

/-- C11: an argument that begins with `--limit=` is rejected as an invalid
argument, with exit code 1, when `Options::parse` parses for tests, wherever in
the loop it is met and also as the first argument of a command line; when
parsing for benchmarks it is accepted if `strtod` reads its value to the end,
and sets the limit. An argument `--regex=` with a valid pattern is accepted in
both modes and sets the pattern. -/
theorem limit_only_for_benchmarks (L : StdLib) (name : String) (limit_argument : String)
    (regex_argument : String) (rest : List String) (self : Options)
    (hlimit : starts_with limit_argument "--limit=" = true)
    (hregex : starts_with regex_argument "--regex=" = true)
    (hvalid : L.regex_valid (substr8 regex_argument) = true) :
    Options.parse.loop L name false (limit_argument :: rest) self
        = ([Event.error "invalid argument" limit_argument], self, some 1)
      ∧ Options.parse L self (name :: limit_argument :: rest) false
        = ([Event.error "invalid argument" limit_argument], self, some 1)
      ∧ Options.parse.loop L name true (limit_argument :: rest) self
        = (if (L.strtod (substr8 limit_argument)).2 = (substr8 limit_argument).length then
            Options.parse.loop L name true rest
              { self with limit :=
                  to_uint64 (1000000000 * (L.strtod (substr8 limit_argument)).1) % 2 ^ 64 }
          else ([Event.error "invalid number" (substr8 limit_argument)], self, some 1))
      ∧ ∀ benchmarks : Bool,
          Options.parse.loop L name benchmarks (regex_argument :: rest) self
            = Options.parse.loop L name benchmarks rest
                { self with regex := substr8 regex_argument } := by
  have h1 : limit_argument ≠ "--help" := starts_with_limit_ne_help limit_argument hlimit
  have h2 : starts_with limit_argument "--regex=" = false :=
    starts_with_limit_not_regex limit_argument hlimit
  have hloop : Options.parse.loop L name false (limit_argument :: rest) self
      = ([Event.error "invalid argument" limit_argument], self, some 1) := by
    unfold Options.parse.loop
    simp [h1, h2]
  refine ⟨hloop, ?_, ?_, ?_⟩
  · simpa [Options.parse] using hloop
  · conv_lhs => unfold Options.parse.loop
    rw [if_neg h1, if_pos (by simp [hlimit])]
    by_cases hs : (L.strtod (substr8 limit_argument)).2 = (substr8 limit_argument).length
    · rw [if_pos hs]
      have hp : Options.parse_limit L self (substr8 limit_argument)
          = ([],
              { self with limit :=
                  to_uint64 (1000000000 * (L.strtod (substr8 limit_argument)).1) % 2 ^ 64 },
              true) := by
        simp [Options.parse_limit, hs]
      rw [hp]
      exact parse_loop_continue L name true rest _
    · rw [if_neg hs]
      have hp : Options.parse_limit L self (substr8 limit_argument)
          = ([Event.error "invalid number" (substr8 limit_argument)], self, false) := by
        simp [Options.parse_limit, hs]
      rw [hp]
  · intro benchmarks
    have h3 : regex_argument ≠ "--help" := starts_with_regex_ne_help regex_argument hregex
    have h4 : starts_with regex_argument "--limit=" = false :=
      starts_with_regex_not_limit regex_argument hregex
    have hp : Options.parse_regex L self (substr8 regex_argument)
        = ([], { self with regex := substr8 regex_argument }, true) := by
      simp [Options.parse_regex, hvalid]
    conv_lhs => unfold Options.parse.loop
    rw [if_neg h3, if_neg (by simp [h4]), if_pos hregex, hp]
    exact parse_loop_continue L name benchmarks rest _

theorem limit_only_for_benchmarks_witness :
    starts_with "--limit=5" "--limit=" = true
      ∧ starts_with "--regex=A.*" "--regex=" = true
      ∧ example_std.regex_valid (substr8 "--regex=A.*") = true
      ∧ (Options.parse.loop example_std "tests" false ("--limit=5" :: ["--help"]) {}
          = ([Event.error "invalid argument" "--limit=5"], {}, some 1)
        ∧ Options.parse example_std {} ("tests" :: "--limit=5" :: ["--help"]) false
          = ([Event.error "invalid argument" "--limit=5"], {}, some 1)
        ∧ Options.parse.loop example_std "tests" true ("--limit=5" :: ["--help"]) {}
          = (if (example_std.strtod (substr8 "--limit=5")).2 = (substr8 "--limit=5").length then
              Options.parse.loop example_std "tests" true ["--help"]
                { ({} : Options) with
                  limit :=
                    to_uint64 (1000000000 * (example_std.strtod (substr8 "--limit=5")).1)
                      % 2 ^ 64 }
            else ([Event.error "invalid number" (substr8 "--limit=5")], {}, some 1))
        ∧ ∀ benchmarks : Bool,
            Options.parse.loop example_std "tests" benchmarks ("--regex=A.*" :: ["--help"]) {}
              = Options.parse.loop example_std "tests" benchmarks ["--help"]
                  { ({} : Options) with regex := substr8 "--regex=A.*" }) :=
  ⟨by decide, by decide, by decide,
    limit_only_for_benchmarks example_std "tests" "--limit=5" "--regex=A.*" ["--help"] {}
      (by decide) (by decide) (by decide)⟩

/-! ## Units in the last place -/

theorem max_sub_min_eq (left right : Nat) :
    max left right - min left right = bit_distance left right := by
  unfold bit_distance
  rcases Nat.le_total left right with h | h
  · rw [max_eq_right h, min_eq_left h]
    omega
  · rw [max_eq_left h, min_eq_right h]
    omega

theorem get_ulp_difference_eq {width : Nat} (hwidth : width ≤ 64)
    (left right : Representation width) :
    detail.get_ulp_difference left right = bit_distance left.bits right.bits := by
  unfold detail.get_ulp_difference
  rw [max_sub_min_eq]
  have h1 : bit_distance left.bits right.bits < 2 ^ width := by
    have hl := left.in_range
    have hr := right.in_range
    unfold bit_distance
    omega
  have h2 : (2 : Nat) ^ width ≤ 2 ^ 64 := Nat.pow_le_pow_right (by decide) hwidth
  rw [Nat.mod_eq_of_lt h1, Nat.mod_eq_of_lt (lt_of_lt_of_le h1 h2)]

/-- C12: the floating-point equality check (`fpcmp` with `std::less_equal`)
passes exactly when the absolute difference of the bit patterns of its operands
is at most the tolerance, for `float` and for `double`. -/
theorem fpeq_passes_iff (stringify32 : Representation 32 → Option String)
    (stringify64 : Representation 64 → Option String) (assertion : Assertion)
    (left32 right32 : Representation 32) (left64 right64 : Representation 64) (ulp : Nat) :
    (detail.fpcmp stringify32 assertion left32 right32 ulp less_equal = PASS
        ↔ bit_distance left32.bits right32.bits ≤ ulp)
      ∧ (detail.fpcmp stringify64 assertion left64 right64 ulp less_equal = PASS
        ↔ bit_distance left64.bits right64.bits ≤ ulp) := by
  constructor
  · unfold detail.fpcmp
    simp only [get_ulp_difference_eq (by decide) left32 right32, less_equal, PASS]
    by_cases h : bit_distance left32.bits right32.bits ≤ ulp <;> simp [h]
  · unfold detail.fpcmp
    simp only [get_ulp_difference_eq (by decide) left64 right64, less_equal, PASS]
    by_cases h : bit_distance left64.bits right64.bits ≤ ulp <;> simp [h]

/-- C13: for two values whose bit patterns differ by exactly 1,
`get_ulp_difference` returns 1, in the `float` and in the `double` overload. -/
theorem adjacent_patterns_differ_by_one (left32 right32 : Representation 32)
    (left64 right64 : Representation 64)
    (h32 : bit_distance left32.bits right32.bits = 1)
    (h64 : bit_distance left64.bits right64.bits = 1) :
    detail.get_ulp_difference_float left32 right32 = 1
      ∧ detail.get_ulp_difference_double left64 right64 = 1 := by
  unfold detail.get_ulp_difference_float detail.get_ulp_difference_double
  rw [get_ulp_difference_eq (by decide), get_ulp_difference_eq (by decide)]
  exact ⟨h32, h64⟩

theorem adjacent_patterns_differ_by_one_witness :
    bit_distance (Representation.mk 1078530011 (by decide) : Representation 32).bits
        (Representation.mk 1078530010 (by decide) : Representation 32).bits = 1
      ∧ bit_distance (Representation.mk 0 (by decide) : Representation 64).bits
        (Representation.mk 1 (by decide) : Representation 64).bits = 1
      ∧ (detail.get_ulp_difference_float (Representation.mk 1078530011 (by decide))
            (Representation.mk 1078530010 (by decide)) = 1
        ∧ detail.get_ulp_difference_double (Representation.mk 0 (by decide))
            (Representation.mk 1 (by decide)) = 1) :=
  ⟨by decide, by decide,
    adjacent_patterns_differ_by_one (Representation.mk 1078530011 (by decide))
      (Representation.mk 1078530010 (by decide)) (Representation.mk 0 (by decide))
      (Representation.mk 1 (by decide)) (by decide) (by decide)⟩

/-- C14: `get_ulp_difference` is symmetric, in both overloads. -/
theorem ulp_difference_symmetric (left32 right32 : Representation 32)
    (left64 right64 : Representation 64) :
    detail.get_ulp_difference_float left32 right32
        = detail.get_ulp_difference_float right32 left32
      ∧ detail.get_ulp_difference_double left64 right64
        = detail.get_ulp_difference_double right64 left64 := by
  unfold detail.get_ulp_difference_float detail.get_ulp_difference_double
    detail.get_ulp_difference
  rw [max_comm left32.bits, min_comm left32.bits, max_comm left64.bits, min_comm left64.bits]
  exact ⟨rfl, rfl⟩

/-- C15: `get_ulp_difference(x, x)` is 0, for every `float` and every `double`
`x` (finite or not). -/
theorem ulp_difference_self (x32 : Representation 32) (x64 : Representation 64) :
    detail.get_ulp_difference_float x32 x32 = 0
      ∧ detail.get_ulp_difference_double x64 x64 = 0 := by
  unfold detail.get_ulp_difference_float detail.get_ulp_difference_double
    detail.get_ulp_difference
  simp

theorem fpcmp_fail {width : Nat} (stringify : Representation width → Option String)
    (assertion : Assertion) (left right : Representation width) (ulp : Nat)
    (f : Nat → Nat → Bool) (h : f (detail.get_ulp_difference left right) ulp = false) :
    detail.fpcmp stringify assertion left right ulp f
      = some ((add_information stringify
          (add_information stringify (FAIL assertion) "left" left
            (assertion.arguments.getD 0 ""))
          "right" right (assertion.arguments.getD 1 "")).add_information "difference"
            (to_string (detail.get_ulp_difference left right))) := by
  simp [detail.fpcmp, h]

theorem fpcmp_pass {width : Nat} (stringify : Representation width → Option String)
    (assertion : Assertion) (left right : Representation width) (ulp : Nat)
    (f : Nat → Nat → Bool) (h : f (detail.get_ulp_difference left right) ulp = true) :
    detail.fpcmp stringify assertion left right ulp f = PASS := by
  simp [detail.fpcmp, h]

theorem add_information_keeps {T : Type} (stringify : T → Option String) (failure : Failure)
    (key : String) (value : T) (argument : String) :
    (add_information stringify failure key value argument).location = failure.location
      ∧ (add_information stringify failure key value argument).assertion = failure.assertion
      ∧ (add_information stringify failure key value argument).stack = failure.stack := by
  unfold add_information
  cases stringify value with
  | none => exact ⟨rfl, rfl, rfl⟩
  | some string =>
    by_cases hs : string = argument
    · simp [hs]
    · simp [hs, Failure.add_information]

/-- C16: of the floating-point equality check (`std::less_equal`) and the
inequality check (`std::greater`) on the same operands and tolerance, exactly
one passes; the other returns a failure, whose last information entry is
`difference` with the decimal distance. -/
theorem fpeq_fpne_exactly_one {width : Nat} (stringify : Representation width → Option String)
    (equality inequality : Assertion) (left right : Representation width) (ulp : Nat) :
    (detail.fpcmp stringify equality left right ulp less_equal = PASS
        ∧ ∃ failure, detail.fpcmp stringify inequality left right ulp greater = some failure
          ∧ failure.information.getLast?
            = some ("difference", to_string (detail.get_ulp_difference left right))
          ∧ failure.location = inequality.location
          ∧ failure.assertion = inequality.assertion)
      ∨ (detail.fpcmp stringify inequality left right ulp greater = PASS
        ∧ ∃ failure, detail.fpcmp stringify equality left right ulp less_equal = some failure
          ∧ failure.information.getLast?
            = some ("difference", to_string (detail.get_ulp_difference left right))
          ∧ failure.location = equality.location
          ∧ failure.assertion = equality.assertion) := by
  have hinfo : ∀ (failure : Failure) (key value : String),
      (failure.add_information key value).information.getLast? = some (key, value) := by
    intro failure key value
    simp [Failure.add_information]
  have hloc : ∀ assertion : Assertion,
      ((add_information stringify
          (add_information stringify (FAIL assertion) "left" left
            (assertion.arguments.getD 0 ""))
          "right" right (assertion.arguments.getD 1 "")).add_information "difference"
            (to_string (detail.get_ulp_difference left right))).location = assertion.location
        ∧ ((add_information stringify
          (add_information stringify (FAIL assertion) "left" left
            (assertion.arguments.getD 0 ""))
          "right" right (assertion.arguments.getD 1 "")).add_information "difference"
            (to_string (detail.get_ulp_difference left right))).assertion
          = assertion.assertion := by
    intro assertion
    have h1 := add_information_keeps stringify (FAIL assertion) "left" left
      (assertion.arguments.getD 0 "")
    have h2 := add_information_keeps stringify
      (add_information stringify (FAIL assertion) "left" left (assertion.arguments.getD 0 ""))
      "right" right (assertion.arguments.getD 1 "")
    constructor
    · show (add_information stringify _ "right" right _).location = _
      rw [h2.1, h1.1]; rfl
    · show (add_information stringify _ "right" right _).assertion = _
      rw [h2.2.1, h1.2.1]; rfl
  by_cases h : detail.get_ulp_difference left right ≤ ulp
  · left
    have hg : ¬ detail.get_ulp_difference left right > ulp := by omega
    exact ⟨fpcmp_pass stringify equality left right ulp less_equal (by simp [less_equal, h]),
      _, fpcmp_fail stringify inequality left right ulp greater (by simp [greater, h]),
      hinfo _ _ _, (hloc inequality).1, (hloc inequality).2⟩
  · right
    have hg : detail.get_ulp_difference left right > ulp := by omega
    exact ⟨fpcmp_pass stringify inequality left right ulp greater (by simp [greater, hg]),
      _, fpcmp_fail stringify equality left right ulp less_equal (by simp [less_equal, h]),
      hinfo _ _ _, (hloc equality).1, (hloc equality).2⟩

/-! ## The checks -/

/-- C17: `add_information` appends the pair of the key and the rendered value
to the information of the failure, and changes nothing else, when the value has
a string representation that differs from the source text of the argument; it
leaves the failure as it is when the value has no representation or its
representation is the source text. So the failure is changed exactly in the
first case. -/
theorem add_information_iff {T : Type} (stringify : T → Option String) (failure : Failure)
    (key : String) (value : T) (argument : String) :
    ((∃ string, stringify value = some string ∧ string ≠ argument
          ∧ add_information stringify failure key value argument
            = { failure with information := failure.information ++ [(key, string)] })
        ∨ ((stringify value = none ∨ stringify value = some argument)
          ∧ add_information stringify failure key value argument = failure))
      ∧ (add_information stringify failure key value argument ≠ failure
        ↔ ∃ string, stringify value = some string ∧ string ≠ argument) := by
  unfold add_information
  cases hs : stringify value with
  | none => simp
  | some string =>
    by_cases he : string = argument
    · subst he
      simp
    · simp only [ne_eq, he, not_false_eq_true, if_true, Failure.add_information]
      refine ⟨Or.inl ⟨string, rfl, he, rfl⟩, ?_⟩
      constructor
      · intro _
        exact ⟨string, rfl, he⟩
      · intro _ hc
        have hinfo := congrArg (fun f => f.information.length) hc
        simp at hinfo

theorem add_information_keys {T : Type} (stringify : T → Option String) (failure : Failure)
    (key : String) (value : T) (argument : String) :
    (add_information stringify failure key value argument).information = failure.information
      ∨ ∃ string, (add_information stringify failure key value argument).information
          = failure.information ++ [(key, string)] := by
  unfold add_information
  cases stringify value with
  | none => exact Or.inl rfl
  | some string =>
    by_cases hs : string = argument
    · simp [hs]
    · exact Or.inr ⟨string, by simp [hs, Failure.add_information]⟩

theorem cmp_fail {T U : Type} (stringify_left : T → Option String)
    (stringify_right : U → Option String) (assertion : Assertion) (left : T) (right : U)
    (cmp : T → U → Bool) (h : cmp left right = false) :
    detail.cmp stringify_left stringify_right assertion left right cmp
      = some (add_information stringify_right
          (add_information stringify_left (FAIL assertion) "left" left
            (assertion.arguments.getD 0 ""))
          "right" right (assertion.arguments.getD 1 "")) := by
  unfold detail.cmp
  simp only [h, Bool.false_eq_true, if_false]

/-- C18: `detail::cmp` passes exactly when the comparator holds for the
operands; otherwise it returns a failure with the location and the text of the
assertion, an empty call stack, and information whose keys are a sub-sequence
of `left`, `right`. -/
theorem cmp_passes_iff {T U : Type} (stringify_left : T → Option String)
    (stringify_right : U → Option String) (assertion : Assertion) (left : T) (right : U)
    (cmp : T → U → Bool) :
    (cmp left right = true
        ∧ detail.cmp stringify_left stringify_right assertion left right cmp = PASS)
      ∨ (cmp left right = false
        ∧ ∃ failure,
          detail.cmp stringify_left stringify_right assertion left right cmp = some failure
          ∧ failure.location = assertion.location
          ∧ failure.assertion = assertion.assertion
          ∧ failure.stack = []
          ∧ (failure.information.map Prod.fst).Sublist ["left", "right"]) := by
  by_cases h : cmp left right = true
  · exact Or.inl ⟨h, by simp [detail.cmp, h]⟩
  · have hf : cmp left right = false := by simpa using h
    have h1 := add_information_keeps stringify_left (FAIL assertion) "left" left
      (assertion.arguments.getD 0 "")
    have h2 := add_information_keeps stringify_right
      (add_information stringify_left (FAIL assertion) "left" left
        (assertion.arguments.getD 0 ""))
      "right" right (assertion.arguments.getD 1 "")
    refine Or.inr ⟨hf, _,
      cmp_fail stringify_left stringify_right assertion left right cmp hf, ?_, ?_, ?_, ?_⟩
    · rw [h2.1, h1.1]; rfl
    · rw [h2.2.1, h1.2.1]; rfl
    · rw [h2.2.2, h1.2.2]; rfl
    · rcases add_information_keys stringify_left (FAIL assertion) "left" left
        (assertion.arguments.getD 0 "") with h3 | ⟨l, h3⟩ <;>
      rcases add_information_keys stringify_right
        (add_information stringify_left (FAIL assertion) "left" left
          (assertion.arguments.getD 0 ""))
        "right" right (assertion.arguments.getD 1 "") with h4 | ⟨r, h4⟩ <;>
      rw [h4, h3] <;> simp [FAIL]

/-- C19: `detail::boolean` passes exactly when `value == expected`; and for a
value of type `bool`, exactly one of `EXPECT_TRUE` and `EXPECT_FALSE` on it
records a failure (one failure, at the end of the list), while the other leaves
the failures as they are. -/
theorem boolean_passes_iff {T : Type} (stringify : T → Option String)
    (equals : T → Bool → Bool) (assertion : Assertion) (value : T) (expected : Bool)
    (location : Location) (VALUE : String) (flag : Bool) (failures : List Failure) :
    (detail.boolean stringify equals assertion value expected = PASS
        ↔ equals value expected = true)
      ∧ ((flag = true
          ∧ (EXPECT_TRUE location VALUE flag failures).1 = failures
          ∧ ∃ failure, (EXPECT_FALSE location VALUE flag failures).1 = failures ++ [failure])
        ∨ (flag = false
          ∧ (EXPECT_FALSE location VALUE flag failures).1 = failures
          ∧ ∃ failure, (EXPECT_TRUE location VALUE flag failures).1 = failures ++ [failure])) := by
  constructor
  · unfold detail.boolean
    by_cases h : equals value expected = true
    · simp [h]
    · simp [h, PASS]
  · cases flag with
    | true =>
      refine Or.inl ⟨rfl, ?_, ?_⟩
      · simp [EXPECT_TRUE, ACCEL_ASSERT_BOOLEAN, ACCEL_ASSERT_HELPER, detail.boolean, PASS]
      · simp [EXPECT_FALSE, ACCEL_ASSERT_BOOLEAN, ACCEL_ASSERT_HELPER, detail.boolean]
    | false =>
      refine Or.inr ⟨rfl, ?_, ?_⟩
      · simp [EXPECT_FALSE, ACCEL_ASSERT_BOOLEAN, ACCEL_ASSERT_HELPER, detail.boolean, PASS]
      · simp [EXPECT_TRUE, ACCEL_ASSERT_BOOLEAN, ACCEL_ASSERT_HELPER, detail.boolean]

theorem run_checks_spec : ∀ (body : List Check) (failures : List Failure),
    run_checks body failures
      = (failures ++ (through_first_fatal body).filterMap (fun check => check.outcome),
          through_first_fatal body) := by
  intro body
  induction body with
  | nil => intro failures; simp [run_checks, through_first_fatal]
  | cons check rest ih =>
    intro failures
    obtain ⟨flag, outcome⟩ := check
    cases outcome with
    | none =>
      simp [run_checks, through_first_fatal, ACCEL_ASSERT_HELPER, ih]
    | some failure =>
      cases flag with
      | true => simp [run_checks, through_first_fatal, ACCEL_ASSERT_HELPER]
      | false => simp [run_checks, through_first_fatal, ACCEL_ASSERT_HELPER, ih]

/-- C20: in a test body that is a sequence of checks, a passing check of
either kind appends nothing and the body goes on; a failing `EXPECT` appends
its failure and the body goes on; a failing `ASSERT` appends its failure and no
later check is evaluated. So the checks evaluated are those up to and
including the first failing `ASSERT`, the failures recorded are theirs, in
order, and they are the report of `Test::run`. -/
theorem checks_until_first_failing_assert (RETURN : Bool) (failure : Failure)
    (rest body : List Check) (failures : List Failure) (address : Nat) (location : Location) :
    run_checks (Check.mk RETURN none :: rest) failures
        = ((run_checks rest failures).1, Check.mk RETURN none :: (run_checks rest failures).2)
      ∧ run_checks (Check.mk false (some failure) :: rest) failures
        = ((run_checks rest (failures ++ [failure])).1,
            Check.mk false (some failure) :: (run_checks rest (failures ++ [failure])).2)
      ∧ run_checks (Check.mk true (some failure) :: rest) failures
        = (failures ++ [failure], [Check.mk true (some failure)])
      ∧ run_checks body failures
        = (failures ++ (through_first_fatal body).filterMap (fun check => check.outcome),
            through_first_fatal body)
      ∧ (Test.run (test_of_checks address location body)).2.failures
        = (through_first_fatal body).filterMap (fun check => check.outcome) := by
  refine ⟨?_, ?_, ?_, run_checks_spec body failures, ?_⟩
  · simp [run_checks, ACCEL_ASSERT_HELPER]
  · simp [run_checks, ACCEL_ASSERT_HELPER]
  · simp [run_checks, ACCEL_ASSERT_HELPER]
  · simp [Test.run, test_of_checks, run_checks_spec]

/-! ## Groups, faults and exceptions -/

theorem foldl_push_map {α β : Type} (g : α → β) :
    ∀ (xs : List α) (init : List β),
      xs.foldl (fun acc x => acc ++ [g x]) init = init ++ xs.map g := by
  intro xs
  induction xs with
  | nil => intro init; simp
  | cons x xs ih => intro init; simp [List.foldl, ih]

/-- C21: a group check appends to the failure list of the test exactly the
failures the group function produced (in a vector of its own), in their order,
each with the call site of the group put in front of its call stack and every
other field as it was; the failures already in the list stay as they are. The
terminating form returns from the body exactly when the group produced a
failure, the other form never. -/
theorem group_check_prepends_call_site (RETURN : Bool) (location : Location)
    (FUNCTION : List Failure → List Failure) (test_failures : List Failure) :
    (ACCEL_ASSERT_GROUP RETURN location FUNCTION test_failures).1
        = test_failures
          ++ (FUNCTION []).map (fun failure =>
              Failure.mk failure.location failure.assertion (location :: failure.stack)
                failure.information)
      ∧ (ASSERT_GROUP location FUNCTION test_failures).1
        = (ACCEL_ASSERT_GROUP RETURN location FUNCTION test_failures).1
      ∧ (EXPECT_GROUP location FUNCTION test_failures).1
        = (ACCEL_ASSERT_GROUP RETURN location FUNCTION test_failures).1
      ∧ ((ASSERT_GROUP location FUNCTION test_failures).2 = true ↔ FUNCTION [] ≠ [])
      ∧ (EXPECT_GROUP location FUNCTION test_failures).2 = false := by
  have h : ∀ flag : Bool, (ACCEL_ASSERT_GROUP flag location FUNCTION test_failures).1
      = test_failures
        ++ (FUNCTION []).map (fun failure =>
            Failure.mk failure.location failure.assertion (location :: failure.stack)
              failure.information) := by
    intro flag
    unfold ACCEL_ASSERT_GROUP
    exact foldl_push_map _ _ _
  refine ⟨h RETURN, ?_, ?_, ?_, ?_⟩
  · unfold ASSERT_GROUP
    rw [h true, h RETURN]
  · unfold EXPECT_GROUP
    rw [h false, h RETURN]
  · unfold ASSERT_GROUP ACCEL_ASSERT_GROUP
    cases FUNCTION [] <;> simp
  · unfold EXPECT_GROUP ACCEL_ASSERT_GROUP
    simp

/-- C22: when the body of a test throws, `Test::run` returns, and its report
holds the failures the body had recorded followed by exactly one more, whose
location is the one the test was registered with. For a `std::exception` the
message is its only information entry, under the key `message`; for a fault of
any other kind there is no information entry. The per-unit tear-down is still
called. -/
theorem fault_becomes_one_failure (registry : Registry) (lifecycle : Lifecycle)
    (name : String) (standard other : Test) (location : Location)
    (recorded_standard recorded_other : List Failure) (fault : Fault) (what : String)
    (hstandard : standard.execute [] = (recorded_standard, some fault))
    (hfault : fault = Fault.exception what ∨ fault = Fault.runtime_error what)
    (hother : other.execute [] = (recorded_other, some Fault.unknown)) :
    (∃ registered, (registry.register_test lifecycle name standard location).tests.getLast?
          = some registered
        ∧ registered.inst.location = location
        ∧ (Test.run registered.inst).2.failures
          = recorded_standard
            ++ [Failure.mk location "Unexpected exception." [] [("message", what)]]
        ∧ (Test.run registered.inst).1
          = [Event.set_up standard.address, Event.execute standard.address,
              Event.tear_down standard.address])
      ∧ (∃ registered, (registry.register_test lifecycle name other location).tests.getLast?
          = some registered
        ∧ registered.inst.location = location
        ∧ (Test.run registered.inst).2.failures
          = recorded_other
            ++ [Failure.mk location "Unexpected exception of unknown type." [] []]
        ∧ (Test.run registered.inst).1
          = [Event.set_up other.address, Event.execute other.address,
              Event.tear_down other.address]) := by
  constructor
  · refine ⟨Instance.mk lifecycle name { standard with location := location }, ?_, rfl, ?_, ?_⟩
    · simp [Registry.register_test]
    · rcases hfault with hf | hf <;> subst hf <;> simp [Test.run, hstandard]
    · simp [Test.run]
  · refine ⟨Instance.mk lifecycle name { other with location := location }, ?_, rfl, ?_, ?_⟩
    · simp [Registry.register_test]
    · simp [Test.run, hother]
    · simp [Test.run]

theorem fault_becomes_one_failure_witness :
    (Test.mk 1 (Location.mk "tests.cpp" 1)
          (fun failures => (failures, some (Fault.runtime_error "Oh no!")))).execute []
        = ([], some (Fault.runtime_error "Oh no!"))
      ∧ (Fault.runtime_error "Oh no!" = Fault.exception "Oh no!"
        ∨ Fault.runtime_error "Oh no!" = Fault.runtime_error "Oh no!")
      ∧ (Test.mk 2 (Location.mk "tests.cpp" 2)
          (fun failures => (failures, some Fault.unknown))).execute []
        = ([], some Fault.unknown)
      ∧ ((∃ registered, (example_tests.register_test (Lifecycle.mk 1 2) "Throws"
              (Test.mk 1 (Location.mk "tests.cpp" 1)
                (fun failures => (failures, some (Fault.runtime_error "Oh no!"))))
              (Location.mk "tests.cpp" 40)).tests.getLast? = some registered
          ∧ registered.inst.location = Location.mk "tests.cpp" 40
          ∧ (Test.run registered.inst).2.failures
            = [] ++ [Failure.mk (Location.mk "tests.cpp" 40) "Unexpected exception." []
                [("message", "Oh no!")]]
          ∧ (Test.run registered.inst).1
            = [Event.set_up 1, Event.execute 1, Event.tear_down 1])
        ∧ (∃ registered, (example_tests.register_test (Lifecycle.mk 1 2) "Throws"
              (Test.mk 2 (Location.mk "tests.cpp" 2)
                (fun failures => (failures, some Fault.unknown)))
              (Location.mk "tests.cpp" 40)).tests.getLast? = some registered
          ∧ registered.inst.location = Location.mk "tests.cpp" 40
          ∧ (Test.run registered.inst).2.failures
            = [] ++ [Failure.mk (Location.mk "tests.cpp" 40)
                "Unexpected exception of unknown type." [] []]
          ∧ (Test.run registered.inst).1
            = [Event.set_up 2, Event.execute 2, Event.tear_down 2])) :=
  ⟨rfl, Or.inr rfl, rfl,
    fault_becomes_one_failure example_tests (Lifecycle.mk 1 2) "Throws"
      (Test.mk 1 (Location.mk "tests.cpp" 1)
        (fun failures => (failures, some (Fault.runtime_error "Oh no!"))))
      (Test.mk 2 (Location.mk "tests.cpp" 2) (fun failures => (failures, some Fault.unknown)))
      (Location.mk "tests.cpp" 40) [] [] (Fault.runtime_error "Oh no!") "Oh no!" rfl
      (Or.inr rfl) rfl⟩

theorem escape_plain (value : List Char) (h : ∀ c ∈ value, iscntrl c = false) :
    value.flatMap detail.escape = value := by
  induction value with
  | nil => rfl
  | cons c rest ih =>
    have hc : iscntrl c = false := h c (by simp)
    have hrest : ∀ d ∈ rest, iscntrl d = false := fun d hd => h d (by simp [hd])
    simp [List.flatMap_cons, detail.escape, hc, ih hrest]

/-- C23: the throw check passes exactly when evaluating the expression throws
(whatever is thrown), the no-throw check exactly when it throws nothing, so on
every outcome exactly one of the two returns a failure; and the failure of a
no-throw check on a `std::runtime_error` ends with the information entry
`what()`, which holds the message as `stringify` renders it: between double
quotes, and unchanged if it has no control character. -/
theorem throw_checks_complementary (shift : Failure → String → Failure)
    (throw_assertion nothrow_assertion : Assertion) (thrown : Option Fault) (what : String) :
    (detail.exception shift throw_assertion thrown true = PASS ↔ thrown ≠ none)
      ∧ (detail.exception shift nothrow_assertion thrown false = PASS ↔ thrown = none)
      ∧ ((detail.exception shift throw_assertion thrown true = PASS
            ∧ (detail.exception shift nothrow_assertion thrown false).isSome = true)
          ∨ (detail.exception shift nothrow_assertion thrown false = PASS
            ∧ (detail.exception shift throw_assertion thrown true).isSome = true))
      ∧ (∃ failure rendered,
          detail.exception shift nothrow_assertion (some (Fault.runtime_error what)) false
            = some failure
          ∧ detail.stringify_cstring what = some rendered
          ∧ failure.information.getLast? = some ("what()", rendered)
          ∧ ((∀ c ∈ what.data, iscntrl c = false)
            → rendered = String.mk (Char.ofNat 34 :: (what.data ++ [Char.ofNat 34])))) := by
  refine ⟨?_, ?_, ?_, ?_⟩
  · cases thrown with
    | none => simp [detail.exception, PASS]
    | some fault => cases fault <;> simp [detail.exception, PASS]
  · cases thrown with
    | none => simp [detail.exception, PASS]
    | some fault => cases fault <;> simp [detail.exception, PASS]
  · cases thrown with
    | none => right; simp [detail.exception, PASS]
    | some fault => left; cases fault <;> simp [detail.exception, PASS]
  · refine ⟨_, _, rfl, rfl, ?_, ?_⟩
    · simp [Failure.add_information, detail.stringify_cstring]
    · intro h
      rw [escape_plain what.data h]

/-! ## The results of the statistics functions -/

theorem calculate_mean_doubles_eq (doubles : List Double) :
    calculate_mean_doubles doubles
      = Double.div (doubles.foldl KahanSummation.add {}).sum
          (Double.of_uint64 doubles.length) :=
  rfl

theorem calculate_mean_eq (samples : List Sample) :
    calculate_mean samples
      = Double.div (samples.foldl KahanSummation.add_sample {}).sum
          (Double.of_uint64 samples.length) :=
  rfl

theorem calculate_stddev_eq (samples : List Sample) (mean : Double) :
    calculate_stddev samples mean
      = SquareRoot.mk (calculate_mean_doubles
          (samples.map (fun s => Double.pow2 (Double.sub s.average mean)))) :=
  rfl

theorem sample_add_eq (left right : Sample) :
    Sample.add left right
      = Sample.mk ((left.iterations + right.iterations) % 2 ^ 64)
          ((left.duration + right.duration) % 2 ^ 64) :=
  rfl

theorem accumulate_fold (samples : List Sample) :
    ∀ init : Divided Sample,
      (samples.foldl
          (fun sums sample =>
            Divided.mk (Sample.add.traced sums.value sample).value
              (sums.divisors ++ (Sample.add.traced sums.value sample).divisors))
          init).value
        = samples.foldl Sample.add init.value := by
  induction samples with
  | nil => intro init; rfl
  | cons sample samples ih =>
    intro init
    simp only [List.foldl_cons]
    rw [ih]
    rfl

theorem accumulate_value (samples : List Sample) :
    (LinearRegression.accumulate samples).value = samples.foldl Sample.add (Sample.mk 0 0) :=
  accumulate_fold samples (Sample.construct 0 0)

theorem regression_eq (samples : List Sample) :
    LinearRegression.LinearRegression samples
      = (let sums := samples.foldl Sample.add (Sample.mk 0 0)
        let xbar := Double.div (Double.of_uint64 sums.iterations)
          (Double.of_uint64 samples.length)
        let ybar := Double.div (Double.of_uint64 sums.duration)
          (Double.of_uint64 samples.length)
        let b1 := Double.div (LinearRegression.slope_sums samples xbar ybar).1.sum
          (LinearRegression.slope_sums samples xbar ybar).2.sum
        let b0 := Double.sub ybar (Double.mul b1 xbar)
        let r2 := Double.sub (Double.finite 1)
          (Double.div (LinearRegression.fit_sums samples b0 b1 ybar).1.sum
            (LinearRegression.fit_sums samples b0 b1 ybar).2.sum)
        LinearRegression.mk b0 b1 r2) := by
  unfold LinearRegression.LinearRegression LinearRegression.LinearRegression.traced
  simp only [Double.divide, accumulate_value]

/-! ## The sampling loop -/

theorem div_nan_iff (x : ℚ) (divisor : Double) :
    Double.div (Double.finite x) divisor = Double.nan
      ↔ divisor = Double.finite 0 ∨ divisor = Double.nan := by
  cases divisor with
  | nan => simp [Double.div]
  | finite y =>
    by_cases h : y = 0
    · simp [Double.div, h]
    · simp [Double.div, h]

/-- C24, as stated, fails: in building the report of the empty sample list
`calculate_mean` executes a division whose divisor is zero (the sum 0 by the
sample count 0), and so the divisors of the divisions the constructor of
`BenchmarkReport` executes hold a zero. -/
theorem empty_report_divides_by_zero :
    (calculate_mean.traced []).divisors = [Double.finite 0]
      ∧ Double.finite 0 ∈ (BenchmarkReport.mk []).divisors := by
  have h : (calculate_mean.traced []).divisors = [Double.finite 0] := by
    simp [calculate_mean.traced, Double.divide, Double.of_uint64]
  refine ⟨h, ?_⟩
  unfold BenchmarkReport.divisors
  rw [h]
  simp

/-- C24, as the code has it: building the report of the empty sample list
returns; it executes seven divisions (the two means, the average of
`Sample{0, 0}`, `xbar`, `ybar`, the slope, the quotient of `ssr` and `sst`), each
with the divisor zero; and every statistic of the report (mean, standard
deviation, intercept, slope, fit quality) is not a number. The statistics of a
report are the results of the computations that execute these divisions. -/
theorem empty_report_is_nan :
    (BenchmarkReport.mk []).divisors = List.replicate 7 (Double.finite 0)
      ∧ (∀ divisor ∈ (BenchmarkReport.mk []).divisors, divisor = Double.finite 0)
      ∧ (BenchmarkReport.mk []).mean = Double.nan
      ∧ (BenchmarkReport.mk []).stddev = SquareRoot.mk Double.nan
      ∧ (BenchmarkReport.mk []).ols = LinearRegression.mk Double.nan Double.nan Double.nan
      ∧ (∀ report : BenchmarkReport,
          report.mean = (calculate_mean.traced report.samples).value
            ∧ report.stddev = (calculate_stddev.traced report.samples report.mean).value
            ∧ report.ols = (LinearRegression.LinearRegression.traced report.samples).value) := by
  have h : (BenchmarkReport.mk []).divisors = List.replicate 7 (Double.finite 0) := by
    simp [BenchmarkReport.divisors, calculate_mean.traced, calculate_stddev.traced,
      calculate_mean_doubles.traced, LinearRegression.LinearRegression.traced,
      LinearRegression.accumulate, Sample.construct, Double.divide, Double.of_uint64,
      LinearRegression.slope_sums, LinearRegression.fit_sums, List.replicate]
  refine ⟨h, ?_, ?_, ?_, ?_, fun _ => ⟨rfl, rfl, rfl⟩⟩
  · intro divisor hd
    rw [h] at hd
    exact (List.mem_replicate.mp hd).2
  · simp [BenchmarkReport.mean, calculate_mean_eq, Double.div, Double.of_uint64]
  · simp [BenchmarkReport.stddev, calculate_stddev_eq, calculate_mean_doubles_eq, Double.div,
      Double.of_uint64]
  · simp [BenchmarkReport.ols, regression_eq, LinearRegression.slope_sums,
      LinearRegression.fit_sums, Double.div, Double.of_uint64, Double.sub, Double.mul]

theorem next_result (fuel : Nat) (series : GeometricSeries) (hfuel : 15 ≤ fuel)
    (hv : 1 ≤ series.value) (hr : series.ratio = 21 / 20) :
    ∃ current next, series.next fuel = some (current, next)
      ∧ 1 ≤ next.value ∧ next.ratio = 21 / 20 := by
  obtain ⟨current, next, h1, h2, h3⟩ := next_some fuel series hfuel hv hr
  exact ⟨current, next, h1, h2, h3⟩

theorem run_loop_spec (fuel : Nat) (self : Benchmark) (limit : Nat) (hfuel : 15 ≤ fuel) :
    ∀ (rounds : List Round) (series : GeometricSeries) (samples : List Sample),
      1 ≤ series.value → series.ratio = 21 / 20 →
      Benchmark.run.loop fuel self limit rounds series samples
        = some ((observations fuel (rounds_made limit rounds) series).flatMap
              (fun sample => List.replicate sample.iterations (Event.execute self.address)),
            samples ++ (observations fuel (rounds_made limit rounds) series).filter
              (fun sample => decide (sample.duration > 1000000)))
        ∧ (observations fuel (rounds_made limit rounds) series).map (fun s => s.duration)
          = (rounds_made limit rounds).map (fun round => round.duration) := by
  intro rounds
  induction rounds with
  | nil =>
    intro series samples _ _
    simp [Benchmark.run.loop, rounds_made, observations]
  | cons round rounds ih =>
    intro series samples hv hr
    by_cases hlim : round.elapsed < limit
    · obtain ⟨current, next, hnext, hv2, hr2⟩ := next_result fuel series hfuel hv hr
      have hmade : rounds_made limit (round :: rounds) = round :: rounds_made limit rounds := by
        simp [rounds_made, List.takeWhile, hlim]
      obtain ⟨h1, h2⟩ := ih next
        (if round.duration > 1000000 then samples ++ [Sample.mk current round.duration]
          else samples) hv2 hr2
      rw [hmade]
      constructor
      · simp only [Benchmark.run.loop, hlim, if_true, hnext, h1, observations]
        by_cases hd : round.duration > 1000000
        · simp [hd, List.filter]
        · simp [hd, List.filter]
      · simp only [observations, hnext, List.map_cons, h2]
    · have hmade : rounds_made limit (round :: rounds) = [] := by
        simp [rounds_made, List.takeWhile, hlim]
      rw [hmade]
      simp [Benchmark.run.loop, hlim, observations]

/-- C25: for every clock, `Benchmark::run` returns, and the samples of its
report are the observations of the rounds it makes (the iteration count drawn
for the round and the duration measured in it) whose duration is greater than
1,000,000 ns, in the order of the rounds; an observation of 1,000,000 ns or
less is not among them. The body is executed as many times in each round as the
iteration count says, between the per-unit set-up and tear-down. -/
theorem retained_samples_exceed_one_millisecond (fuel : Nat) (self : Benchmark) (limit : Nat)
    (rounds : List Round) (hfuel : 15 ≤ fuel) :
    ∃ events report, Benchmark.run fuel self limit rounds = some (events, report)
      ∧ report.samples
        = (observations fuel (rounds_made limit rounds) (GeometricSeries.mk 1 (21 / 20))).filter
            (fun sample => decide (sample.duration > 1000000))
      ∧ (observations fuel (rounds_made limit rounds) (GeometricSeries.mk 1 (21 / 20))).map
            (fun s => s.duration)
        = (rounds_made limit rounds).map (fun round => round.duration)
      ∧ (∀ sample ∈ observations fuel (rounds_made limit rounds)
            (GeometricSeries.mk 1 (21 / 20)),
          (sample ∈ report.samples ↔ 1000000 < sample.duration))
      ∧ events = [Event.set_up self.address]
          ++ (observations fuel (rounds_made limit rounds)
              (GeometricSeries.mk 1 (21 / 20))).flatMap
            (fun sample => List.replicate sample.iterations (Event.execute self.address))
          ++ [Event.tear_down self.address] := by
  obtain ⟨h1, h2⟩ := run_loop_spec fuel self limit hfuel rounds
    (GeometricSeries.mk 1 (21 / 20)) [] le_rfl rfl
  refine ⟨[Event.set_up self.address]
      ++ (observations fuel (rounds_made limit rounds) (GeometricSeries.mk 1 (21 / 20))).flatMap
        (fun sample => List.replicate sample.iterations (Event.execute self.address))
      ++ [Event.tear_down self.address],
    BenchmarkReport.mk ((observations fuel (rounds_made limit rounds)
      (GeometricSeries.mk 1 (21 / 20))).filter
        (fun sample => decide (sample.duration > 1000000))),
    by simp only [Benchmark.run, h1, List.nil_append], rfl, h2, ?_, rfl⟩
  intro sample hs
  simp [List.mem_filter, hs]

theorem retained_samples_exceed_one_millisecond_witness :
    15 ≤ 15
      ∧ ∃ events report,
        Benchmark.run 15 (Benchmark.mk 100) 5000000000 (example_clock (Benchmark.mk 100))
          = some (events, report)
        ∧ report.samples
          = (observations 15 (rounds_made 5000000000 (example_clock (Benchmark.mk 100)))
              (GeometricSeries.mk 1 (21 / 20))).filter
              (fun sample => decide (sample.duration > 1000000))
        ∧ (observations 15 (rounds_made 5000000000 (example_clock (Benchmark.mk 100)))
              (GeometricSeries.mk 1 (21 / 20))).map (fun s => s.duration)
          = (rounds_made 5000000000 (example_clock (Benchmark.mk 100))).map
              (fun round => round.duration)
        ∧ (∀ sample ∈ observations 15
              (rounds_made 5000000000 (example_clock (Benchmark.mk 100)))
              (GeometricSeries.mk 1 (21 / 20)),
            (sample ∈ report.samples ↔ 1000000 < sample.duration))
        ∧ events = [Event.set_up (Benchmark.mk 100).address]
            ++ (observations 15 (rounds_made 5000000000 (example_clock (Benchmark.mk 100)))
                (GeometricSeries.mk 1 (21 / 20))).flatMap
              (fun sample =>
                List.replicate sample.iterations (Event.execute (Benchmark.mk 100).address))
            ++ [Event.tear_down (Benchmark.mk 100).address] :=
  ⟨by decide,
    retained_samples_exceed_one_millisecond 15 (Benchmark.mk 100) 5000000000
      (example_clock (Benchmark.mk 100)) (by decide)⟩

/-! ## The iteration counts -/

theorem to_uint64_mono (a b : ℚ) (h : a ≤ b) : to_uint64 a ≤ to_uint64 b := by
  unfold to_uint64
  have hfloor : Rat.floor a ≤ Rat.floor b := by
    apply Rat.le_floor.mpr
    exact le_trans (Rat.le_floor.mp le_rfl) h
  exact Int.toNat_le_toNat hfloor

theorem next_loop_result (previous : Nat) (ratio : ℚ) (hr : 1 ≤ ratio) :
    ∀ (fuel : Nat) (value : ℚ) (current : Nat) (result : ℚ), 0 ≤ value →
      GeometricSeries.next.loop previous ratio fuel value = some (current, result) →
      current = to_uint64 result ∧ current ≠ previous ∧ value ≤ result := by
  intro fuel
  induction fuel with
  | zero => intro value current result _ h; simp [GeometricSeries.next.loop] at h
  | succ fuel ih =>
    intro value current result h0 h
    have hv : value ≤ value * ratio := le_mul_of_one_le_right h0 hr
    unfold GeometricSeries.next.loop at h
    by_cases hc : to_uint64 (value * ratio) = previous
    · simp only [hc, ne_eq, not_true_eq_false, if_false] at h
      obtain ⟨h1, h2, h3⟩ := ih (value * ratio) current result (le_trans h0 hv) h
      exact ⟨h1, h2, le_trans hv h3⟩
    · simp only [ne_eq, hc, not_false_eq_true, if_true, Option.some.injEq, Prod.mk.injEq] at h
      obtain ⟨h1, h2⟩ := h
      subst h1 h2
      exact ⟨rfl, hc, hv⟩

theorem next_increases (fuel : Nat) (series : GeometricSeries) (current : Nat)
    (next : GeometricSeries) (hv : 1 ≤ series.value) (hr : series.ratio = 21 / 20)
    (h : series.next fuel = some (current, next)) :
    to_uint64 series.value < current ∧ to_uint64 next.value = current
      ∧ 1 ≤ next.value ∧ next.ratio = 21 / 20 := by
  have h0 : (0 : ℚ) ≤ series.value := le_trans zero_le_one hv
  have hr1 : (1 : ℚ) ≤ series.ratio := by rw [hr]; norm_num
  unfold GeometricSeries.next at h
  cases hloop : GeometricSeries.next.loop (to_uint64 series.value) series.ratio fuel
      series.value with
  | none => simp [hloop] at h
  | some pair =>
    obtain ⟨c, v⟩ := pair
    simp only [hloop, Option.some.injEq, Prod.mk.injEq] at h
    obtain ⟨h1, h2⟩ := h
    subst h1 h2
    obtain ⟨h3, h4, h5⟩ := next_loop_result (to_uint64 series.value) series.ratio hr1 fuel
      series.value c v h0 hloop
    have hmono := to_uint64_mono series.value v h5
    refine ⟨?_, h3.symm, le_trans hv h5, hr⟩
    rw [h3] at h4 ⊢
    exact lt_of_le_of_ne hmono (fun e => h4 e.symm)

theorem observations_increase (fuel : Nat) :
    ∀ (rounds : List Round) (series : GeometricSeries), 1 ≤ series.value →
      series.ratio = 21 / 20 →
      ((observations fuel rounds series).map (fun s => s.iterations)).Pairwise
          (fun a b => a < b)
        ∧ ∀ n ∈ (observations fuel rounds series).map (fun s => s.iterations),
            to_uint64 series.value < n := by
  intro rounds
  induction rounds with
  | nil => intro series _ _; simp [observations]
  | cons round rounds ih =>
    intro series hv hr
    cases hnext : series.next fuel with
    | none => simp [observations, hnext]
    | some pair =>
      obtain ⟨current, next⟩ := pair
      obtain ⟨h1, h2, h3, h4⟩ := next_increases fuel series current next hv hr hnext
      obtain ⟨ih1, ih2⟩ := ih next h3 h4
      rw [h2] at ih2
      simp only [observations, hnext, List.map_cons, List.pairwise_cons, List.mem_cons]
      refine ⟨⟨ih2, ih1⟩, ?_⟩
      intro n hn
      rcases hn with hn | hn
      · rw [hn]; exact h1
      · exact lt_trans h1 (ih2 n hn)

theorem observations_length (fuel : Nat) (hfuel : 15 ≤ fuel) :
    ∀ (rounds : List Round) (series : GeometricSeries), 1 ≤ series.value →
      series.ratio = 21 / 20 → (observations fuel rounds series).length = rounds.length := by
  intro rounds
  induction rounds with
  | nil => intro series _ _; simp [observations]
  | cons round rounds ih =>
    intro series hv hr
    obtain ⟨current, next, hnext, hv2, hr2⟩ := next_result fuel series hfuel hv hr
    simp [observations, hnext, ih next hv2 hr2]

/-- C30: every call of `next()` on the series of `Benchmark::run` (a value of
at least 1, the ratio 1.05, exact arithmetic) returns, and the integer it
returns is greater than the integer part of the value before the call and is
the integer part of the value after it. So the iteration counts the sampling
loop draws, one for each round, are strictly increasing, and all are greater
than 1. -/
theorem iteration_counts_strictly_increase (fuel : Nat) (series : GeometricSeries)
    (rounds : List Round) (hfuel : 15 ≤ fuel) (hv : 1 ≤ series.value)
    (hr : series.ratio = 21 / 20) :
    (∃ current next, series.next fuel = some (current, next)
        ∧ to_uint64 series.value < current ∧ to_uint64 next.value = current
        ∧ 1 ≤ next.value ∧ next.ratio = 21 / 20)
      ∧ ((observations fuel rounds series).map (fun s => s.iterations)).Pairwise
          (fun a b => a < b)
      ∧ (observations fuel rounds series).length = rounds.length
      ∧ (∀ n ∈ (observations fuel rounds (GeometricSeries.mk 1 (21 / 20))).map
            (fun s => s.iterations), 1 < n)
      ∧ ((observations fuel rounds (GeometricSeries.mk 1 (21 / 20))).map
          (fun s => s.iterations)).Pairwise (fun a b => a < b) := by
  obtain ⟨current, next, hnext, _, _⟩ := next_result fuel series hfuel hv hr
  have hstart := observations_increase fuel rounds (GeometricSeries.mk 1 (21 / 20)) le_rfl rfl
  refine ⟨⟨current, next, hnext, next_increases fuel series current next hv hr hnext⟩,
    (observations_increase fuel rounds series hv hr).1,
    observations_length fuel hfuel rounds series hv hr, ?_, hstart.1⟩
  intro n hn
  have h1 := hstart.2 n hn
  have h2 : to_uint64 (1 : ℚ) = 1 := by
    unfold to_uint64
    have : Rat.floor (1 : ℚ) = 1 := (Int.floor_one : ⌊(1 : ℚ)⌋ = 1)
    rw [this]
    rfl
  have h3 : (GeometricSeries.mk 1 (21 / 20)).value = 1 := rfl
  rw [h3, h2] at h1
  exact h1

theorem iteration_counts_strictly_increase_witness :
    15 ≤ 15 ∧ 1 ≤ (GeometricSeries.mk 1 (21 / 20)).value
      ∧ (GeometricSeries.mk 1 (21 / 20)).ratio = 21 / 20
      ∧ ((∃ current next, (GeometricSeries.mk 1 (21 / 20)).next 15 = some (current, next)
          ∧ to_uint64 (GeometricSeries.mk 1 (21 / 20)).value < current
          ∧ to_uint64 next.value = current
          ∧ 1 ≤ next.value ∧ next.ratio = 21 / 20)
        ∧ ((observations 15 (example_clock (Benchmark.mk 100))
              (GeometricSeries.mk 1 (21 / 20))).map (fun s => s.iterations)).Pairwise
            (fun a b => a < b)
        ∧ (observations 15 (example_clock (Benchmark.mk 100))
              (GeometricSeries.mk 1 (21 / 20))).length
            = (example_clock (Benchmark.mk 100)).length
        ∧ (∀ n ∈ (observations 15 (example_clock (Benchmark.mk 100))
              (GeometricSeries.mk 1 (21 / 20))).map (fun s => s.iterations), 1 < n)
        ∧ ((observations 15 (example_clock (Benchmark.mk 100))
              (GeometricSeries.mk 1 (21 / 20))).map (fun s => s.iterations)).Pairwise
            (fun a b => a < b)) :=
  ⟨by decide, le_refl _, rfl,
    iteration_counts_strictly_increase 15 (GeometricSeries.mk 1 (21 / 20))
      (example_clock (Benchmark.mk 100)) (by decide) (le_refl _) rfl⟩

/-! ## The statistics in exact arithmetic -/

theorem kahan_add_finite (s v : ℚ) :
    KahanSummation.add (KahanSummation.mk (Double.finite s) (Double.finite 0)) (Double.finite v)
      = KahanSummation.mk (Double.finite (s + v)) (Double.finite 0) := by
  simp [KahanSummation.add, Double.sub, Double.add]

theorem kahan_fold {α : Type} (g : α → Double) (v : α → ℚ) :
    ∀ (l : List α), (∀ a ∈ l, g a = Double.finite (v a)) → ∀ s : ℚ,
      l.foldl (fun acc a => KahanSummation.add acc (g a))
          (KahanSummation.mk (Double.finite s) (Double.finite 0))
        = KahanSummation.mk (Double.finite (s + (l.map v).sum)) (Double.finite 0) := by
  intro l
  induction l with
  | nil => intro _ s; simp
  | cons a l ih =>
    intro h s
    have ha : g a = Double.finite (v a) := h a (by simp)
    have hl : ∀ b ∈ l, g b = Double.finite (v b) := fun b hb => h b (by simp [hb])
    simp only [List.foldl_cons, ha, kahan_add_finite, ih hl, List.map_cons, List.sum_cons]
    congr 2
    ring

theorem kahan_fold_pair {α : Type} (g1 g2 : α → Double) (v1 v2 : α → ℚ) :
    ∀ (l : List α), (∀ a ∈ l, g1 a = Double.finite (v1 a)) →
      (∀ a ∈ l, g2 a = Double.finite (v2 a)) → ∀ s1 s2 : ℚ,
      l.foldl (fun (sums : KahanSummation × KahanSummation) a =>
            (KahanSummation.add sums.1 (g1 a), KahanSummation.add sums.2 (g2 a)))
          (KahanSummation.mk (Double.finite s1) (Double.finite 0),
            KahanSummation.mk (Double.finite s2) (Double.finite 0))
        = (KahanSummation.mk (Double.finite (s1 + (l.map v1).sum)) (Double.finite 0),
            KahanSummation.mk (Double.finite (s2 + (l.map v2).sum)) (Double.finite 0)) := by
  intro l
  induction l with
  | nil => intro _ _ s1 s2; simp
  | cons a l ih =>
    intro h1 h2 s1 s2
    have ha1 : g1 a = Double.finite (v1 a) := h1 a (by simp)
    have ha2 : g2 a = Double.finite (v2 a) := h2 a (by simp)
    have hl1 : ∀ b ∈ l, g1 b = Double.finite (v1 b) := fun b hb => h1 b (by simp [hb])
    have hl2 : ∀ b ∈ l, g2 b = Double.finite (v2 b) := fun b hb => h2 b (by simp [hb])
    simp only [List.foldl_cons, ha1, ha2, kahan_add_finite, ih hl1 hl2, List.map_cons,
      List.sum_cons]
    congr 3 <;> ring

theorem sample_fold (samples : List Sample) :
    ∀ i d : Nat, samples.foldl Sample.add (Sample.mk (i % 2 ^ 64) (d % 2 ^ 64))
      = Sample.mk ((i + (samples.map (fun s => s.iterations)).sum) % 2 ^ 64)
          ((d + (samples.map (fun s => s.duration)).sum) % 2 ^ 64) := by
  induction samples with
  | nil => intro i d; simp
  | cons s samples ih =>
    intro i d
    have h := ih (i + s.iterations) (d + s.duration)
    simp only [List.foldl_cons, sample_add_eq, List.map_cons, List.sum_cons]
    rw [Nat.mod_add_mod, Nat.mod_add_mod, h]
    simp [Nat.add_assoc]

theorem sample_sums (samples : List Sample) (h : sums_fit samples) :
    samples.foldl Sample.add (Sample.mk 0 0)
      = Sample.mk (samples.map (fun s => s.iterations)).sum
          (samples.map (fun s => s.duration)).sum := by
  have h0 := sample_fold samples 0 0
  simp only [Nat.zero_mod, Nat.zero_add] at h0
  rw [h0, Nat.mod_eq_of_lt h.1, Nat.mod_eq_of_lt h.2]

theorem cast_sum_map (samples : List Sample) (f : Sample → Nat) :
    (((samples.map f).sum : Nat) : ℚ) = (samples.map (fun s => (f s : ℚ))).sum := by
  induction samples with
  | nil => simp
  | cons s samples ih => simp [ih]

theorem length_ne_zero (samples : List Sample) (h : samples ≠ []) :
    (samples.length : ℚ) ≠ 0 := by
  have : samples.length ≠ 0 := fun e => h (List.length_eq_zero.mp e)
  exact_mod_cast this

theorem regression_means (samples : List Sample) (hne : samples ≠ []) (hfit : sums_fit samples) :
    Double.div (Double.of_uint64 (samples.foldl Sample.add (Sample.mk 0 0)).iterations)
        (Double.of_uint64 samples.length) = Double.finite (x_mean samples)
      ∧ Double.div (Double.of_uint64 (samples.foldl Sample.add (Sample.mk 0 0)).duration)
        (Double.of_uint64 samples.length) = Double.finite (y_mean samples) := by
  rw [sample_sums samples hfit]
  simp [Double.of_uint64, Double.div, length_ne_zero samples hne, x_mean, y_mean,
    cast_sum_map]
  exact ⟨rfl, rfl⟩

theorem slope_sums_eq (samples : List Sample) (xb yb : ℚ) :
    LinearRegression.slope_sums samples (Double.finite xb) (Double.finite yb)
      = (KahanSummation.mk (Double.finite (samples.map (fun s =>
            ((s.iterations : ℚ) - xb) * ((s.duration : ℚ) - yb))).sum) (Double.finite 0),
          KahanSummation.mk (Double.finite (samples.map (fun s =>
            ((s.iterations : ℚ) - xb) ^ 2)).sum) (Double.finite 0)) := by
  have h := kahan_fold_pair
    (fun s : Sample => Double.mul (Double.sub (Double.of_uint64 s.iterations) (Double.finite xb))
      (Double.sub (Double.of_uint64 s.duration) (Double.finite yb)))
    (fun s : Sample => Double.pow2 (Double.sub (Double.of_uint64 s.iterations) (Double.finite xb)))
    (fun s => ((s.iterations : ℚ) - xb) * ((s.duration : ℚ) - yb))
    (fun s => ((s.iterations : ℚ) - xb) ^ 2) samples
    (fun a _ => by simp [Double.of_uint64, Double.sub, Double.mul])
    (fun a _ => by simp [Double.of_uint64, Double.sub, Double.mul, Double.pow2, sq]) 0 0
  simp only [zero_add] at h
  exact h

theorem fit_sums_eq (samples : List Sample) (b0 b1 yb : ℚ) :
    LinearRegression.fit_sums samples (Double.finite b0) (Double.finite b1) (Double.finite yb)
      = (KahanSummation.mk (Double.finite (residuals samples b0 b1)) (Double.finite 0),
          KahanSummation.mk (Double.finite (samples.map (fun s =>
            ((s.duration : ℚ) - yb) ^ 2)).sum) (Double.finite 0)) := by
  have h := kahan_fold_pair
    (fun s : Sample => Double.pow2 (Double.sub (Double.of_uint64 s.duration)
      (Double.add (Double.finite b0) (Double.mul (Double.finite b1)
        (Double.of_uint64 s.iterations)))))
    (fun s : Sample => Double.pow2 (Double.sub (Double.of_uint64 s.duration) (Double.finite yb)))
    (fun s => ((s.duration : ℚ) - (b0 + b1 * (s.iterations : ℚ))) ^ 2)
    (fun s => ((s.duration : ℚ) - yb) ^ 2) samples
    (fun a _ => by simp [Double.of_uint64, Double.sub, Double.mul, Double.add, Double.pow2, sq])
    (fun a _ => by simp [Double.of_uint64, Double.sub, Double.mul, Double.pow2, sq]) 0 0
  simp only [zero_add] at h
  exact h

theorem regression_formula (samples : List Sample) (hne : samples ≠ [])
    (hfit : sums_fit samples) (hxx : s_xx samples ≠ 0) :
    LinearRegression.LinearRegression samples
      = LinearRegression.mk (Double.finite (intercept_of samples))
          (Double.finite (slope_of samples))
          (Double.sub (Double.finite 1)
            (Double.div
              (Double.finite (residuals samples (intercept_of samples) (slope_of samples)))
              (Double.finite (s_yy samples)))) := by
  obtain ⟨hx, hy⟩ := regression_means samples hne hfit
  rw [regression_eq]
  simp only [hx, hy, slope_sums_eq]
  have hb1 : Double.div (Double.finite (samples.map (fun s =>
        ((s.iterations : ℚ) - x_mean samples) * ((s.duration : ℚ) - y_mean samples))).sum)
      (Double.finite (samples.map (fun s => ((s.iterations : ℚ) - x_mean samples) ^ 2)).sum)
      = Double.finite (slope_of samples) := by
    have hxx2 : (samples.map (fun s => ((s.iterations : ℚ) - x_mean samples) ^ 2)).sum ≠ 0 := hxx
    simp only [Double.div, hxx2, if_false]
    rfl
  simp only [hb1, Double.mul, Double.sub, fit_sums_eq]
  rfl

theorem two_counts_ne_nil (samples : List Sample) (h : two_counts samples) : samples ≠ [] := by
  obtain ⟨s, hs, _⟩ := h
  exact List.ne_nil_of_mem hs

theorem sum_eq_zero_of_nonneg :
    ∀ (l : List ℚ), (∀ v ∈ l, 0 ≤ v) → l.sum = 0 → ∀ v ∈ l, v = 0 := by
  intro l
  induction l with
  | nil => intro _ _ v hv; simp at hv
  | cons a l ih =>
    intro hnn hsum v hv
    have ha : 0 ≤ a := hnn a (by simp)
    have hl : ∀ w ∈ l, 0 ≤ w := fun w hw => hnn w (by simp [hw])
    have hls : 0 ≤ l.sum := List.sum_nonneg hl
    rw [List.sum_cons] at hsum
    have ha0 : a = 0 := by linarith
    have hl0 : l.sum = 0 := by linarith
    rcases List.mem_cons.mp hv with h | h
    · rw [h]; exact ha0
    · exact ih hl hl0 v h

theorem sxx_ne_zero (samples : List Sample) (h : two_counts samples) : s_xx samples ≠ 0 := by
  intro hzero
  obtain ⟨s, hs, t, ht, hst⟩ := h
  have hall := sum_eq_zero_of_nonneg
    (samples.map (fun s : Sample => ((s.iterations : ℚ) - x_mean samples) ^ 2))
    (by
      intro v hv
      obtain ⟨u, _, hu⟩ := List.mem_map.mp hv
      rw [← hu]
      exact sq_nonneg _)
    (by unfold s_xx at hzero; exact hzero)
  have hs0 := hall _ (List.mem_map.mpr ⟨s, hs, rfl⟩)
  have ht0 := hall _ (List.mem_map.mpr ⟨t, ht, rfl⟩)
  have h1 : (s.iterations : ℚ) = x_mean samples := by
    have := pow_eq_zero_iff (two_ne_zero) |>.mp hs0
    linarith
  have h2 : (t.iterations : ℚ) = x_mean samples := by
    have := pow_eq_zero_iff (two_ne_zero) |>.mp ht0
    linarith
  have h3 : (s.iterations : ℚ) = (t.iterations : ℚ) := by rw [h1, h2]
  exact hst (by exact_mod_cast h3)

theorem sum_map_line (samples : List Sample) (a b : ℚ) :
    (samples.map (fun s => a + b * (s.iterations : ℚ))).sum
      = (samples.length : ℚ) * a + b * (samples.map (fun s => (s.iterations : ℚ))).sum := by
  induction samples with
  | nil => simp
  | cons s samples ih =>
    simp only [List.map_cons, List.sum_cons, ih, List.length_cons]
    push_cast
    ring

theorem line_y_mean (samples : List Sample) (a b : ℚ) (hne : samples ≠ [])
    (hline : ∀ s ∈ samples, (s.duration : ℚ) = a + b * (s.iterations : ℚ)) :
    y_mean samples = a + b * x_mean samples := by
  have hmap : samples.map (fun s => (s.duration : ℚ))
      = samples.map (fun s => a + b * (s.iterations : ℚ)) :=
    List.map_congr_left hline
  have hn := length_ne_zero samples hne
  unfold y_mean x_mean
  rw [hmap, sum_map_line]
  field_simp
  ring

theorem line_sums (samples : List Sample) (a b : ℚ) (hne : samples ≠ [])
    (hline : ∀ s ∈ samples, (s.duration : ℚ) = a + b * (s.iterations : ℚ)) :
    s_xy samples = b * s_xx samples ∧ s_yy samples = b ^ 2 * s_xx samples
      ∧ residuals samples a b = 0 := by
  have hy := line_y_mean samples a b hne hline
  refine ⟨?_, ?_, ?_⟩
  · unfold s_xy s_xx
    rw [← List.sum_map_mul_left]
    congr 1
    apply List.map_congr_left
    intro s hs
    rw [hline s hs, hy]
    ring
  · unfold s_yy s_xx
    rw [← List.sum_map_mul_left]
    congr 1
    apply List.map_congr_left
    intro s hs
    rw [hline s hs, hy]
    ring
  · unfold residuals
    have hmap : samples.map (fun s =>
        ((s.duration : ℚ) - (a + b * (s.iterations : ℚ))) ^ 2)
        = samples.map (fun _ => (0 : ℚ)) := by
      apply List.map_congr_left
      intro s hs
      rw [hline s hs]
      ring
    rw [hmap]
    simp

theorem line_fit (samples : List Sample) (a b : ℚ) (h : two_counts samples)
    (hline : ∀ s ∈ samples, (s.duration : ℚ) = a + b * (s.iterations : ℚ)) :
    slope_of samples = b ∧ intercept_of samples = a := by
  have hne := two_counts_ne_nil samples h
  have hxx := sxx_ne_zero samples h
  obtain ⟨h1, _, _⟩ := line_sums samples a b hne hline
  have hslope : slope_of samples = b := by
    unfold slope_of
    rw [h1]
    field_simp
  refine ⟨hslope, ?_⟩
  unfold intercept_of
  rw [hslope, line_y_mean samples a b hne hline]
  ring

/-- C26: for samples with at least two distinct iteration counts (whose sums
fit in a `uint64_t`), `LinearRegression` in exact arithmetic returns the slope
`b1 = sum((x - xbar)(y - ybar)) / sum((x - xbar)^2)` and the intercept
`b0 = ybar - b1 * xbar`, over `x = iterations` and `y = duration`; and if the
samples lie on a line `duration = a + b * iterations`, then `b1 = b` and
`b0 = a`. -/
theorem regression_recovers_line (samples : List Sample) (hcounts : two_counts samples)
    (hfit : sums_fit samples) :
    (LinearRegression.LinearRegression samples).b1
        = Double.finite (s_xy samples / s_xx samples)
      ∧ (LinearRegression.LinearRegression samples).b0
        = Double.finite (y_mean samples - s_xy samples / s_xx samples * x_mean samples)
      ∧ ∀ a b : ℚ, (∀ s ∈ samples, (s.duration : ℚ) = a + b * (s.iterations : ℚ)) →
          (LinearRegression.LinearRegression samples).b1 = Double.finite b
            ∧ (LinearRegression.LinearRegression samples).b0 = Double.finite a := by
  have hne := two_counts_ne_nil samples hcounts
  have hxx := sxx_ne_zero samples hcounts
  rw [regression_formula samples hne hfit hxx]
  refine ⟨rfl, rfl, ?_⟩
  intro a b hline
  obtain ⟨h1, h2⟩ := line_fit samples a b hcounts hline
  simp only [h1, h2, and_self]

/-- C27: for samples with at least two distinct iteration counts (whose sums
fit in a `uint64_t`), the fit quality `LinearRegression` reports in exact
arithmetic is `1 - SSR / SST`, with `SSR` the sum of the squared residuals of
the fitted line and `SST` the sum of the squared deviations of the durations
from their mean (not a number when `SST` is zero); and if the samples lie on a
line `duration = a + b * iterations` with `b` not zero, it is 1. -/
theorem fit_quality_formula (samples : List Sample) (hcounts : two_counts samples)
    (hfit : sums_fit samples) :
    (LinearRegression.LinearRegression samples).r2
        = Double.sub (Double.finite 1)
            (Double.div
              (Double.finite (residuals samples (intercept_of samples) (slope_of samples)))
              (Double.finite (s_yy samples)))
      ∧ (s_yy samples ≠ 0 → (LinearRegression.LinearRegression samples).r2
          = Double.finite (1 - residuals samples (intercept_of samples) (slope_of samples)
              / s_yy samples))
      ∧ ∀ a b : ℚ, b ≠ 0 →
          (∀ s ∈ samples, (s.duration : ℚ) = a + b * (s.iterations : ℚ)) →
          (LinearRegression.LinearRegression samples).r2 = Double.finite 1 := by
  have hne := two_counts_ne_nil samples hcounts
  have hxx := sxx_ne_zero samples hcounts
  rw [regression_formula samples hne hfit hxx]
  refine ⟨rfl, ?_, ?_⟩
  · intro hyy
    simp [Double.div, Double.sub, hyy]
  · intro a b hb hline
    obtain ⟨h1, h2⟩ := line_fit samples a b hcounts hline
    obtain ⟨_, h3, h4⟩ := line_sums samples a b hne hline
    have hyy : s_yy samples ≠ 0 := by
      rw [h3]
      exact mul_ne_zero (pow_ne_zero 2 hb) hxx
    simp [Double.div, Double.sub, hyy, h1, h2, h4]

/-- C29: for a non-empty list of samples (each with an iteration count that is
not zero), the mean the report holds is, in exact arithmetic, the arithmetic
mean of the per-iteration averages, and its standard deviation is the square
root of the mean, with divisor `n`, of the squared deviations of the averages
from that mean. -/
theorem stddev_is_population_form (samples : List Sample) (hne : samples ≠ [])
    (hpos : ∀ s ∈ samples, s.iterations ≠ 0) :
    (BenchmarkReport.mk samples).mean
        = Double.finite ((samples.map average_of).sum / (samples.length : ℚ))
      ∧ (BenchmarkReport.mk samples).stddev
        = SquareRoot.mk (Double.finite
            ((samples.map (fun s =>
                (average_of s - (samples.map average_of).sum / (samples.length : ℚ)) ^ 2)).sum
              / (samples.length : ℚ))) := by
  have hn := length_ne_zero samples hne
  have havg : ∀ s ∈ samples, Sample.average s = Double.finite (average_of s) := by
    intro s hs
    have hi : (s.iterations : ℚ) ≠ 0 := by exact_mod_cast hpos s hs
    simp [Sample.average, Double.div, Double.of_uint64, average_of, hi]
  have hmean : calculate_mean samples
      = Double.finite ((samples.map average_of).sum / (samples.length : ℚ)) := by
    have h := kahan_fold Sample.average average_of samples havg 0
    rw [calculate_mean_eq]
    have hfold : samples.foldl KahanSummation.add_sample {}
        = samples.foldl (fun acc a => KahanSummation.add acc (Sample.average a))
            (KahanSummation.mk (Double.finite 0) (Double.finite 0)) := rfl
    rw [hfold, h]
    simp [Double.div, Double.of_uint64, hn]
  refine ⟨hmean, ?_⟩
  unfold BenchmarkReport.stddev BenchmarkReport.mean
  rw [calculate_stddev_eq, calculate_mean_doubles_eq]
  simp only [hmean]
  rw [List.foldl_map, List.length_map]
  have hdev : ∀ s ∈ samples,
      Double.pow2 (Double.sub (Sample.average s)
          (Double.finite ((samples.map average_of).sum / (samples.length : ℚ))))
        = Double.finite
          ((average_of s - (samples.map average_of).sum / (samples.length : ℚ)) ^ 2) := by
    intro s hs
    rw [havg s hs]
    simp [Double.pow2, Double.sub, Double.mul, sq]
  have h := kahan_fold
    (fun s => Double.pow2 (Double.sub (Sample.average s)
      (Double.finite ((samples.map average_of).sum / (samples.length : ℚ)))))
    (fun s => (average_of s - (samples.map average_of).sum / (samples.length : ℚ)) ^ 2)
    samples hdev 0
  have hinit : ({} : KahanSummation)
      = KahanSummation.mk (Double.finite 0) (Double.finite 0) := rfl
  rw [hinit, h]
  simp [Double.div, Double.of_uint64, hn]

theorem example_samples_two_counts : two_counts example_samples :=
  ⟨Sample.mk 2 7, by simp [example_samples], Sample.mk 4 11, by simp [example_samples],
    by decide⟩

theorem example_samples_fit : sums_fit example_samples :=
  ⟨by decide, by decide⟩

theorem example_samples_line :
    ∀ s ∈ example_samples, (s.duration : ℚ) = 3 + 2 * (s.iterations : ℚ) := by
  intro s hs
  simp only [example_samples, List.mem_cons, List.mem_singleton, List.not_mem_nil,
    or_false] at hs
  rcases hs with h | h | h <;> subst h <;> norm_num

theorem regression_recovers_line_witness :
    two_counts example_samples ∧ sums_fit example_samples
      ∧ (∀ s ∈ example_samples, (s.duration : ℚ) = 3 + 2 * (s.iterations : ℚ))
      ∧ (LinearRegression.LinearRegression example_samples).b1
        = Double.finite (s_xy example_samples / s_xx example_samples)
      ∧ (LinearRegression.LinearRegression example_samples).b0
        = Double.finite (y_mean example_samples
            - s_xy example_samples / s_xx example_samples * x_mean example_samples)
      ∧ (LinearRegression.LinearRegression example_samples).b1 = Double.finite 2
      ∧ (LinearRegression.LinearRegression example_samples).b0 = Double.finite 3 :=
  ⟨example_samples_two_counts, example_samples_fit, example_samples_line,
    (regression_recovers_line example_samples example_samples_two_counts
      example_samples_fit).1,
    (regression_recovers_line example_samples example_samples_two_counts
      example_samples_fit).2.1,
    ((regression_recovers_line example_samples example_samples_two_counts
      example_samples_fit).2.2 3 2 example_samples_line).1,
    ((regression_recovers_line example_samples example_samples_two_counts
      example_samples_fit).2.2 3 2 example_samples_line).2⟩

theorem fit_quality_formula_witness :
    two_counts example_samples ∧ sums_fit example_samples
      ∧ (2 : ℚ) ≠ 0
      ∧ (∀ s ∈ example_samples, (s.duration : ℚ) = 3 + 2 * (s.iterations : ℚ))
      ∧ (LinearRegression.LinearRegression example_samples).r2
        = Double.sub (Double.finite 1)
            (Double.div
              (Double.finite (residuals example_samples (intercept_of example_samples)
                (slope_of example_samples)))
              (Double.finite (s_yy example_samples)))
      ∧ (LinearRegression.LinearRegression example_samples).r2 = Double.finite 1 :=
  ⟨example_samples_two_counts, example_samples_fit, by norm_num, example_samples_line,
    (fit_quality_formula example_samples example_samples_two_counts example_samples_fit).1,
    (fit_quality_formula example_samples example_samples_two_counts example_samples_fit).2.2
      3 2 (by norm_num) example_samples_line⟩

theorem stddev_is_population_form_witness :
    example_samples ≠ [] ∧ (∀ s ∈ example_samples, s.iterations ≠ 0)
      ∧ (BenchmarkReport.mk example_samples).mean
        = Double.finite ((example_samples.map average_of).sum / (example_samples.length : ℚ))
      ∧ (BenchmarkReport.mk example_samples).stddev
        = SquareRoot.mk (Double.finite
            ((example_samples.map (fun s =>
                (average_of s
                  - (example_samples.map average_of).sum / (example_samples.length : ℚ)) ^ 2)).sum
              / (example_samples.length : ℚ))) :=
  ⟨by decide, by decide,
    stddev_is_population_form example_samples (by decide) (by decide)⟩

/-! ## The order of lifecycles, and the registry -/

theorem lifecycle_lt_irrefl (a : Lifecycle) : Lifecycle.lt a a = false := by
  simp [Lifecycle.lt]

theorem lifecycle_lt_iff (a b : Lifecycle) :
    Lifecycle.lt a b = true
      ↔ a.set_up < b.set_up ∨ (a.set_up = b.set_up ∧ a.tear_down < b.tear_down) := by
  unfold Lifecycle.lt
  by_cases h : a.set_up = b.set_up
  · simp [h]
  · simp [h]

/-- C31: the `operator<` of `Lifecycle` is a strict total order on the pairs
(set_up, tear_down), the lexicographic one: no pair is less than itself, it is
transitive, and of two distinct pairs one is less than the other. So two
lifecycles are the same key of the map of `run` (neither is less than the other)
if and only if their set_up pointers are equal and their tear_down pointers are
equal. -/
theorem lifecycle_order_is_strict_total :
    (∀ a : Lifecycle, Lifecycle.lt a a = false)
      ∧ (∀ a b c : Lifecycle, Lifecycle.lt a b = true → Lifecycle.lt b c = true →
          Lifecycle.lt a c = true)
      ∧ (∀ a b : Lifecycle, a ≠ b → Lifecycle.lt a b = true ∨ Lifecycle.lt b a = true)
      ∧ (∀ a b : Lifecycle, Lifecycle.lt a b = true
          ↔ a.set_up < b.set_up ∨ (a.set_up = b.set_up ∧ a.tear_down < b.tear_down))
      ∧ (∀ a b : Lifecycle, Lifecycle.equivalent a b = true
          ↔ a.set_up = b.set_up ∧ a.tear_down = b.tear_down) := by
  refine ⟨lifecycle_lt_irrefl, ?_, ?_, lifecycle_lt_iff, ?_⟩
  · intro a b c hab hbc
    rw [lifecycle_lt_iff] at hab hbc ⊢
    rcases hab with h1 | ⟨h1, h2⟩
    · rcases hbc with h3 | ⟨h3, _⟩
      · exact Or.inl (Nat.lt_trans h1 h3)
      · exact Or.inl (h3 ▸ h1)
    · rcases hbc with h3 | ⟨h3, h4⟩
      · exact Or.inl (h1 ▸ h3)
      · exact Or.inr ⟨h1.trans h3, Nat.lt_trans h2 h4⟩
  · intro a b hne
    rw [lifecycle_lt_iff, lifecycle_lt_iff]
    cases a with
    | mk a1 a2 =>
    cases b with
    | mk b1 b2 =>
    simp only [ne_eq, Lifecycle.mk.injEq, not_and] at hne
    simp only
    rcases Nat.lt_trichotomy a1 b1 with h | h | h
    · exact Or.inl (Or.inl h)
    · rcases Nat.lt_trichotomy a2 b2 with h2 | h2 | h2
      · exact Or.inl (Or.inr ⟨h, h2⟩)
      · exact absurd h2 (hne h)
      · exact Or.inr (Or.inr ⟨h.symm, h2⟩)
    · exact Or.inr (Or.inl h)
  · intro a b
    rw [equivalent_iff]
    cases a with
    | mk a1 a2 =>
    cases b with
    | mk b1 b2 =>
    simp

theorem register_benchmarks_fold (registrations : List (Lifecycle × String × Benchmark)) :
    ∀ self : Registry,
      (registrations.foldl
          (fun registry entry => registry.register_benchmark entry.1 entry.2.1 entry.2.2)
          self).benchmarks
        = self.benchmarks
          ++ registrations.map (fun entry => Instance.mk entry.1 entry.2.1 entry.2.2)
      ∧ (registrations.foldl
          (fun registry entry => registry.register_benchmark entry.1 entry.2.1 entry.2.2)
          self).tests = self.tests := by
  induction registrations with
  | nil => intro self; simp
  | cons entry rest ih =>
    intro self
    obtain ⟨h1, h2⟩ := ih (self.register_benchmark entry.1 entry.2.1 entry.2.2)
    simp only [List.foldl_cons, h1, h2, List.map_cons]
    simp [Registry.register_benchmark]

theorem register_tests_fold (registrations : List (Lifecycle × String × Test × Location)) :
    ∀ self : Registry,
      (registrations.foldl
          (fun registry entry =>
            registry.register_test entry.1 entry.2.1 entry.2.2.1 entry.2.2.2)
          self).tests
        = self.tests
          ++ registrations.map (fun entry =>
              Instance.mk entry.1 entry.2.1
                (Test.mk entry.2.2.1.address entry.2.2.2 entry.2.2.1.execute))
      ∧ (registrations.foldl
          (fun registry entry =>
            registry.register_test entry.1 entry.2.1 entry.2.2.1 entry.2.2.2)
          self).benchmarks = self.benchmarks := by
  induction registrations with
  | nil => intro self; simp
  | cons entry rest ih =>
    intro self
    obtain ⟨h1, h2⟩ := ih (self.register_test entry.1 entry.2.1 entry.2.2.1 entry.2.2.2)
    simp only [List.foldl_cons, h1, h2, List.map_cons]
    simp [Registry.register_test]

/-- C32: `register_benchmark` puts the new benchmark, with the name given and
the lifecycle of its class, at the end of the sequence of benchmarks; every
entry that was there keeps its position and the sequence of tests is as it was.
`register_test` does the same to the sequence of tests, leaves the benchmarks as
they were, and the test it appends holds the location supplied. So a series of
registrations leaves the units in the order of their registration, after those
that were there before. -/
theorem registry_is_append_only (self : Registry) (lifecycle : Lifecycle) (name : String)
    (benchmark : Benchmark) (test : Test) (location : Location) :
    (self.register_benchmark lifecycle name benchmark).benchmarks
        = self.benchmarks ++ [Instance.mk lifecycle name benchmark]
      ∧ (self.register_benchmark lifecycle name benchmark).tests = self.tests
      ∧ (∀ i, i < self.benchmarks.length →
          (self.register_benchmark lifecycle name benchmark).benchmarks[i]?
            = self.benchmarks[i]?)
      ∧ (self.register_test lifecycle name test location).tests
        = self.tests
          ++ [Instance.mk lifecycle name (Test.mk test.address location test.execute)]
      ∧ (self.register_test lifecycle name test location).benchmarks = self.benchmarks
      ∧ (∀ i, i < self.tests.length →
          (self.register_test lifecycle name test location).tests[i]? = self.tests[i]?)
      ∧ (∃ registered,
          (self.register_test lifecycle name test location).tests.getLast? = some registered
            ∧ registered.inst.location = location ∧ registered.name = name
            ∧ registered.lifecycle = lifecycle)
      ∧ (∀ registrations : List (Lifecycle × String × Benchmark),
          (registrations.foldl
              (fun registry entry =>
                registry.register_benchmark entry.1 entry.2.1 entry.2.2) self).benchmarks
            = self.benchmarks
              ++ registrations.map (fun entry => Instance.mk entry.1 entry.2.1 entry.2.2))
      ∧ (∀ registrations : List (Lifecycle × String × Test × Location),
          ((registrations.foldl
              (fun registry entry =>
                registry.register_test entry.1 entry.2.1 entry.2.2.1 entry.2.2.2)
              self).tests.map (fun registered => (registered.name, registered.inst.location)))
            = self.tests.map (fun registered => (registered.name, registered.inst.location))
              ++ registrations.map (fun entry => (entry.2.1, entry.2.2.2))) := by
  refine ⟨rfl, rfl, ?_, rfl, rfl, ?_, ?_, ?_, ?_⟩
  · intro i hi
    simp only [Registry.register_benchmark]
    exact List.getElem?_append_left hi
  · intro i hi
    simp only [Registry.register_test]
    exact List.getElem?_append_left hi
  · exact ⟨Instance.mk lifecycle name (Test.mk test.address location test.execute),
      by simp [Registry.register_test], rfl, rfl, rfl⟩
  · intro registrations
    exact (register_benchmarks_fold registrations self).1
  · intro registrations
    rw [(register_tests_fold registrations self).1]
    simp [Function.comp]

/-! ## A fault after recorded failures -/

/-- C38: when the body of a test has recorded `k` failures and then throws,
`Test::run` returns a report that holds those `k` failures as they were and in
their order, followed by one more failure (at the location of the test), `k + 1`
in all. The per-unit tear-down is called once, after the body, and the calls
`Test::run` makes are the same whatever the body does: set-up, body,
tear-down. -/
theorem fault_keeps_recorded_failures (self : Test) (recorded : List Failure) (fault : Fault)
    (h : self.execute [] = (recorded, some fault)) :
    (∃ synthetic, (Test.run self).2.failures = recorded ++ [synthetic]
        ∧ synthetic.location = self.location ∧ synthetic.stack = []
        ∧ (synthetic.assertion = "Unexpected exception."
          ∨ synthetic.assertion = "Unexpected exception of unknown type."))
      ∧ (Test.run self).2.failures.length = recorded.length + 1
      ∧ (Test.run self).2.failures.take recorded.length = recorded
      ∧ (Test.run self).1
        = [Event.set_up self.address, Event.execute self.address, Event.tear_down self.address]
      ∧ (Test.run self).1.count (Event.tear_down self.address) = 1
      ∧ (∀ other : Test, (Test.run other).1
          = [Event.set_up other.address, Event.execute other.address,
              Event.tear_down other.address]) := by
  have hrun : ∀ other : Test, (Test.run other).1
      = [Event.set_up other.address, Event.execute other.address,
          Event.tear_down other.address] := by
    intro other
    simp [Test.run]
  have hfail : ∃ synthetic, (Test.run self).2.failures = recorded ++ [synthetic]
      ∧ synthetic.location = self.location ∧ synthetic.stack = []
      ∧ (synthetic.assertion = "Unexpected exception."
        ∨ synthetic.assertion = "Unexpected exception of unknown type.") := by
    cases fault with
    | runtime_error what =>
      exact ⟨Failure.mk self.location "Unexpected exception." [] [("message", what)],
        by simp only [Test.run, h], rfl, rfl, Or.inl rfl⟩
    | exception what =>
      exact ⟨Failure.mk self.location "Unexpected exception." [] [("message", what)],
        by simp only [Test.run, h], rfl, rfl, Or.inl rfl⟩
    | unknown =>
      exact ⟨Failure.mk self.location "Unexpected exception of unknown type." [] [],
        by simp only [Test.run, h], rfl, rfl, Or.inr rfl⟩
  obtain ⟨synthetic, hs, hrest⟩ := hfail
  refine ⟨⟨synthetic, hs, hrest⟩, ?_, ?_, hrun self, ?_, hrun⟩
  · rw [hs]; simp
  · rw [hs]; simp
  · rw [hrun self]
    simp [List.count_cons]

theorem fault_keeps_recorded_failures_witness :
    (Test.mk 200 (Location.mk "tests.cpp" 186)
        (fun failures =>
          (failures ++ [Failure.mk (Location.mk "tests.cpp" 188) "EXPECT_EQ(2 + 2, 5)" []
            [("left", "4")]], some (Fault.runtime_error "Oh no!")))).execute []
        = ([Failure.mk (Location.mk "tests.cpp" 188) "EXPECT_EQ(2 + 2, 5)" []
            [("left", "4")]], some (Fault.runtime_error "Oh no!"))
      ∧ (Test.run (Test.mk 200 (Location.mk "tests.cpp" 186)
          (fun failures =>
            (failures ++ [Failure.mk (Location.mk "tests.cpp" 188) "EXPECT_EQ(2 + 2, 5)" []
              [("left", "4")]], some (Fault.runtime_error "Oh no!"))))).2.failures.length
        = 1 + 1 :=
  ⟨rfl,
    (fault_keeps_recorded_failures
      (Test.mk 200 (Location.mk "tests.cpp" 186)
        (fun failures =>
          (failures ++ [Failure.mk (Location.mk "tests.cpp" 188) "EXPECT_EQ(2 + 2, 5)" []
            [("left", "4")]], some (Fault.runtime_error "Oh no!"))))
      [Failure.mk (Location.mk "tests.cpp" 188) "EXPECT_EQ(2 + 2, 5)" [] [("left", "4")]]
      (Fault.runtime_error "Oh no!") rfl).2.1⟩

/-! ## The first iteration counts, and termination of the generator -/

theorem to_uint64_eq (value : ℚ) (n : Nat) (h1 : (n : ℚ) ≤ value) (h2 : value < (n : ℚ) + 1) :
    to_uint64 value = n := by
  unfold to_uint64
  have hfloor : Rat.floor value = (n : ℤ) := by
    have h : ⌊value⌋ = (n : ℤ) :=
      Int.floor_eq_iff.mpr ⟨by exact_mod_cast h1, by exact_mod_cast h2⟩
    exact h
  rw [hfloor]
  rfl

theorem next_loop_steps (previous : Nat) (ratio : ℚ) :
    ∀ (n : Nat) (value : ℚ),
      (∀ k, 1 ≤ k → k ≤ n → to_uint64 (value * ratio ^ k) = previous) →
      to_uint64 (value * ratio ^ (n + 1)) ≠ previous →
      (∀ fuel, n + 1 ≤ fuel → GeometricSeries.next.loop previous ratio fuel value
          = some (to_uint64 (value * ratio ^ (n + 1)), value * ratio ^ (n + 1)))
        ∧ (∀ fuel, fuel ≤ n → GeometricSeries.next.loop previous ratio fuel value = none) := by
  intro n
  induction n with
  | zero =>
    intro value _ hne
    constructor
    · intro fuel hfuel
      obtain ⟨m, rfl⟩ : ∃ m, fuel = m + 1 := ⟨fuel - 1, by omega⟩
      simp only [zero_add, pow_one] at hne ⊢
      simp [GeometricSeries.next.loop, hne]
    · intro fuel hfuel
      have : fuel = 0 := by omega
      subst this
      rfl
  | succ n ih =>
    intro value hsame hne
    have hfirst : to_uint64 (value * ratio) = previous := by
      have := hsame 1 le_rfl (by omega)
      simpa using this
    have hshift : ∀ k, value * ratio * ratio ^ k = value * ratio ^ (k + 1) := by
      intro k
      rw [pow_succ]
      ring
    obtain ⟨ih1, ih2⟩ := ih (value * ratio)
      (by
        intro k hk1 hk2
        rw [hshift]
        exact hsame (k + 1) (by omega) (by omega))
      (by rw [hshift]; exact hne)
    constructor
    · intro fuel hfuel
      obtain ⟨m, rfl⟩ : ∃ m, fuel = m + 1 := ⟨fuel - 1, by omega⟩
      have := ih1 m (by omega)
      rw [hshift] at this
      simp [GeometricSeries.next.loop, hfirst, this]
    · intro fuel hfuel
      cases fuel with
      | zero => rfl
      | succ m =>
        have := ih2 m (by omega)
        simp [GeometricSeries.next.loop, hfirst, this]

theorem first_powers_below_two (k : Nat) (h2 : k ≤ 14) :
    to_uint64 (1 * (21 / 20 : ℚ) ^ k) = to_uint64 1 := by
  have hone : to_uint64 (1 : ℚ) = 1 := to_uint64_eq 1 1 (by norm_num) (by norm_num)
  rw [hone, one_mul]
  apply to_uint64_eq
  · have : (1 : ℚ) ≤ (21 / 20 : ℚ) ^ k := one_le_pow₀ (by norm_num)
    simpa using this
  · have hle : (21 / 20 : ℚ) ^ k ≤ (21 / 20 : ℚ) ^ 14 :=
      pow_le_pow_right₀ (by norm_num) h2
    have : (21 / 20 : ℚ) ^ 14 < 2 := by norm_num
    have := lt_of_le_of_lt hle this
    norm_num
    linarith

theorem first_next (fuel : Nat) (hfuel : 15 ≤ fuel) :
    (GeometricSeries.mk 1 (21 / 20)).next fuel
        = some (2, GeometricSeries.mk ((21 / 20) ^ 15) (21 / 20))
      ∧ (GeometricSeries.mk 1 (21 / 20)).next 14 = none := by
  have hone : to_uint64 (1 : ℚ) = 1 := to_uint64_eq 1 1 (by norm_num) (by norm_num)
  have htwo : to_uint64 (1 * (21 / 20 : ℚ) ^ (14 + 1)) = 2 :=
    to_uint64_eq _ 2 (by norm_num) (by norm_num)
  obtain ⟨h1, h2⟩ := next_loop_steps (to_uint64 1) (21 / 20) 14 1
    (fun k _ hk2 => first_powers_below_two k hk2)
    (by rw [htwo, hone]; decide)
  constructor
  · have := h1 fuel hfuel
    rw [htwo] at this
    simp only [GeometricSeries.next, this]
    norm_num
  · have := h2 14 le_rfl
    simp only [GeometricSeries.next, this]

theorem next_loop_consecutive (previous : Nat) :
    ∀ (fuel : Nat) (value : ℚ) (current : Nat) (result : ℚ),
      (previous : ℚ) ≤ value → value < (previous : ℚ) + 1 → value < 20 →
      GeometricSeries.next.loop previous (21 / 20) fuel value = some (current, result) →
      current = previous + 1 := by
  intro fuel
  induction fuel with
  | zero => intro value current result _ _ _ h; simp [GeometricSeries.next.loop] at h
  | succ fuel ih =>
    intro value current result hlow hhigh h20 h
    have h0 : (0 : ℚ) ≤ value := le_trans (Nat.cast_nonneg previous) hlow
    have hup : value * (21 / 20) < (previous : ℚ) + 2 := by linarith
    have hdown : (previous : ℚ) ≤ value * (21 / 20) := by linarith
    unfold GeometricSeries.next.loop at h
    by_cases hc : to_uint64 (value * (21 / 20)) = previous
    · simp only [hc, ne_eq, not_true_eq_false, if_false] at h
      have hlt : value * (21 / 20) < (previous : ℚ) + 1 := by
        have := lt_to_uint64_cast_succ (value * (21 / 20)) (le_trans h0 (by linarith))
        rwa [hc] at this
      have hprev : (previous : ℚ) + 1 ≤ 20 := by
        have hp : (previous : ℚ) < 20 := lt_of_le_of_lt hlow h20
        have hp2 : previous < 20 := by exact_mod_cast hp
        have hp3 : previous + 1 ≤ 20 := hp2
        exact_mod_cast hp3
      exact ih (value * (21 / 20)) current result hdown hlt (lt_of_lt_of_le hlt hprev) h
    · simp only [ne_eq, hc, not_false_eq_true, if_true, Option.some.injEq, Prod.mk.injEq] at h
      obtain ⟨h1, _⟩ := h
      rw [← h1]
      by_cases hge : (previous : ℚ) + 1 ≤ value * (21 / 20)
      · exact to_uint64_eq _ (previous + 1) (by push_cast; exact hge) (by push_cast; linarith)
      · exact absurd (to_uint64_eq _ previous hdown (not_le.mp hge)) hc

theorem next_consecutive (fuel : Nat) (series : GeometricSeries) (hfuel : 15 ≤ fuel)
    (hr : series.ratio = 21 / 20) (hv : 1 ≤ series.value) (h20 : series.value < 20) :
    ∃ next, series.next fuel = some (to_uint64 series.value + 1, next)
      ∧ to_uint64 next.value = to_uint64 series.value + 1
      ∧ 1 ≤ next.value ∧ next.ratio = 21 / 20 := by
  obtain ⟨current, next, hnext, _, _⟩ := next_result fuel series hfuel hv hr
  obtain ⟨_, h2, h3, h4⟩ := next_increases fuel series current next hv hr hnext
  have h0 : (0 : ℚ) ≤ series.value := le_trans zero_le_one hv
  have hcur : current = to_uint64 series.value + 1 := by
    unfold GeometricSeries.next at hnext
    cases hloop : GeometricSeries.next.loop (to_uint64 series.value) series.ratio fuel
        series.value with
    | none => simp [hloop] at hnext
    | some pair =>
      obtain ⟨c, v⟩ := pair
      simp only [hloop, Option.some.injEq, Prod.mk.injEq] at hnext
      rw [hr] at hloop
      rw [← hnext.1]
      exact next_loop_consecutive (to_uint64 series.value) fuel series.value c v
        (to_uint64_cast_le series.value h0) (lt_to_uint64_cast_succ series.value h0) h20 hloop
  subst hcur
  exact ⟨next, hnext, h2, h3, h4⟩

theorem observations_consecutive (fuel : Nat) (hfuel : 15 ≤ fuel) :
    ∀ (rounds : List Round) (series : GeometricSeries), series.ratio = 21 / 20 →
      1 ≤ series.value → to_uint64 series.value + rounds.length ≤ 20 →
      (observations fuel rounds series).map (fun s => s.iterations)
        = List.range' (to_uint64 series.value + 1) rounds.length := by
  intro rounds
  induction rounds with
  | nil => intro series _ _ _; simp [observations]
  | cons round rounds ih =>
    intro series hr hv hlen
    have h0 : (0 : ℚ) ≤ series.value := le_trans zero_le_one hv
    have h20 : series.value < 20 := by
      have h1 := lt_to_uint64_cast_succ series.value h0
      have h2 : to_uint64 series.value + 1 ≤ 20 := by
        simp only [List.length_cons] at hlen
        omega
      have h3 : ((to_uint64 series.value : Nat) : ℚ) + 1 ≤ 20 := by exact_mod_cast h2
      linarith
    obtain ⟨next, hnext, h2, h3, h4⟩ := next_consecutive fuel series hfuel hr hv h20
    have hrec := ih next h4 h3 (by rw [h2]; simp only [List.length_cons] at hlen; omega)
    simp only [observations, hnext, List.map_cons, hrec, h2, List.length_cons, List.range'_succ]

/-- C33: the first call of `next()` on the series of `Benchmark::run` (value 1,
ratio 1.05, exact arithmetic) makes 15 multiplications (14 leave the integer
part at 1) and returns 2. So no round of the sampling loop runs the body once:
every iteration count drawn, and so that of every sample in the report, is at
least 2. While the value of the series is below 20, a call returns the integer
after the one before: the first counts drawn are 2, 3, 4, ... up to 20. -/
theorem first_iteration_count_is_two (fuel : Nat) (hfuel : 15 ≤ fuel) :
    (GeometricSeries.mk 1 (21 / 20)).next fuel
        = some (2, GeometricSeries.mk ((21 / 20) ^ 15) (21 / 20))
      ∧ (GeometricSeries.mk 1 (21 / 20)).next 14 = none
      ∧ (∀ (rounds : List Round),
          ∀ sample ∈ observations fuel rounds (GeometricSeries.mk 1 (21 / 20)),
            2 ≤ sample.iterations)
      ∧ (∀ (self : Benchmark) (limit : Nat) (rounds : List Round),
          ∃ events report, Benchmark.run fuel self limit rounds = some (events, report)
            ∧ (∀ sample ∈ report.samples, 2 ≤ sample.iterations)
            ∧ events = [Event.set_up self.address]
              ++ (observations fuel (rounds_made limit rounds)
                  (GeometricSeries.mk 1 (21 / 20))).flatMap
                (fun sample => List.replicate sample.iterations (Event.execute self.address))
              ++ [Event.tear_down self.address])
      ∧ (∀ series : GeometricSeries, series.ratio = 21 / 20 → 1 ≤ series.value →
          series.value < 20 →
          ∃ next, series.next fuel = some (to_uint64 series.value + 1, next))
      ∧ (∀ rounds : List Round, rounds.length ≤ 19 →
          (observations fuel rounds (GeometricSeries.mk 1 (21 / 20))).map (fun s => s.iterations)
            = List.range' 2 rounds.length) := by
  have hone : to_uint64 (1 : ℚ) = 1 := to_uint64_eq 1 1 (by norm_num) (by norm_num)
  have hall : ∀ (rounds : List Round),
      ∀ sample ∈ observations fuel rounds (GeometricSeries.mk 1 (21 / 20)),
        2 ≤ sample.iterations := by
    intro rounds sample hs
    have h := (observations_increase fuel rounds (GeometricSeries.mk 1 (21 / 20)) le_rfl rfl).2
      sample.iterations (List.mem_map.mpr ⟨sample, hs, rfl⟩)
    have h3 : (GeometricSeries.mk 1 (21 / 20)).value = 1 := rfl
    rw [h3, hone] at h
    exact h
  refine ⟨(first_next fuel hfuel).1, (first_next fuel hfuel).2, hall, ?_, ?_, ?_⟩
  · intro self limit rounds
    obtain ⟨h1, _⟩ := run_loop_spec fuel self limit hfuel rounds
      (GeometricSeries.mk 1 (21 / 20)) [] le_rfl rfl
    refine ⟨[Event.set_up self.address]
        ++ (observations fuel (rounds_made limit rounds)
            (GeometricSeries.mk 1 (21 / 20))).flatMap
          (fun sample => List.replicate sample.iterations (Event.execute self.address))
        ++ [Event.tear_down self.address],
      BenchmarkReport.mk ((observations fuel (rounds_made limit rounds)
        (GeometricSeries.mk 1 (21 / 20))).filter
          (fun sample => decide (sample.duration > 1000000))),
      by simp only [Benchmark.run, h1, List.nil_append], ?_, rfl⟩
    intro sample hs
    exact hall (rounds_made limit rounds) sample (List.mem_filter.mp hs).1
  · intro series hr hv h20
    obtain ⟨next, hnext, _⟩ := next_consecutive fuel series hfuel hr hv h20
    exact ⟨next, hnext⟩
  · intro rounds hlen
    have h := observations_consecutive fuel hfuel rounds (GeometricSeries.mk 1 (21 / 20)) rfl
      le_rfl (by
        have h3 : (GeometricSeries.mk 1 (21 / 20)).value = 1 := rfl
        rw [h3, hone]
        omega)
    have h3 : (GeometricSeries.mk 1 (21 / 20)).value = 1 := rfl
    rw [h3, hone] at h
    exact h

theorem first_iteration_count_is_two_witness :
    15 ≤ 15
      ∧ (GeometricSeries.mk 1 (21 / 20)).next 15
        = some (2, GeometricSeries.mk ((21 / 20) ^ 15) (21 / 20)) :=
  ⟨by decide, (first_iteration_count_is_two 15 (by decide)).1⟩

/-- C34: `next()` returns on every series with a value of at least 1 and a
ratio greater than 1 (exact arithmetic): there is a number of multiplications
that is enough, and with that many or more allowed the loop stops, at a value
that is not below the one it started from and whose integer part, which is
returned, is not the one it started from. -/
theorem next_terminates (self : GeometricSeries) (hv : 1 ≤ self.value)
    (hr : 1 < self.ratio) :
    ∃ bound, ∀ fuel, bound ≤ fuel →
      ∃ current series, self.next fuel = some (current, series)
        ∧ current ≠ to_uint64 self.value ∧ current = to_uint64 series.value
        ∧ self.value ≤ series.value ∧ series.ratio = self.ratio := by
  have h0 : (0 : ℚ) ≤ self.value := le_trans zero_le_one hv
  obtain ⟨bound, hbound⟩ := pow_unbounded_of_one_lt (((to_uint64 self.value : Nat) : ℚ) + 1) hr
  refine ⟨bound, ?_⟩
  intro fuel hfuel
  have hpow : ((to_uint64 self.value : Nat) : ℚ) + 1 ≤ self.value * self.ratio ^ fuel := by
    have h1 : self.ratio ^ bound ≤ self.ratio ^ fuel := pow_le_pow_right₀ hr.le hfuel
    have h2 : (0 : ℚ) ≤ self.ratio ^ fuel := pow_nonneg (le_trans zero_le_one hr.le) fuel
    have h3 : 1 * self.ratio ^ fuel ≤ self.value * self.ratio ^ fuel :=
      mul_le_mul_of_nonneg_right hv h2
    linarith
  obtain ⟨current, result, hres, _⟩ :=
    next_loop_some (to_uint64 self.value) self.ratio hr.le fuel self.value h0
      (lt_to_uint64_cast_succ self.value h0) hpow
  obtain ⟨h1, h2, h3⟩ := next_loop_result (to_uint64 self.value) self.ratio hr.le fuel
    self.value current result h0 hres
  exact ⟨current, { self with value := result }, by simp [GeometricSeries.next, hres], h2, h1,
    h3, rfl⟩

theorem next_terminates_witness :
    1 ≤ (GeometricSeries.mk 1 (21 / 20)).value ∧ 1 < (GeometricSeries.mk 1 (21 / 20)).ratio
      ∧ ∃ bound, ∀ fuel, bound ≤ fuel →
        ∃ current series, (GeometricSeries.mk 1 (21 / 20)).next fuel = some (current, series)
          ∧ current ≠ to_uint64 (GeometricSeries.mk 1 (21 / 20)).value
          ∧ current = to_uint64 series.value
          ∧ (GeometricSeries.mk 1 (21 / 20)).value ≤ series.value
          ∧ series.ratio = (GeometricSeries.mk 1 (21 / 20)).ratio :=
  ⟨le_refl _, by norm_num,
    next_terminates (GeometricSeries.mk 1 (21 / 20)) (le_refl _) (by norm_num)⟩

/-! ## The divisor of the slope -/

theorem regression_bars (samples : List Sample) (hne : samples ≠ []) :
    Double.div (Double.of_uint64 (samples.foldl Sample.add (Sample.mk 0 0)).iterations)
        (Double.of_uint64 samples.length) = Double.finite (x_bar samples)
      ∧ Double.div (Double.of_uint64 (samples.foldl Sample.add (Sample.mk 0 0)).duration)
        (Double.of_uint64 samples.length) = Double.finite (y_bar samples) := by
  simp [Double.of_uint64, Double.div, length_ne_zero samples hne, x_bar, y_bar]

theorem slope_denominator_eq (samples : List Sample) (hne : samples ≠ []) :
    LinearRegression.slope_denominator samples
      = Double.finite (samples.map (fun s => ((s.iterations : ℚ) - x_bar samples) ^ 2)).sum := by
  obtain ⟨hx, hy⟩ := regression_bars samples hne
  unfold LinearRegression.slope_denominator
  simp only [hx, hy, slope_sums_eq]

theorem slope_eq (samples : List Sample) (hne : samples ≠ []) :
    (LinearRegression.LinearRegression samples).b1
      = Double.div
          (Double.finite (samples.map (fun s =>
            ((s.iterations : ℚ) - x_bar samples) * ((s.duration : ℚ) - y_bar samples))).sum)
          (LinearRegression.slope_denominator samples) := by
  rw [slope_denominator_eq samples hne]
  obtain ⟨hx, hy⟩ := regression_bars samples hne
  rw [regression_eq]
  simp only [hx, hy, slope_sums_eq]

theorem squares_sum_pos (samples : List Sample) (center : ℚ) (h : two_counts samples) :
    0 < (samples.map (fun s => ((s.iterations : ℚ) - center) ^ 2)).sum := by
  have hnn : ∀ v ∈ samples.map (fun s : Sample => ((s.iterations : ℚ) - center) ^ 2),
      0 ≤ v := by
    intro v hv
    obtain ⟨u, _, hu⟩ := List.mem_map.mp hv
    rw [← hu]
    exact sq_nonneg _
  rcases lt_or_eq_of_le (List.sum_nonneg hnn) with hpos | hzero
  · exact hpos
  · exfalso
    obtain ⟨s, hs, t, ht, hst⟩ := h
    have hall := sum_eq_zero_of_nonneg _ hnn hzero.symm
    have hs0 := hall _ (List.mem_map.mpr ⟨s, hs, rfl⟩)
    have ht0 := hall _ (List.mem_map.mpr ⟨t, ht, rfl⟩)
    have h1 : (s.iterations : ℚ) = center := by
      have := pow_eq_zero_iff (two_ne_zero) |>.mp hs0
      linarith
    have h2 : (t.iterations : ℚ) = center := by
      have := pow_eq_zero_iff (two_ne_zero) |>.mp ht0
      linarith
    have h3 : (s.iterations : ℚ) = (t.iterations : ℚ) := by rw [h1, h2]
    exact hst (by exact_mod_cast h3)

theorem two_counts_of_increasing (samples : List Sample)
    (hinc : (samples.map (fun s => s.iterations)).Pairwise (fun a b => a < b))
    (hlen : 2 ≤ samples.length) : two_counts samples := by
  match samples, hinc, hlen with
  | a :: b :: rest, hinc, _ =>
    simp only [List.map_cons, List.pairwise_cons, List.mem_cons] at hinc
    have hab : a.iterations < b.iterations := hinc.1 b.iterations (Or.inl rfl)
    exact ⟨a, by simp, b, by simp, Nat.ne_of_lt hab⟩

theorem filter_counts_increase (samples : List Sample) (p : Sample → Bool)
    (hinc : (samples.map (fun s => s.iterations)).Pairwise (fun a b => a < b)) :
    ((samples.filter p).map (fun s => s.iterations)).Pairwise (fun a b => a < b) :=
  List.Pairwise.sublist (List.Sublist.map _ (List.filter_sublist samples)) hinc

/-- C35: `Benchmark::run` returns, and in its report the iteration counts of
the samples are strictly increasing. So when the report has two samples or
more, the divisor of the slope division, the sum of the squares of the
differences of the iteration counts from `xbar`, is a positive number, and the
slope is a number. -/
theorem retained_counts_make_slope_defined (fuel : Nat) (self : Benchmark) (limit : Nat)
    (rounds : List Round) (hfuel : 15 ≤ fuel) :
    ∃ events report, Benchmark.run fuel self limit rounds = some (events, report)
      ∧ (report.samples.map (fun s => s.iterations)).Pairwise (fun a b => a < b)
      ∧ (2 ≤ report.samples.length →
          ∃ denominator slope : ℚ, 0 < denominator
            ∧ LinearRegression.slope_denominator report.samples = Double.finite denominator
            ∧ denominator
              = (report.samples.map
                  (fun s => ((s.iterations : ℚ) - x_bar report.samples) ^ 2)).sum
            ∧ report.ols.b1 = Double.finite slope) := by
  obtain ⟨h1, _⟩ := run_loop_spec fuel self limit hfuel rounds
    (GeometricSeries.mk 1 (21 / 20)) [] le_rfl rfl
  have hinc := filter_counts_increase
    (observations fuel (rounds_made limit rounds) (GeometricSeries.mk 1 (21 / 20)))
    (fun sample => decide (sample.duration > 1000000))
    (observations_increase fuel (rounds_made limit rounds) (GeometricSeries.mk 1 (21 / 20))
      le_rfl rfl).1
  refine ⟨[Event.set_up self.address]
      ++ (observations fuel (rounds_made limit rounds) (GeometricSeries.mk 1 (21 / 20))).flatMap
        (fun sample => List.replicate sample.iterations (Event.execute self.address))
      ++ [Event.tear_down self.address],
    BenchmarkReport.mk ((observations fuel (rounds_made limit rounds)
      (GeometricSeries.mk 1 (21 / 20))).filter
        (fun sample => decide (sample.duration > 1000000))),
    by simp only [Benchmark.run, h1, List.nil_append], hinc, ?_⟩
  intro hlen
  generalize (observations fuel (rounds_made limit rounds) (GeometricSeries.mk 1 (21 / 20))).filter
    (fun sample => decide (sample.duration > 1000000)) = samples at hinc hlen ⊢
  simp only at hlen ⊢
  have hcounts := two_counts_of_increasing samples hinc hlen
  have hne : samples ≠ [] := by
    intro e
    rw [e] at hlen
    simp at hlen
  have hpos := squares_sum_pos samples (x_bar samples) hcounts
  refine ⟨(samples.map (fun s => ((s.iterations : ℚ) - x_bar samples) ^ 2)).sum,
    (samples.map (fun s =>
        ((s.iterations : ℚ) - x_bar samples) * ((s.duration : ℚ) - y_bar samples))).sum
      / (samples.map (fun s => ((s.iterations : ℚ) - x_bar samples) ^ 2)).sum,
    hpos, slope_denominator_eq samples hne, rfl, ?_⟩
  unfold BenchmarkReport.ols
  simp only
  rw [slope_eq samples hne, slope_denominator_eq samples hne]
  simp only [Double.div, ne_of_gt hpos, if_false]

theorem retained_counts_make_slope_defined_witness :
    15 ≤ 15
      ∧ ∃ events report,
        Benchmark.run 15 (Benchmark.mk 100) 5000000000 (busy_clock (Benchmark.mk 100))
          = some (events, report)
        ∧ (report.samples.map (fun s => s.iterations)).Pairwise (fun a b => a < b)
        ∧ (2 ≤ report.samples.length →
            ∃ denominator slope : ℚ, 0 < denominator
              ∧ LinearRegression.slope_denominator report.samples = Double.finite denominator
              ∧ denominator
                = (report.samples.map
                    (fun s => ((s.iterations : ℚ) - x_bar report.samples) ^ 2)).sum
              ∧ report.ols.b1 = Double.finite slope) :=
  ⟨by decide,
    retained_counts_make_slope_defined 15 (Benchmark.mk 100) 5000000000
      (busy_clock (Benchmark.mk 100)) (by decide)⟩

theorem sum_of_equal_counts (samples : List Sample) (count : Nat)
    (hsame : ∀ s ∈ samples, s.iterations = count) :
    (samples.map (fun s => s.iterations)).sum = samples.length * count := by
  induction samples with
  | nil => simp
  | cons s samples ih =>
    have hs : s.iterations = count := hsame s (by simp)
    have hrest : ∀ t ∈ samples, t.iterations = count := fun t ht => hsame t (by simp [ht])
    simp only [List.map_cons, List.sum_cons, List.length_cons, ih hrest, hs]
    ring

theorem x_bar_of_equal_counts (samples : List Sample) (count : Nat) (hne : samples ≠ [])
    (hsame : ∀ s ∈ samples, s.iterations = count) (hfit : samples.length * count < 2 ^ 64) :
    x_bar samples = (count : ℚ) := by
  have h0 := sample_fold samples 0 0
  simp only [Nat.zero_mod, Nat.zero_add] at h0
  unfold x_bar
  rw [h0, sum_of_equal_counts samples count hsame, Nat.mod_eq_of_lt hfit]
  have hlen := length_ne_zero samples hne
  push_cast
  field_simp

/-- C36, as stated, fails: two samples of 2^63 iterations each have the same
iteration count, but their sum wraps to 0 in `uint64_t`, so `xbar` is 0, the
divisor of the slope is 2^127 and not zero, and the slope is the number 0. -/
theorem equal_counts_with_wrapped_sum :
    wrapping_samples ≠ []
      ∧ (∀ s ∈ wrapping_samples, s.iterations = 2 ^ 63)
      ∧ LinearRegression.slope_denominator wrapping_samples = Double.finite (2 ^ 127)
      ∧ LinearRegression.slope_denominator wrapping_samples ≠ Double.finite 0
      ∧ (LinearRegression.LinearRegression wrapping_samples).b1 = Double.finite 0 := by
  have hne : wrapping_samples ≠ [] := by simp [wrapping_samples]
  have hx : x_bar wrapping_samples = 0 := by
    simp [x_bar, wrapping_samples, sample_add_eq]
  have hy : y_bar wrapping_samples = 2000000 := by
    simp [y_bar, wrapping_samples, sample_add_eq]
    norm_num
  have hden : LinearRegression.slope_denominator wrapping_samples = Double.finite (2 ^ 127) := by
    rw [slope_denominator_eq wrapping_samples hne, hx]
    simp [wrapping_samples]
    norm_num
  refine ⟨hne, ?_, hden, ?_, ?_⟩
  · intro s hs
    simp only [wrapping_samples, List.mem_cons, List.mem_singleton, List.not_mem_nil,
      or_false, or_self] at hs
    rw [hs]
  · rw [hden]
    simp
  · rw [slope_eq wrapping_samples hne, hden, hx, hy]
    simp [wrapping_samples, Double.div]

theorem regression_divisors (samples : List Sample) :
    ∃ last, (LinearRegression.LinearRegression.traced samples).divisors
      = (LinearRegression.accumulate samples).divisors
        ++ [Double.of_uint64 samples.length, Double.of_uint64 samples.length,
            LinearRegression.slope_denominator samples, last] := by
  unfold LinearRegression.LinearRegression.traced LinearRegression.slope_denominator
  simp only [Double.divide, accumulate_value, List.append_assoc, List.singleton_append,
    List.cons_append, List.nil_append]
  exact ⟨_, rfl⟩

/-- C36, with a sum of the iteration counts of at most 2^53 (so it does not
wrap in `uint64_t` and its conversion to `double` is exact): for a list of
samples that is not empty and whose samples all have the same iteration count,
`xbar` is that count, the slope division is executed with the divisor zero, and
the slope is not a number. A list of one sample always has the divisor zero. -/
theorem equal_counts_divide_by_zero (samples : List Sample) (count : Nat)
    (hne : samples ≠ []) (hsame : ∀ s ∈ samples, s.iterations = count)
    (hfit : samples.length * count ≤ 2 ^ 53) :
    x_bar samples = (count : ℚ)
      ∧ LinearRegression.slope_denominator samples = Double.finite 0
      ∧ (∃ last, (LinearRegression.LinearRegression.traced samples).divisors
          = (LinearRegression.accumulate samples).divisors
            ++ [Double.of_uint64 samples.length, Double.of_uint64 samples.length,
                Double.finite 0, last])
      ∧ (LinearRegression.LinearRegression samples).b1 = Double.nan
      ∧ (∀ sample : Sample, sample.iterations < 2 ^ 64 →
          LinearRegression.slope_denominator [sample] = Double.finite 0
            ∧ (LinearRegression.LinearRegression [sample]).b1 = Double.nan) := by
  have hmain : ∀ (l : List Sample) (c : Nat), l ≠ [] → (∀ s ∈ l, s.iterations = c) →
      l.length * c < 2 ^ 64 →
      x_bar l = (c : ℚ) ∧ LinearRegression.slope_denominator l = Double.finite 0
        ∧ (LinearRegression.LinearRegression l).b1 = Double.nan := by
    intro l c hl hc hf
    have hx := x_bar_of_equal_counts l c hl hc hf
    have hzero : (l.map (fun s => ((s.iterations : ℚ) - x_bar l) ^ 2)).sum = 0 := by
      rw [hx]
      apply List.sum_eq_zero
      intro v hv
      obtain ⟨u, hu, huv⟩ := List.mem_map.mp hv
      rw [← huv, hc u hu]
      simp
    have hden : LinearRegression.slope_denominator l = Double.finite 0 := by
      rw [slope_denominator_eq l hl, hzero]
    refine ⟨hx, hden, ?_⟩
    rw [slope_eq l hl, hden]
    simp [Double.div]
  have hwrap : samples.length * count < 2 ^ 64 :=
    lt_of_le_of_lt hfit (by norm_num)
  obtain ⟨h1, h2, h3⟩ := hmain samples count hne hsame hwrap
  refine ⟨h1, h2, ?_, h3, ?_⟩
  · obtain ⟨last, hlast⟩ := regression_divisors samples
    rw [h2] at hlast
    exact ⟨last, hlast⟩
  · intro sample hs
    obtain ⟨_, h5, h6⟩ := hmain [sample] sample.iterations (by simp)
      (by intro s hmem; simp at hmem; rw [hmem]) (by simpa using hs)
    exact ⟨h5, h6⟩

theorem equal_counts_divide_by_zero_witness :
    [Sample.mk 5 2000000, Sample.mk 5 2000300] ≠ []
      ∧ (∀ s ∈ [Sample.mk 5 2000000, Sample.mk 5 2000300], s.iterations = 5)
      ∧ [Sample.mk 5 2000000, Sample.mk 5 2000300].length * 5 ≤ 2 ^ 53
      ∧ LinearRegression.slope_denominator [Sample.mk 5 2000000, Sample.mk 5 2000300]
        = Double.finite 0
      ∧ (LinearRegression.LinearRegression [Sample.mk 5 2000000, Sample.mk 5 2000300]).b1
        = Double.nan :=
  ⟨by simp, by simp, by simp,
    (equal_counts_divide_by_zero [Sample.mk 5 2000000, Sample.mk 5 2000300] 5 (by simp)
      (by simp) (by simp)).2.1,
    (equal_counts_divide_by_zero [Sample.mk 5 2000000, Sample.mk 5 2000300] 5 (by simp)
      (by simp) (by simp)).2.2.2.1⟩

/-! ## Distances across the sign bit -/

theorem bit_distance_eq_zero (left right : Nat) :
    bit_distance left right = 0 ↔ left = right := by
  unfold bit_distance
  omega

/-- C37: `get_ulp_difference` takes the bit patterns as unsigned integers, the
sign bit included. The distance of `+0.0f` and `-0.0f`, which are both zeros, is
2^31, and 2^63 for `double`; so the equality check of the two zeros passes only
with a tolerance of 2^31 (2^63) or more and returns a failure for every smaller
one. The distance of two values is 0 exactly when their bit patterns are the
same. -/
theorem zeros_of_opposite_sign_are_far_apart
    (stringify32 : Representation 32 → Option String)
    (stringify64 : Representation 64 → Option String) (assertion : Assertion) :
    detail.get_ulp_difference_float positive_zero_float negative_zero_float = 2 ^ 31
      ∧ detail.get_ulp_difference_double positive_zero_double negative_zero_double = 2 ^ 63
      ∧ positive_zero_float.is_zero = true ∧ negative_zero_float.is_zero = true
      ∧ positive_zero_double.is_zero = true ∧ negative_zero_double.is_zero = true
      ∧ (∀ ulp : Nat,
          detail.fpcmp stringify32 assertion positive_zero_float negative_zero_float ulp
            less_equal = PASS ↔ 2 ^ 31 ≤ ulp)
      ∧ (∀ ulp : Nat, ulp < 2 ^ 31 →
          (detail.fpcmp stringify32 assertion positive_zero_float negative_zero_float ulp
            less_equal).isSome = true)
      ∧ (∀ ulp : Nat,
          detail.fpcmp stringify64 assertion positive_zero_double negative_zero_double ulp
            less_equal = PASS ↔ 2 ^ 63 ≤ ulp)
      ∧ (∀ ulp : Nat, ulp < 2 ^ 63 →
          (detail.fpcmp stringify64 assertion positive_zero_double negative_zero_double ulp
            less_equal).isSome = true)
      ∧ (∀ left right : Representation 32,
          detail.get_ulp_difference_float left right = 0 ↔ left.bits = right.bits)
      ∧ (∀ left right : Representation 64,
          detail.get_ulp_difference_double left right = 0 ↔ left.bits = right.bits) := by
  have h32 : detail.get_ulp_difference positive_zero_float negative_zero_float = 2 ^ 31 := by
    rw [get_ulp_difference_eq (by decide)]
    decide
  have h64 : detail.get_ulp_difference positive_zero_double negative_zero_double = 2 ^ 63 := by
    rw [get_ulp_difference_eq (by decide)]
    decide
  have hpass32 : ∀ ulp : Nat,
      detail.fpcmp stringify32 assertion positive_zero_float negative_zero_float ulp
        less_equal = PASS ↔ 2 ^ 31 ≤ ulp := by
    intro ulp
    by_cases h : 2 ^ 31 ≤ ulp
    · simp only [h, iff_true]
      exact fpcmp_pass _ _ _ _ _ _ (by rw [h32]; simpa [less_equal] using h)
    · simp only [h, iff_false]
      rw [fpcmp_fail _ _ _ _ _ _ (by rw [h32]; simpa [less_equal] using h)]
      simp [PASS]
  have hpass64 : ∀ ulp : Nat,
      detail.fpcmp stringify64 assertion positive_zero_double negative_zero_double ulp
        less_equal = PASS ↔ 2 ^ 63 ≤ ulp := by
    intro ulp
    by_cases h : 2 ^ 63 ≤ ulp
    · simp only [h, iff_true]
      exact fpcmp_pass _ _ _ _ _ _ (by rw [h64]; simpa [less_equal] using h)
    · simp only [h, iff_false]
      rw [fpcmp_fail _ _ _ _ _ _ (by rw [h64]; simpa [less_equal] using h)]
      simp [PASS]
  refine ⟨h32, h64, by decide, by decide, by decide, by decide, hpass32, ?_, hpass64, ?_, ?_, ?_⟩
  · intro ulp hulp
    rw [fpcmp_fail _ _ _ _ _ _ (by rw [h32]; simpa [less_equal] using hulp)]
    rfl
  · intro ulp hulp
    rw [fpcmp_fail _ _ _ _ _ _ (by rw [h64]; simpa [less_equal] using hulp)]
    rfl
  · intro left right
    unfold detail.get_ulp_difference_float
    rw [get_ulp_difference_eq (by decide)]
    exact bit_distance_eq_zero _ _
  · intro left right
    unfold detail.get_ulp_difference_double
    rw [get_ulp_difference_eq (by decide)]
    exact bit_distance_eq_zero _ _

/-! ## Compensated summation in exact arithmetic -/

theorem average_finite (sample : Sample) (h : sample.iterations ≠ 0) :
    sample.average = Double.finite (average_of sample) := by
  have hq : (sample.iterations : ℚ) ≠ 0 := by exact_mod_cast h
  simp [Sample.average, Double.div, Double.of_uint64, average_of, hq]

/-- C39: in exact arithmetic, adding a finite sequence of numbers to a new
`KahanSummation` leaves the correction at 0 and the sum at the ordinary sum of
the numbers, so `calculate_mean` is that sum divided by the count: for a vector
of doubles, and for a vector of samples (by their per-iteration averages). -/
theorem kahan_is_plain_summation (values : List ℚ) (samples : List Sample)
    (hpositive : ∀ s ∈ samples, s.iterations ≠ 0) :
    (values.map Double.finite).foldl KahanSummation.add {}
        = KahanSummation.mk (Double.finite values.sum) (Double.finite 0)
      ∧ calculate_mean_doubles (values.map Double.finite)
        = Double.div (Double.finite values.sum) (Double.of_uint64 values.length)
      ∧ (values ≠ [] → calculate_mean_doubles (values.map Double.finite)
          = Double.finite (values.sum / (values.length : ℚ)))
      ∧ samples.foldl KahanSummation.add_sample {}
        = KahanSummation.mk (Double.finite (samples.map average_of).sum) (Double.finite 0)
      ∧ calculate_mean samples
        = Double.div (Double.finite (samples.map average_of).sum)
            (Double.of_uint64 samples.length)
      ∧ (samples ≠ [] → calculate_mean samples
          = Double.finite ((samples.map average_of).sum / (samples.length : ℚ))) := by
  have hvalues : (values.map Double.finite).foldl KahanSummation.add {}
      = KahanSummation.mk (Double.finite values.sum) (Double.finite 0) := by
    have h := kahan_fold (fun v : ℚ => Double.finite v) (fun v => v) values
      (fun _ _ => rfl) 0
    rw [List.foldl_map]
    simpa using h
  have hsamples : samples.foldl KahanSummation.add_sample {}
      = KahanSummation.mk (Double.finite (samples.map average_of).sum) (Double.finite 0) := by
    have h := kahan_fold (fun s : Sample => s.average) average_of samples
      (fun s hs => average_finite s (hpositive s hs)) 0
    simp only [zero_add] at h
    exact h
  refine ⟨hvalues, ?_, ?_, hsamples, ?_, ?_⟩
  · rw [calculate_mean_doubles_eq]
    rw [hvalues]
    simp
  · intro hne
    have hlen : (values.length : ℚ) ≠ 0 := by
      have : values.length ≠ 0 := fun e => hne (List.length_eq_zero.mp e)
      exact_mod_cast this
    rw [calculate_mean_doubles_eq]
    rw [hvalues]
    simp [Double.div, Double.of_uint64, hlen]
  · rw [calculate_mean_eq]
    rw [hsamples]
  · intro hne
    rw [calculate_mean_eq]
    rw [hsamples]
    simp [Double.div, Double.of_uint64, length_ne_zero samples hne]

theorem kahan_is_plain_summation_witness :
    (∀ s ∈ example_samples, s.iterations ≠ 0)
      ∧ ([(1 : ℚ) / 3, 1 / 6, 1 / 2].map Double.finite).foldl KahanSummation.add {}
        = KahanSummation.mk (Double.finite [(1 : ℚ) / 3, 1 / 6, 1 / 2].sum) (Double.finite 0)
      ∧ calculate_mean example_samples
        = Double.div (Double.finite (example_samples.map average_of).sum)
            (Double.of_uint64 example_samples.length) :=
  ⟨by simp [example_samples],
    (kahan_is_plain_summation [(1 : ℚ) / 3, 1 / 6, 1 / 2] example_samples
      (by simp [example_samples])).1,
    (kahan_is_plain_summation [(1 : ℚ) / 3, 1 / 6, 1 / 2] example_samples
      (by simp [example_samples])).2.2.2.2.1⟩

/-! ## The first decisive argument -/

theorem parse_loop_accepted (L : StdLib) (name : String) (benchmarks : Bool) :
    ∀ (before : List String) (self : Options),
      (∀ argument ∈ before, accepted L benchmarks argument = true) →
      ∃ options, ∀ rest : List String,
        Options.parse.loop L name benchmarks (before ++ rest) self
          = Options.parse.loop L name benchmarks rest options := by
  intro before
  induction before with
  | nil => intro self _; exact ⟨self, fun _ => rfl⟩
  | cons first before ih =>
    intro self hall
    have hfirst : accepted L benchmarks first = true := hall first (by simp)
    have hrest : ∀ argument ∈ before, accepted L benchmarks argument = true :=
      fun argument h => hall argument (by simp [h])
    unfold accepted at hfirst
    rw [Bool.and_eq_true] at hfirst
    obtain ⟨hne, hform⟩ := hfirst
    have hhelp : ¬ first = "--help" := by simpa using hne
    by_cases hlimit : (benchmarks && starts_with first "--limit=") = true
    · rw [if_pos hlimit] at hform
      have hs : (L.strtod (substr8 first)).2 = (substr8 first).length := by simpa using hform
      have hp : Options.parse_limit L self (substr8 first)
          = ([],
              { self with limit :=
                  to_uint64 (1000000000 * (L.strtod (substr8 first)).1) % 2 ^ 64 },
              true) := by
        simp [Options.parse_limit, hs]
      obtain ⟨options, hoptions⟩ := ih
        { self with limit := to_uint64 (1000000000 * (L.strtod (substr8 first)).1) % 2 ^ 64 }
        hrest
      refine ⟨options, ?_⟩
      intro rest
      rw [← hoptions rest, List.cons_append]
      conv_lhs => unfold Options.parse.loop
      rw [if_neg hhelp, if_pos hlimit, hp]
      exact parse_loop_continue L name benchmarks (before ++ rest) _
    · rw [if_neg hlimit] at hform
      simp only [Bool.and_eq_true] at hform
      obtain ⟨hregex, hvalid⟩ := hform
      have hp : Options.parse_regex L self (substr8 first)
          = ([], { self with regex := substr8 first }, true) := by
        simp [Options.parse_regex, hvalid]
      obtain ⟨options, hoptions⟩ := ih { self with regex := substr8 first } hrest
      refine ⟨options, ?_⟩
      intro rest
      rw [← hoptions rest, List.cons_append]
      conv_lhs => unfold Options.parse.loop
      rw [if_neg hhelp, if_neg hlimit, if_pos hregex, hp]
      exact parse_loop_continue L name benchmarks (before ++ rest) _

theorem parse_loop_unknown (L : StdLib) (name : String) (benchmarks : Bool)
    (argument : String) (after : List String) (self : Options)
    (h : unknown_argument benchmarks argument = true) :
    Options.parse.loop L name benchmarks (argument :: after) self
      = ([Event.error "invalid argument" argument], self, some 1) := by
  simp only [unknown_argument, Bool.and_eq_true, bne_iff_ne, ne_eq, Bool.not_eq_true',
    Bool.and_eq_false_imp] at h
  obtain ⟨⟨hhelp, hlimit⟩, hregex⟩ := h
  unfold Options.parse.loop
  rw [if_neg hhelp]
  by_cases hb : (benchmarks && starts_with argument "--limit=") = true
  · simp only [Bool.and_eq_true] at hb
    have := hlimit hb.1
    rw [hb.2] at this
    exact absurd this (by simp)
  · rw [if_neg hb, if_neg (by simp [hregex])]

/-- C40: `Options::parse` goes through the arguments from left to right and
stops at the first that decides. After arguments that are all accepted, `--help`
makes it print the help text and return exit code 0 whatever follows, and `run`
then returns 0 with no other event; an argument that is not `--help` and begins
neither with `--limit=` (when parsing for benchmarks) nor with `--regex=` makes
it report an invalid argument and return exit code 1; and at the end of the
arguments it returns no exit code and has printed nothing, and `run` goes on to
the start event, the filtered units and the end event. -/
theorem parse_stops_at_first_decisive_argument (fuel : Nat) (L : StdLib)
    (clock : Benchmark → List Round) (name : String) (benchmarks : Bool)
    (before after : List String) (self : Options) (instances : List (Instance Benchmark))
    (hfuel : 15 ≤ fuel)
    (hbefore : ∀ argument ∈ before, accepted L benchmarks argument = true)
    (hrun : ∀ argument ∈ before, accepted L true argument = true) :
    (∃ options,
        Options.parse L self (name :: (before ++ "--help" :: after)) benchmarks
          = ([Event.print_help name benchmarks], options, some 0))
      ∧ (∀ argument : String, unknown_argument benchmarks argument = true →
          ∃ options,
            Options.parse L self (name :: (before ++ argument :: after)) benchmarks
              = ([Event.error "invalid argument" argument], options, some 1))
      ∧ (∃ options, Options.parse L self (name :: before) benchmarks = ([], options, none))
      ∧ run fuel L clock (name :: (before ++ "--help" :: after)) instances
        = some ([Event.print_help name true], 0)
      ∧ (∀ argument : String, unknown_argument true argument = true →
          run fuel L clock (name :: (before ++ argument :: after)) instances
            = some ([Event.error "invalid argument" argument], 1))
      ∧ (∃ options, Options.parse L {} (name :: before) true = ([], options, none)
          ∧ run fuel L clock (name :: before) instances
            = some ([Event.handle_start (filtered_by L options.regex instances).length]
                ++ schedule (member_events fuel clock options) []
                    (filtered_by L options.regex instances) []
                ++ [Event.handle_end], 0)) := by
  have hparse : ∀ (arguments : List String) (flag : Bool) (options : Options),
      Options.parse L options (name :: arguments) flag
        = Options.parse.loop L name flag arguments options := by
    intro arguments flag options
    simp [Options.parse]
  have hhelp : ∀ (flag : Bool) (options : Options),
      Options.parse.loop L name flag ("--help" :: after) options
        = ([Event.print_help name flag], options, some 0) := by
    intro flag options
    unfold Options.parse.loop
    simp
  have hend : ∀ (flag : Bool) (options : Options),
      Options.parse.loop L name flag [] options = ([], options, none) := by
    intro flag options
    unfold Options.parse.loop
    rfl
  obtain ⟨options, hoptions⟩ := parse_loop_accepted L name benchmarks before self hbefore
  obtain ⟨options2, hoptions2⟩ := parse_loop_accepted L name true before {} hrun
  refine ⟨⟨options, ?_⟩, ?_, ⟨options, ?_⟩, ?_, ?_, ⟨options2, ?_, ?_⟩⟩
  · rw [hparse, hoptions, hhelp]
  · intro argument hunknown
    exact ⟨options, by rw [hparse, hoptions, parse_loop_unknown L name benchmarks argument
      after options hunknown]⟩
  · have := hoptions []
    rw [List.append_nil] at this
    rw [hparse, this, hend]
  · have h : Options.parse L {} (name :: (before ++ "--help" :: after)) true
        = ([Event.print_help name true], options2, some 0) := by
      rw [hparse, hoptions2, hhelp]
    simp only [run, h]
  · intro argument hunknown
    have h : Options.parse L {} (name :: (before ++ argument :: after)) true
        = ([Event.error "invalid argument" argument], options2, some 1) := by
      rw [hparse, hoptions2, parse_loop_unknown L name true argument after options2 hunknown]
    simp only [run, h]
  · have := hoptions2 []
    rw [List.append_nil] at this
    rw [hparse, this, hend]
  · have h : Options.parse L {} (name :: before) true = ([], options2, none) := by
      have := hoptions2 []
      rw [List.append_nil] at this
      rw [hparse, this, hend]
    exact run_spec fuel L clock (name :: before) instances [] options2 hfuel h

theorem parse_stops_at_first_decisive_argument_witness :
    15 ≤ 15
      ∧ (∀ argument ∈ ["--regex=A.*"], accepted example_std true argument = true)
      ∧ unknown_argument true "--bogus" = true
      ∧ run 15 example_std example_clock ("bench" :: (["--regex=A.*"] ++ "--help" :: ["--bogus"]))
          example_benchmarks
        = some ([Event.print_help "bench" true], 0)
      ∧ run 15 example_std example_clock
          ("bench" :: (["--regex=A.*"] ++ "--bogus" :: ["--bogus"])) example_benchmarks
        = some ([Event.error "invalid argument" "--bogus"], 1) :=
  ⟨by decide, by decide, by decide,
    (parse_stops_at_first_decisive_argument 15 example_std example_clock "bench" true
      ["--regex=A.*"] ["--bogus"] {} example_benchmarks (by decide) (by decide)
      (by decide)).2.2.2.1,
    (parse_stops_at_first_decisive_argument 15 example_std example_clock "bench" true
      ["--regex=A.*"] ["--bogus"] {} example_benchmarks (by decide) (by decide)
      (by decide)).2.2.2.2.1 "--bogus" (by decide)⟩

end accel
